import Mathlib

set_option maxHeartbeats 1000000

namespace DynFiles

/-!
Shallow embedding of `parsl/data_provider/dynamic_files.py` (classes
`DynamicFileList`, `DynamicFileList.DynamicFile`, `DynamicFileSubList`)
together with the behaviour of `parsl/app/futures.py` (`DataFuture`) that the
list depends on.  Python objects are heap references: wrappers live in a heap
addressed by `oid`, the list's slots and the completion-predicate map store
those references.  The staging side effect is recorded by a per-wrapper counter
`stageCount`; interactions with external collaborators (the dataflow kernel,
the staging provider, logging, provenance capture, timestamps) are outside the
model and only their control-flow effects are kept.
-/

/-- Artifact identity: a file-like value with a path.  Further metadata
(uuid, timestamp, size, checksum) lives on the external identity model and is
not needed by the claims. -/
structure File where
  fname : String
deriving DecidableEq, Repr

/-- Resolution state of a future: pending, resolved with a result, or resolved
with an exception.  Exceptions are identified by a numeric code. -/
inductive FState where
  | pending : FState
  | ok : FState
  | error : Nat → FState
deriving DecidableEq, Repr

/-- Errors raised by the container operations (Python ValueError / KeyError /
IndexError / TypeError). -/
inductive Err where
  | valueError : String → Err
  | keyError : Err
  | indexError : Err
  | typeError : String → Err
deriving DecidableEq, Repr

/-- Model of `parsl.app.futures.DataFuture`: wraps a `File`, carries the task
id, and has its own future state.  Its parent callback reads the raw
`_exception` attribute of the owning list, so it is the one future in the chain
that really sees a failure. -/
structure DF where
  file_obj : File
  tid : Option Nat
  state : FState
deriving DecidableEq, Repr

/-- The `file_obj` field of a `DynamicFile`: nothing, a bare `File`, a
`DataFuture`, or (after `DynamicFile.set` received another wrapper) a reference
to a nested `DynamicFile` given by its heap id. -/
inductive FileObj where
  | fnone : FileObj
  | file : File → FileObj
  | df : DF → FileObj
  | dyn : Nat → FileObj
deriving DecidableEq, Repr

/-- Model of `DynamicFileList.DynamicFile`.  `oid` is the wrapper's heap
identity; `state` is its own future state; `is_df` mirrors `_is_df`,
`emptyFlag` mirrors `_empty`, `stagedOut` mirrors `_staged_out` (which the code
initialises to False and never updates); `stageCount` counts the executions of
the staging side effect for this wrapper. -/
structure DynFile where
  oid : Nat
  file_obj : FileObj
  is_df : Bool
  emptyFlag : Bool
  stagedOut : Bool
  state : FState
  stageCount : Nat
deriving DecidableEq, Repr

/-- One registered `DynamicFileSubList` view: its slice bounds, the
`fixed_size` flag, and its own list content (slot references,
completion-predicate map, high-water mark). -/
structure SubView where
  start? : Option Nat
  stop? : Option Nat
  fixed : Bool
  slots : List Nat
  files_done : List (Option String × Nat)
  last_idx : Int
deriving DecidableEq, Repr

/-- State of one `DynamicFileList` together with its producing-task future.
`slots` holds wrapper references into `heap`; `files_done` maps a filename key
to the wrapper whose bound `done` method was registered; `last_idx` is the
high-water mark (initially -1); `task` is the external producing-task future's
state and `parentSet` records whether `set_parent` attached it;
`dataflowSet`/`inhibited`/`output_task_id` are set by `set_dataflow`;
`listState` is the list's own future state; `subs` are the registered views. -/
structure DFL where
  heap : List DynFile
  slots : List Nat
  files_done : List (Option String × Nat)
  last_idx : Int
  parentSet : Bool
  dataflowSet : Bool
  inhibited : Bool
  output_task_id : Option Nat
  listState : FState
  subs : List SubView
  in_callback : Bool
  task : FState
deriving DecidableEq, Repr

/-- A freshly constructed `DynamicFileList()` with a pending producing task. -/
def initDFL : DFL :=
  { heap := [], slots := [], files_done := [], last_idx := -1,
    parentSet := false, dataflowSet := false, inhibited := false,
    output_task_id := none, listState := FState.pending, subs := [],
    in_callback := false, task := FState.pending }

/-! ### Python dict (insertion ordered) and helpers -/

/-- Python dict assignment `d[k] = v`: replace in place if the key exists, else
append. -/
def dictSet (d : List (Option String × Nat)) (k : Option String) (v : Nat) :
    List (Option String × Nat) :=
  if d.any (fun kv => kv.1 = k) then
    d.map (fun kv => if kv.1 = k then (k, v) else kv)
  else d ++ [(k, v)]

/-- Python dict membership `k in d`. -/
def dictMem (d : List (Option String × Nat)) (k : Option String) : Bool :=
  d.any (fun kv => kv.1 = k)

/-- Python dict deletion `del d[k]` (the caller handles KeyError). -/
def dictDel (d : List (Option String × Nat)) (k : Option String) :
    List (Option String × Nat) :=
  d.filter (fun kv => kv.1 ≠ k)

/-- Python list slice `l[a:b]` with non-negative bounds, clamped to the list
length; a missing bound defaults to the corresponding end. -/
def pySlice {α : Type} (l : List α) (a b : Option Nat) : List α :=
  let st := min (a.getD 0) l.length
  let sp := min (b.getD l.length) l.length
  (l.drop st).take (sp - st)

/-- Heap lookup by wrapper reference. -/
def heapGet (s : DFL) (oid : Nat) : Option DynFile := s.heap.get? oid

/-- Heap update by wrapper reference (in-place object mutation). -/
def setHeap (s : DFL) (oid : Nat) (w : DynFile) : DFL :=
  { s with heap := s.heap.set oid w }

/-- Filename of a `file_obj` value (`filepath` of the wrapped object), with
fuel to walk nested wrapper references. -/
def fobjPath (h : List DynFile) : Nat → FileObj → Option String
  | _, FileObj.fnone => none
  | _, FileObj.file f => some f.fname
  | _, FileObj.df d => some d.file_obj.fname
  | 0, FileObj.dyn _ => none
  | n + 1, FileObj.dyn oid =>
    match h.get? oid with
    | some w => fobjPath h n w.file_obj
    | none => none

/-- `DynamicFile.filename`: None for an empty wrapper, else the wrapped
object's filepath. -/
def dynFilename (h : List DynFile) (w : DynFile) : Option String :=
  fobjPath h h.length w.file_obj

/-- Filename of the wrapper referenced by `oid`. -/
def heapFilename (s : DFL) (oid : Nat) : Option String :=
  match heapGet s oid with
  | some w => dynFilename s.heap w
  | none => none

/-- `DynamicFile.done`: delegate to the wrapped DataFuture when `_is_df`, else
True (Files are always done). -/
def dynDone (w : DynFile) : Bool :=
  if w.is_df then
    match w.file_obj with
    | FileObj.df d => decide (d.state ≠ FState.pending)
    | _ => true
  else true

/-- Evaluate one stored completion predicate (the bound `done` method of the
wrapper it refers to, looked up in the current heap). -/
def evalDone (s : DFL) (oid : Nat) : Bool :=
  match heapGet s oid with
  | some w => dynDone w
  | none => true

/-- `DynamicFileList.done`: True iff every entry of `files_done` evaluates
true, short-circuiting on the first false entry. -/
def DFL.done (s : DFL) : Bool :=
  s.files_done.all (fun kv => evalDone s kv.2)

/-- `DynamicFileList.result`: returns the list itself, never raising. -/
def DFL.result (s : DFL) : Except Nat DFL := Except.ok s

/-- `DynamicFileList.exception`: returns None unconditionally. -/
def DFL.exceptionAcc (_s : DFL) : Option Nat := none

/-- `DynamicFile.exception`: returns None unconditionally. -/
def DynFile.exceptionAcc (_w : DynFile) : Option Nat := none

/-! ### Observer dispatch -/

/-- The content a sublist over `(a, b)` gets from its parent: the current
slice, a completion-predicate map rebuilt by `extend` from the items in order,
and the resulting high-water mark.  Used both by `DynamicFileSubList.__init__`
and by its refresh `callback` (clear then extend from `get_update`). -/
def subContent (s : DFL) (a b : Option Nat) : List Nat × List (Option String × Nat) × Int :=
  let items := pySlice s.slots a b
  (items, items.foldl (fun d oid => dictSet d (heapFilename s oid) oid) [],
   (items.length : Int) - 1)

/-- `DynamicFileSubList.callback`: clear the sublist, then extend it with the
parent's current slice. -/
def refreshSub (s : DFL) (v : SubView) : SubView :=
  let c := subContent s v.start? v.stop?
  { v with slots := c.1, files_done := c.2.1, last_idx := c.2.2 }

/-- `DynamicFileList._call_callbacks`, with the reentrancy guard. -/
def callCallbacks (s : DFL) : DFL :=
  if s.in_callback then s
  else
    let s1 : DFL := { s with in_callback := true }
    let s2 : DFL := { s1 with subs := s1.subs.map (refreshSub s1) }
    { s2 with in_callback := false }

/-! ### Future-resolution chain -/

/-- Exception payload of a future state (the raw `_exception` attribute). -/
def errOf : FState → Option Nat
  | FState.error e => some e
  | _ => none

/-- Whether the statement `self.file_obj.timestamp = ...` in
`DynamicFile.parent_callback` succeeds: a `File` or a `DataFuture` has a
settable timestamp; `None` has no attribute and a nested `DynamicFile` exposes
timestamp as a read-only property, so in those cases the callback raises and is
swallowed by the future machinery before `set_result`. -/
def canSetTimestamp : FileObj → Bool
  | FileObj.file _ => true
  | FileObj.df _ => true
  | _ => false

/-- Effect of the owning list resolving on one wrapper.  The wrapper's own
`parent_callback` reads the list's overridden `exception()` (always None), so
it always takes the success branch: it sets the timestamp, registers the
output with `parent.dataflow` (an AttributeError when no dataflow is attached
aborts the callback), then resolves the wrapper with its file object.  A
wrapped `DataFuture`'s `parent_callback` reads the raw `_exception`, so it
resolves with the list's failure when there is one, else with its file. -/
def updWrapper (dataflowSet : Bool) (lerr : Option Nat) (w : DynFile) : DynFile :=
  let w1 :=
    if canSetTimestamp w.file_obj && dataflowSet then { w with state := FState.ok } else w
  match w1.file_obj with
  | FileObj.df d =>
    { w1 with
      file_obj := FileObj.df
        { d with state := match lerr with
                          | some e => FState.error e
                          | none => FState.ok } }
  | _ => w1

/-- Run every done-callback registered on the list (every wrapper created by
`wrap` and every `DataFuture` constructed with the list as parent). -/
def fireListCallbacks (s : DFL) : DFL :=
  { s with heap := s.heap.map (updWrapper s.dataflowSet (errOf s.listState)) }

/-- `DynamicFileList.parent_callback`: resolve the list with the task's
exception, or with itself on success, then the list's own done-callbacks run. -/
def listParentCallback (s : DFL) : DFL :=
  match s.task with
  | FState.error e => fireListCallbacks { s with listState := FState.error e }
  | FState.ok => fireListCallbacks { s with listState := FState.ok }
  | FState.pending => s

/-- The external producing-task future resolves with outcome `o` (`ok` or
`error e`); if the list registered its callback (`set_parent` was called), the
whole chain fires. -/
def resolveTask (s : DFL) (o : FState) : DFL :=
  if s.task = FState.pending ∧ o ≠ FState.pending then
    let s1 : DFL := { s with task := o }
    if s1.parentSet then listParentCallback s1 else s1
  else s

/-! ### Wrapper construction -/

/-- The value `DataFuture(self.parent, f, tid=...)` would have if the call
bound: it registers its callback on the list, which fires immediately when the
list has already resolved.  In the staged source this call never binds —
`futures.py` declares `dfk` as a required third positional parameter that no
call site in `dynamic_files.py` passes — so every construction raises
TypeError instead (see `dfkTypeError` and the staged operations
`convert_to_dfS`, `set_parentS`, `appendFileS`, `setItemFS`).  This
counterfactual success value is kept for the staging-budget development, where
letting the construction succeed only enables more staging and therefore makes
the at-most-once staging bound conservative. -/
def mkDF (s : DFL) (f : File) (tid : Option Nat) : DF :=
  { file_obj := f, tid := tid,
    state := match s.listState with
             | FState.pending => FState.pending
             | FState.error e => FState.error e
             | FState.ok => FState.ok }

/-- Whether a `file_obj` value is a `DataFuture` (`isinstance(_, DataFuture)`). -/
def isDFobj : FileObj → Bool
  | FileObj.df _ => true
  | _ => false

/-- `DynamicFileList.wrap` / `DynamicFile.__init__`: allocate a wrapper for
`fo`, register its `parent_callback` on the list (fires immediately when the
list has already resolved), and return its reference. -/
def wrap (s : DFL) (fo : FileObj) : DFL × Nat :=
  let oid := s.heap.length
  let w : DynFile :=
    { oid := oid, file_obj := fo, is_df := isDFobj fo,
      emptyFlag := decide (fo = FileObj.fnone), stagedOut := false,
      state := FState.pending, stageCount := 0 }
  let w1 :=
    if s.listState = FState.pending then w
    else
      if canSetTimestamp w.file_obj && s.dataflowSet then { w with state := FState.ok } else w
  ({ s with heap := s.heap ++ [w1] }, oid)

/-- `DynamicFile.set` on the wrapper `tgt`: store `fo` as the new `file_obj`,
clear `_empty`, recompute `_is_df`, and register the wrapper's bound `done`
with the owning list under the new file object's filename
(`add_done_func`). -/
def dynSet (s : DFL) (tgt : Nat) (fo : FileObj) : DFL :=
  match heapGet s tgt with
  | none => s
  | some w =>
    let w1 := { w with file_obj := fo, emptyFlag := false, is_df := isDFobj fo }
    let s1 := setHeap s tgt w1
    { s1 with files_done := dictSet s1.files_done (fobjPath s1.heap s1.heap.length fo) tgt }

/-! ### Indexed read -/

/-- Append `n` empty wrappers via the raw `list.append` (no high-water-mark
move, no callbacks): the body of `DynamicFileList._expand`. -/
def expandN (s : DFL) : Nat → DFL
  | 0 => s
  | n + 1 =>
    let p := wrap s FileObj.fnone
    expandN { p.1 with slots := p.1.slots ++ [p.2] } n

/-- `DynamicFileList.__getitem__` with an integer key: grow the list with
empty wrappers through the requested index, then return the slot. -/
def getItem (s : DFL) (idx : Nat) : DFL × Option Nat :=
  let s1 := if s.slots.length ≤ idx then expandN s (idx + 1 - s.slots.length) else s
  (s1, s1.slots.get? idx)

/-! ### Staging -/

/-- Body of `DynamicFileList.stage_file` after the `self[idx]` lookup: the
guard chain is taken verbatim from the source; when staging is inhibited only
the trailing `parent._outputs` assignment and observer dispatch run; otherwise
an independent copy of the slot's artifact is handed to the staging
collaborator (recorded by bumping the wrapper's `stageCount`) and the observer
dispatch runs. -/
def stage_core (s : DFL) (idx : Nat) : DFL :=
  match s.slots.get? idx with
  | none => s
  | some oid =>
    match heapGet s oid with
    | none => s
    | some w =>
      if w.emptyFlag || w.stagedOut then s
      else if !s.parentSet || !w.is_df then s
      else if s.inhibited then callCallbacks s
      else callCallbacks (setHeap s oid { w with stageCount := w.stageCount + 1 })

/-- `DynamicFileList.stage_file`: no-op without a dataflow; otherwise look up
`self[idx]` (which can auto-expand) and run the staging body. -/
def stage_file (s : DFL) (idx : Nat) : DFL :=
  if !s.dataflowSet then s
  else
    let p := getItem s idx
    stage_core p.1 idx

/-! ### append -/

/-- Tail of `DynamicFileList.append` shared by both branches: register the new
object's filename against the bound `done` of the slot now at
`_last_idx + 1`, advance the high-water mark, stage the new index, dispatch
observers. -/
def appendFinish (s : DFL) (newOid : Nat) : DFL × Option Err :=
  match s.slots.get? (s.last_idx + 1).toNat with
  | none => (s, some Err.indexError)
  | some tgt =>
    let s1 : DFL := { s with files_done := dictSet s.files_done (heapFilename s newOid) tgt }
    let s2 : DFL := { s1 with last_idx := s1.last_idx + 1 }
    (callCallbacks (stage_file s2 s2.last_idx.toNat), none)

/-- `DynamicFileList.append` once the argument has been normalised into the
wrapper `newOid`: append a new slot when the high-water mark is at the end,
else fill the (assumed empty) slot just above it via `DynamicFile.set` —
which stores the wrapper itself as the slot's `file_obj`. -/
def appendObj (s : DFL) (newOid : Nat) : DFL × Option Err :=
  if s.last_idx = (s.slots.length : Int) - 1 then
    appendFinish { s with slots := s.slots ++ [newOid] } newOid
  else
    match s.slots.get? (s.last_idx + 1).toNat with
    | none => (s, some Err.indexError)
    | some tgt => appendFinish (dynSet s tgt (FileObj.dyn newOid)) newOid

/-- `DynamicFileList.append` on a bare `File`, with the `DataFuture`
promotion taken as succeeding.  The staged behaviour — the promotion raises
TypeError when a producing task is attached, before any mutation — is
`appendFileS`; the two agree whenever no producing task is attached, and the
counterfactual success branch only enables more staging. -/
def appendFile (s : DFL) (f : File) : DFL × Option Err :=
  let fo :=
    if s.parentSet then FileObj.df (mkDF s f s.output_task_id) else FileObj.file f
  let p := wrap s fo
  appendObj p.1 p.2

/-! ### extend -/

/-- Normalisation loop of `DynamicFileList.extend`: wrap each file and
register its bound `done` under its filename; returns the wrapper references
in order.  The `DataFuture` promotion of the parent-attached branch is taken
as succeeding, as in `appendFile` (in the staged source it raises TypeError
at the first bare file, see `dfkTypeError`); the branches agree whenever no
producing task is attached. -/
def wrapItems (s : DFL) : List File → DFL × List Nat
  | [] => (s, [])
  | f :: fs =>
    let fo :=
      if s.parentSet then FileObj.df (mkDF s f s.output_task_id) else FileObj.file f
    let p := wrap s fo
    let s1 : DFL := { p.1 with files_done := dictSet p.1.files_done (some f.fname) p.2 }
    let q := wrapItems s1 fs
    (q.1, p.2 :: q.2)

/-- Growth branch of `extend` after `super().extend(items)`: advance the
high-water mark and stage, once per appended item. -/
def stageSeq (s : DFL) : Nat → DFL
  | 0 => s
  | n + 1 =>
    let s1 : DFL := { s with last_idx := s.last_idx + 1 }
    stageSeq (stage_file s1 s1.last_idx.toNat) n

/-- Padding of the placeholder branch of `extend`:
`super().extend([self.wrap(None)] * k)` calls `wrap` once and appends `k`
references to that single empty wrapper. -/
def padSharedEmpty (s : DFL) (k : Nat) : DFL :=
  let p := wrap s FileObj.fnone
  { p.1 with slots := p.1.slots ++ List.replicate k p.2 }

/-- Placeholder-fill loop of `extend`: advance the high-water mark, `set` the
slot there to the item wrapper, re-register the item's filename against the
slot's bound `done`, and stage. -/
def extendFill (s : DFL) : List Nat → DFL
  | [] => s
  | itemOid :: rest =>
    let s1 : DFL := { s with last_idx := s.last_idx + 1 }
    let p := getItem s1 s1.last_idx.toNat
    match p.2 with
    | none => extendFill p.1 rest
    | some tgt =>
      let s2 := dynSet p.1 tgt (FileObj.dyn itemOid)
      let s3 : DFL :=
        { s2 with files_done := dictSet s2.files_done (heapFilename s2 itemOid) tgt }
      extendFill (stage_file s3 s3.last_idx.toNat) rest

/-- `DynamicFileList.extend` on bare `File`s. -/
def extendF (s : DFL) (fs : List File) : DFL :=
  let q := wrapItems s fs
  let s1 := q.1
  if s1.last_idx = (s1.slots.length : Int) - 1 then
    callCallbacks (stageSeq { s1 with slots := s1.slots ++ q.2 } q.2.length)
  else
    let diff : Int := (s1.slots.length : Int) - 1 - s1.last_idx - q.2.length
    let s2 := if diff < 0 then padSharedEmpty s1 diff.natAbs else s1
    callCallbacks (extendFill s2 q.2)

/-! ### insert, indexed write, remove -/

/-- `DynamicFileList.insert` on a bare `File`: legal only at or below the
high-water mark; wraps, registers the completion predicate, shifts the slots,
stages the index, then advances the high-water mark.  The `DataFuture`
promotion of the parent-attached branch is taken as succeeding, as in
`appendFile` (staged: TypeError before any mutation); the branches agree
whenever no producing task is attached. -/
def insertF (s : DFL) (idx : Nat) (f : File) : DFL × Option Err :=
  if (idx : Int) > s.last_idx then
    (s, some (Err.valueError "Cannot insert at index greater than the last index"))
  else
    let fo :=
      if s.parentSet then FileObj.df (mkDF s f s.output_task_id) else FileObj.file f
    let p := wrap s fo
    let s1 : DFL := { p.1 with files_done := dictSet p.1.files_done (some f.fname) p.2 }
    let s2 : DFL := { s1 with slots := s1.slots.take idx ++ p.2 :: s1.slots.drop idx }
    let s3 := stage_file s2 idx
    let s4 : DFL := { s3 with last_idx := s3.last_idx + 1 }
    (callCallbacks s4, none)

/-- `DynamicFileList.__setitem__` with a bare `File` value: first drop the
current slot's filename from the completion map if registered; a write is
legal only into an empty slot (filling it via `DynamicFile.set`, registering
its predicate, raising the high-water mark, dispatching observers, staging),
otherwise ValueError.  The `DataFuture` promotion of the parent-attached fill
is taken as succeeding; the staged behaviour — TypeError after the
completion-map deletion, before the fill — is `setItemFS`, and the two agree
whenever no producing task is attached. -/
def setItemF (s : DFL) (key : Nat) (f : File) : DFL × Option Err :=
  let p := getItem s key
  match p.2 with
  | none => (p.1, some Err.indexError)
  | some oid =>
    match heapGet p.1 oid with
    | none => (p.1, some Err.indexError)
    | some w =>
      let fn := dynFilename p.1.heap w
      let s1 : DFL :=
        if dictMem p.1.files_done fn then
          { p.1 with files_done := dictDel p.1.files_done fn }
        else p.1
      if w.emptyFlag then
        let fo :=
          if s1.parentSet then FileObj.df (mkDF s1 f s1.output_task_id) else FileObj.file f
        let s2 := dynSet s1 oid fo
        let s3 : DFL :=
          { s2 with files_done := dictSet s2.files_done (heapFilename s2 oid) oid }
        let s4 : DFL := { s3 with last_idx := max s3.last_idx (key : Int) }
        let s5 := callCallbacks s4
        (stage_file s5 key, none)
      else
        (s1, some (Err.valueError "Cannot set a value that is not empty"))

/-- `DynamicFileList.remove` of a held wrapper: delete its filename from the
completion map (KeyError if absent, before any change), then `list.remove`
(ValueError if the wrapper is not an element, after the map was already
changed), then decrement the high-water mark and dispatch observers. -/
def removeW (s : DFL) (oid : Nat) : DFL × Option Err :=
  let fn := heapFilename s oid
  if !dictMem s.files_done fn then (s, some Err.keyError)
  else
    let s1 : DFL := { s with files_done := dictDel s.files_done fn }
    if oid ∈ s1.slots then
      let s2 : DFL := { s1 with slots := s1.slots.erase oid, last_idx := s1.last_idx - 1 }
      (callCallbacks s2, none)
    else (s1, some (Err.valueError "list remove: x not in list"))

/-! ### set_parent and set_dataflow -/

/-- `DynamicFile.convert_to_df` on the wrapper `oid`, with the `DataFuture`
call taken as binding: it would then accept only a `File` and raise ValueError
otherwise.  In the staged source the call never binds at all (missing `dfk`)
and raises TypeError for every not-yet-promoted wrapper: that behaviour is
`convert_to_dfS`.  This counterfactual variant promotes strictly more, which
is the conservative direction for the staging bound. -/
def convert_to_df (s : DFL) (oid : Nat) : DFL × Option Err :=
  match heapGet s oid with
  | none => (s, none)
  | some w =>
    if w.is_df then (s, none)
    else
      match w.file_obj with
      | FileObj.file f =>
        (setHeap s oid
          { w with file_obj := FileObj.df (mkDF s f s.output_task_id), is_df := true },
         none)
      | _ => (s, some (Err.valueError "DataFuture must be initialized with a File"))

/-- Promotion loop of `set_parent` over the counterfactual `convert_to_df`:
for each index up to the high-water mark, convert the slot to a `DataFuture`
(an exception aborts the loop and propagates, skipping the final observer
dispatch) and stage it.  The staged loop is `promoteLoopS`. -/
def promoteLoop (s : DFL) (idx : Nat) : Nat → DFL × Option Err
  | 0 => (callCallbacks s, none)
  | n + 1 =>
    let p := getItem s idx
    match p.2 with
    | none => (callCallbacks p.1, none)
    | some oid =>
      match convert_to_df p.1 oid with
      | (s1, some e) => (s1, some e)
      | (s1, none) => promoteLoop (stage_file s1 idx) (idx + 1) n

/-- `DynamicFileList.set_parent` over the counterfactual promotion loop:
fails when a parent is already attached; otherwise attaches the producing-task
future, registers the list's completion callback on it (firing immediately
when the task has already resolved), then promotes and stages every slot up to
the high-water mark.  The staged version is `set_parentS`. -/
def set_parent (s : DFL) : DFL × Option Err :=
  if s.parentSet then (s, some (Err.valueError "Parent future already set"))
  else
    let s1 : DFL := { s with parentSet := true }
    let s2 := if s1.task ≠ FState.pending then listParentCallback s1 else s1
    promoteLoop s2 0 (s2.last_idx + 1).toNat

/-- Staging loop of `set_dataflow`. -/
def stageRange (s : DFL) (idx : Nat) : Nat → DFL
  | 0 => s
  | n + 1 => stageRange (stage_file s idx) (idx + 1) n

/-- `DynamicFileList.set_dataflow`: attach the staging collaborator, the
inhibition flag and the owning task id, then retroactively stage every slot up
to the high-water mark. -/
def set_dataflow (s : DFL) (inhibit : Bool) (tid : Nat) : DFL :=
  let s1 : DFL :=
    { s with dataflowSet := true, inhibited := inhibit, output_task_id := some tid }
  stageRange s1 0 (s1.last_idx + 1).toNat

/-! ### slice read -/

/-- Padding loop of the slice branch of `__getitem__`:
`self.append(self.wrap(None))`, i.e. full appends of fresh empty wrappers
(these move the high-water mark, and fill placeholders instead of growing when
any exist). -/
def padAppend (s : DFL) : Nat → DFL × Option Err
  | 0 => (s, none)
  | n + 1 =>
    let p := wrap s FileObj.fnone
    match appendObj p.1 p.2 with
    | (s1, some e) => (s1, some e)
    | (s1, none) => padAppend s1 n

/-- `DynamicFileList.__getitem__` with a slice: pad the list through the
start bound (when the start is at or past the end) and then through the stop
bound, build a `DynamicFileSubList` over the current slice, and register it as
an observer. -/
def getSlice (s : DFL) (a b : Option Nat) : DFL × Option Err :=
  let pa :=
    match a with
    | none => (s, (none : Option Err))
    | some av =>
      if s.slots.length ≤ av then padAppend s (av + 1 - s.slots.length) else (s, none)
  match pa with
  | (s1, some e) => (s1, some e)
  | (s1, none) =>
    let pb :=
      match b with
      | none => (s1, (none : Option Err))
      | some bv =>
        if s1.slots.length < bv then padAppend s1 (bv - s1.slots.length) else (s1, none)
    match pb with
    | (s2, some e) => (s2, some e)
    | (s2, none) =>
      let c := subContent s2 a b
      let v : SubView :=
        { start? := a, stop? := b, fixed := a.isSome && b.isSome,
          slots := c.1, files_done := c.2.1, last_idx := c.2.2 }
      ({ s2 with subs := s2.subs ++ [v] }, none)

/-! ### The promotion paths as staged

`futures.py` declares `DataFuture.__init__(self, fut, file_obj, dfk, tid=None,
app_fut=None)` with `dfk` a required positional parameter, and every
construction site in `dynamic_files.py` passes only `(fut, file_obj, tid=...)`
— `convert_to_df` (line 114), `append` (line 359), `extend` (line 383),
`insert` (line 415) and `__setitem__` (line 481).  Each such call therefore
raises `TypeError: missing 1 required positional argument: dfk` at
argument-binding time — before typeguard checks `file_obj : File`, before the
`isinstance` ValueError in the constructor body, and before any mutation the
construction would have performed.  The definitions below embed, with this
error, the operations the refuted claims exercise. -/

/-- The TypeError every in-tree `DataFuture(...)` call raises. -/
def dfkTypeError : Err :=
  Err.typeError "missing 1 required positional argument: dfk"

/-- `DynamicFile.convert_to_df` as staged: when the wrapper is not already a
`DataFuture`, the body calls `DataFuture(self.parent, self.file_obj,
tid=self.parent._output_task_id)`, which raises TypeError at argument binding
before anything is assigned; an already-promoted wrapper is a no-op. -/
def convert_to_dfS (s : DFL) (oid : Nat) : DFL × Option Err :=
  match heapGet s oid with
  | none => (s, none)
  | some w =>
    if w.is_df then (s, none)
    else (s, some dfkTypeError)

/-- Promotion loop of `set_parent` over the staged `convert_to_df`: the first
slot not already wrapping a `DataFuture` raises TypeError, aborting the loop
before that slot is staged and skipping the final observer dispatch. -/
def promoteLoopS (s : DFL) (idx : Nat) : Nat → DFL × Option Err
  | 0 => (callCallbacks s, none)
  | n + 1 =>
    let p := getItem s idx
    match p.2 with
    | none => (callCallbacks p.1, none)
    | some oid =>
      match convert_to_dfS p.1 oid with
      | (s1, some e) => (s1, some e)
      | (s1, none) => promoteLoopS (stage_file s1 idx) (idx + 1) n

/-- `DynamicFileList.set_parent` over the staged promotion loop: the parent is
attached and the list's completion callback registered before the loop runs,
so a TypeError from the loop still leaves the parent attached (and makes every
later call fail with ValueError). -/
def set_parentS (s : DFL) : DFL × Option Err :=
  if s.parentSet then (s, some (Err.valueError "Parent future already set"))
  else
    let s1 : DFL := { s with parentSet := true }
    let s2 := if s1.task ≠ FState.pending then listParentCallback s1 else s1
    promoteLoopS s2 0 (s2.last_idx + 1).toNat

/-- `DynamicFileList.append` on a bare `File` as staged: with a producing task
attached, the argument normalisation calls `DataFuture(self.parent, __object,
tid=self._output_task_id)` and raises TypeError before any mutation; without
one the append proceeds exactly as `appendFile`. -/
def appendFileS (s : DFL) (f : File) : DFL × Option Err :=
  if s.parentSet then (s, some dfkTypeError)
  else
    let p := wrap s (FileObj.file f)
    appendObj p.1 p.2

/-- `DynamicFileList.__setitem__` with a bare `File` as staged: the `self[key]`
lookup (which can auto-expand) and the completion-map deletion run first; on an
empty slot with a producing task attached, the value conversion
`DataFuture(self.parent, value, tid=self._output_task_id)` then raises
TypeError — after the deletion, before the slot is filled; without a producing
task the fill proceeds; a non-empty slot raises ValueError as before. -/
def setItemFS (s : DFL) (key : Nat) (f : File) : DFL × Option Err :=
  let p := getItem s key
  match p.2 with
  | none => (p.1, some Err.indexError)
  | some oid =>
    match heapGet p.1 oid with
    | none => (p.1, some Err.indexError)
    | some w =>
      let fn := dynFilename p.1.heap w
      let s1 : DFL :=
        if dictMem p.1.files_done fn then
          { p.1 with files_done := dictDel p.1.files_done fn }
        else p.1
      if w.emptyFlag then
        if s1.parentSet then (s1, some dfkTypeError)
        else
          let s2 := dynSet s1 oid (FileObj.file f)
          let s3 : DFL :=
            { s2 with files_done := dictSet s2.files_done (heapFilename s2 oid) oid }
          let s4 : DFL := { s3 with last_idx := max s3.last_idx (key : Int) }
          let s5 := callCallbacks s4
          (stage_file s5 key, none)
      else
        (s1, some (Err.valueError "Cannot set a value that is not empty"))

/-! ### Operation alphabets -/

/-- The mutating operations named by the staging claim: append, extend,
insert, indexed write, `set_parent`, `set_staging_context`. -/
inductive OpB where
  | appendB : File → OpB
  | extendB : List File → OpB
  | insertB : Nat → File → OpB
  | setItemB : Nat → File → OpB
  | setParentB : OpB
  | setDataflowB : Bool → Nat → OpB
deriving DecidableEq, Repr

/-- Run one basic operation (keeping the state an exception leaves behind). -/
def runB (s : DFL) : OpB → DFL
  | OpB.appendB f => (appendFile s f).1
  | OpB.extendB fs => extendF s fs
  | OpB.insertB i f => (insertF s i f).1
  | OpB.setItemB i f => (setItemF s i f).1
  | OpB.setParentB => (set_parent s).1
  | OpB.setDataflowB inh tid => set_dataflow s inh tid

/-- Run a sequence of basic operations. -/
def runBs (s : DFL) : List OpB → DFL
  | [] => s
  | op :: ops => runBs (runB s op) ops

/-- Number of `set_staging_context` calls in a sequence. -/
def sdCount (ops : List OpB) : Nat :=
  ops.countP fun op => match op with
    | OpB.setDataflowB _ _ => true
    | _ => false

/-- The full operation alphabet, adding indexed and slice reads, removal and
resolution of the producing task. -/
inductive Op where
  | basic : OpB → Op
  | getItemOp : Nat → Op
  | getSliceOp : Option Nat → Option Nat → Op
  | removeOp : Nat → Op
  | resolveOp : FState → Op
deriving DecidableEq, Repr

/-- Run one operation of the full alphabet. -/
def run1 (s : DFL) : Op → DFL
  | Op.basic op => runB s op
  | Op.getItemOp i => (getItem s i).1
  | Op.getSliceOp a b => (getSlice s a b).1
  | Op.removeOp oid => (removeW s oid).1
  | Op.resolveOp o => resolveTask s o

/-- Run a sequence of operations of the full alphabet. -/
def runOps (s : DFL) : List Op → DFL
  | [] => s
  | op :: ops => runOps (run1 s op) ops

/-! ### Derived accessors and scenario states -/

/-- The wrapped DataFuture's state of a wrapper, when it wraps one. -/
def dfStateOf (w : DynFile) : Option FState :=
  match w.file_obj with
  | FileObj.df d => some d.state
  | _ => none

/-- The wrapped DataFuture's task id of a wrapper, when it wraps one. -/
def dfTidOf (w : DynFile) : Option (Option Nat) :=
  match w.file_obj with
  | FileObj.df d => some d.tid
  | _ => none

/-- Failure scenario: a list holding two outputs, the producing task attached,
then resolving with failure `e`. -/
def failScenario (fa fb : File) (e : Nat) : DFL :=
  resolveTask (set_parent ((appendFile ((appendFile initDFL fa).1) fb).1)).1 (FState.error e)

/-- The concrete failure scenario used as a counterexample input. -/
def c2state : DFL := failScenario ⟨"a"⟩ ⟨"b"⟩ 7

/-- Parent list for the view counterexample: two appended files, then an
indexed read at 4 leaves three empty placeholder slots. -/
def c8parent : DFL :=
  (getItem ((appendFile ((appendFile initDFL ⟨"a"⟩).1) ⟨"b"⟩).1) 4).1

/-- Fixed-bounds view over `c8parent` with range `[0:8]`: the padding loop
fills the placeholders without growing the list, so the view starts at
length 5 although its range has length 8. -/
def c8view : DFL := (getSlice c8parent (some 0) (some 8)).1

/-- Parent list holding two appended artifacts. -/
def c8s2 : DFL := (appendFile (appendFile initDFL ⟨"a"⟩).1 ⟨"b"⟩).1

/-- Open-ended view `[0:]` registered over `c8s2`. -/
def c8open : DFL := (getSlice c8s2 (some 0) none).1

/-- A fixed-bounds view `[0:2]` over a fresh list (the slice read itself pads
the parent to the stop bound before building the view). -/
def c8fix : DFL := (getSlice initDFL (some 0) (some 2)).1

/-- The view registered by the slice read building `c8fix` (the padding of the
creation settles the parent at two slots, so the view holds both). -/
def c8fixView : SubView :=
  { start? := some 0, stop? := some 2, fixed := true, slots := [0, 1],
    files_done := [(none, 1)], last_idx := 1 }

/-- A list where a wrapper's filename is registered in the completion map but
the wrapper itself is not an element: `extend` into a placeholder run stores
the item wrapper nested inside the placeholder slot, so the item wrapper is
registered yet absent from the list. -/
def c10state : DFL := extendF (getItem (appendFile initDFL ⟨"a"⟩).1 2).1 [⟨"x"⟩]

end DynFiles

namespace DynFiles

/-! ## Claim C7: done() iff every completion predicate holds -/

/-- C7: for every list state, `done()` returns true iff every entry of the
completion-predicate map `files_done` evaluates to true (the implementation
folds over the entries and stops at the first false one). -/
theorem done_iff_every_entry (s : DFL) :
    DFL.done s = true ↔ ∀ kv ∈ s.files_done, evalDone s kv.2 = true := by
  simp [DFL.done, List.all_eq_true]

/-! ## Claim C9: exception() accessors never surface a failure -/

/-- C9: both `DynamicFile.exception` and `DynamicFileList.exception` return
None unconditionally, so even in the concrete failure scenario — where the
producing task failed with 7, the list's internal state carries the failure
and both wrapped DataFutures resolved with it — no failure is observable
through `exception()`. -/
theorem exception_never_surfaces :
    (∀ w : DynFile, DynFile.exceptionAcc w = none) ∧
    (∀ s : DFL, DFL.exceptionAcc s = none) ∧
    (c2state.listState = FState.error 7 ∧
     c2state.heap.map dfStateOf = [some (FState.error 7), some (FState.error 7)] ∧
     DFL.exceptionAcc c2state = none) := by
  refine ⟨fun w => rfl, fun s => rfl, ?_, ?_, rfl⟩ <;> decide

/-! ## Claim C4: out-of-range reads auto-create empty slots -/

/-- The empty wrapper `self.wrap(None)` allocates. -/
def mtW (oid : Nat) : DynFile :=
  { oid := oid, file_obj := FileObj.fnone, is_df := false, emptyFlag := true,
    stagedOut := false, state := FState.pending, stageCount := 0 }

/-- Wrapping `None` just allocates an empty wrapper (the immediate callback of
a resolved list aborts on an empty wrapper before resolving it). -/
theorem wrap_fnone (s : DFL) :
    wrap s FileObj.fnone = ({ s with heap := s.heap ++ [mtW s.heap.length] }, s.heap.length) := by
  simp [wrap, mtW, isDFobj, canSetTimestamp]

/-- Structure of `_expand`: `n` raw appends of fresh empty wrappers; every
other field of the list is untouched. -/
theorem expandN_spec (s : DFL) (n : Nat) :
    (expandN s n).heap = s.heap ++ (List.range n).map (fun k => mtW (s.heap.length + k)) ∧
    (expandN s n).slots = s.slots ++ (List.range n).map (fun k => s.heap.length + k) ∧
    (expandN s n).files_done = s.files_done ∧
    (expandN s n).last_idx = s.last_idx ∧
    (expandN s n).parentSet = s.parentSet ∧
    (expandN s n).dataflowSet = s.dataflowSet ∧
    (expandN s n).inhibited = s.inhibited ∧
    (expandN s n).output_task_id = s.output_task_id ∧
    (expandN s n).listState = s.listState ∧
    (expandN s n).subs = s.subs ∧
    (expandN s n).in_callback = s.in_callback ∧
    (expandN s n).task = s.task := by
  induction n generalizing s with
  | zero => simp [expandN]
  | succ n ih =>
    rw [expandN, wrap_fnone]
    have h := ih { s with heap := s.heap ++ [mtW s.heap.length],
                          slots := s.slots ++ [s.heap.length] }
    simp only at h
    obtain ⟨h1, h2, h3⟩ := h
    refine ⟨?_, ?_, h3⟩
    · rw [h1]
      simp [List.range_succ_eq_map, List.map_map, List.append_assoc, Function.comp,
        Nat.add_comm, Nat.add_assoc, Nat.add_left_comm]
    · rw [h2]
      simp [List.range_succ_eq_map, List.map_map, List.append_assoc, Function.comp,
        Nat.add_comm, Nat.add_assoc, Nat.add_left_comm]

/-- C4: reading index `i ≥ len` auto-creates exactly `i − len + 1` empty
slots — the list grows through index `i`, the new positions all hold fresh
empty wrappers, existing positions are untouched — and neither the high-water
mark nor the completion map moves. -/
theorem indexed_read_autocreates (s : DFL) (idx : Nat) (h : s.slots.length ≤ idx) :
    (getItem s idx).1.slots.length = idx + 1 ∧
    (getItem s idx).1.slots.length - s.slots.length = idx + 1 - s.slots.length ∧
    (getItem s idx).1.last_idx = s.last_idx ∧
    (getItem s idx).1.files_done = s.files_done ∧
    (∀ j, s.slots.length ≤ j → j ≤ idx →
      ∃ oid, (getItem s idx).1.slots.get? j = some oid ∧
        heapGet (getItem s idx).1 oid = some (mtW oid)) ∧
    (∀ j, j < s.slots.length → (getItem s idx).1.slots.get? j = s.slots.get? j) := by
  have hg : (getItem s idx).1 = expandN s (idx + 1 - s.slots.length) := by
    simp [getItem, h]
  obtain ⟨e1, e2, e3, e4, _⟩ := expandN_spec s (idx + 1 - s.slots.length)
  rw [hg]
  refine ⟨?_, ?_, e4, e3, ?_, ?_⟩
  · rw [e2]
    simp only [List.length_append, List.length_map, List.length_range]
    omega
  · rw [e2]
    simp only [List.length_append, List.length_map, List.length_range]
    omega
  · intro j hj1 hj2
    refine ⟨s.heap.length + (j - s.slots.length), ?_, ?_⟩
    · rw [e2, List.get?_append_right hj1, List.get?_map, List.get?_range (by omega)]
      rfl
    · rw [heapGet, e1, List.get?_append_right (by omega), List.get?_map]
      have : s.heap.length + (j - s.slots.length) - s.heap.length = j - s.slots.length := by
        omega
      rw [this, List.get?_range (by omega)]
      rfl
  · intro j hj
    rw [e2, List.get?_append hj]

/-! ### Field preservation of the staging and dispatch helpers -/

/-- Observer dispatch only touches the view registry. -/
theorem callCallbacks_fields (s : DFL) :
    (callCallbacks s).heap = s.heap ∧ (callCallbacks s).slots = s.slots ∧
    (callCallbacks s).files_done = s.files_done ∧
    (callCallbacks s).last_idx = s.last_idx ∧
    (callCallbacks s).parentSet = s.parentSet ∧
    (callCallbacks s).dataflowSet = s.dataflowSet ∧
    (callCallbacks s).inhibited = s.inhibited ∧
    (callCallbacks s).output_task_id = s.output_task_id ∧
    (callCallbacks s).listState = s.listState ∧
    (callCallbacks s).in_callback = s.in_callback ∧
    (callCallbacks s).task = s.task := by
  unfold callCallbacks
  split
  · simp
  · next h => simp [Bool.not_eq_true] at h; simp [h]

/-- The staging body never touches list structure, and changes a wrapper only
by bumping its staging counter. -/
theorem stage_core_fields (s : DFL) (idx : Nat) :
    (stage_core s idx).slots = s.slots ∧
    (stage_core s idx).files_done = s.files_done ∧
    (stage_core s idx).last_idx = s.last_idx ∧
    (stage_core s idx).parentSet = s.parentSet ∧
    (stage_core s idx).dataflowSet = s.dataflowSet ∧
    (stage_core s idx).inhibited = s.inhibited ∧
    (stage_core s idx).output_task_id = s.output_task_id ∧
    (stage_core s idx).listState = s.listState ∧
    (stage_core s idx).in_callback = s.in_callback ∧
    (stage_core s idx).task = s.task ∧
    (stage_core s idx).heap.length = s.heap.length ∧
    (∀ o w, heapGet s o = some w →
      ∃ w', heapGet (stage_core s idx) o = some w' ∧
        w'.oid = w.oid ∧ w'.file_obj = w.file_obj ∧ w'.is_df = w.is_df ∧
        w'.emptyFlag = w.emptyFlag ∧ w'.stagedOut = w.stagedOut ∧
        w'.state = w.state ∧
        (w'.stageCount = w.stageCount ∨ w'.stageCount = w.stageCount + 1)) := by
  unfold stage_core
  split
  · exact ⟨rfl, rfl, rfl, rfl, rfl, rfl, rfl, rfl, rfl, rfl, rfl,
      fun o w hw => ⟨w, hw, rfl, rfl, rfl, rfl, rfl, rfl, Or.inl rfl⟩⟩
  · next oid hoid =>
    split
    · exact ⟨rfl, rfl, rfl, rfl, rfl, rfl, rfl, rfl, rfl, rfl, rfl,
        fun o w hw => ⟨w, hw, rfl, rfl, rfl, rfl, rfl, rfl, Or.inl rfl⟩⟩
    · next wt hwt =>
      split
      · exact ⟨rfl, rfl, rfl, rfl, rfl, rfl, rfl, rfl, rfl, rfl, rfl,
          fun o w hw => ⟨w, hw, rfl, rfl, rfl, rfl, rfl, rfl, Or.inl rfl⟩⟩
      · split
        · exact ⟨rfl, rfl, rfl, rfl, rfl, rfl, rfl, rfl, rfl, rfl, rfl,
            fun o w hw => ⟨w, hw, rfl, rfl, rfl, rfl, rfl, rfl, Or.inl rfl⟩⟩
        · split
          · obtain ⟨c1, c2, c3, c4, c5, c6, c7, c8, c9, c10, c11⟩ :=
              callCallbacks_fields s
            exact ⟨c2, c3, c4, c5, c6, c7, c8, c9, c10, c11, by rw [c1],
              fun o w hw => ⟨w, by rw [heapGet, c1]; exact hw,
                rfl, rfl, rfl, rfl, rfl, rfl, Or.inl rfl⟩⟩
          · obtain ⟨c1, c2, c3, c4, c5, c6, c7, c8, c9, c10, c11⟩ :=
              callCallbacks_fields (setHeap s oid { wt with stageCount := wt.stageCount + 1 })
            refine ⟨c2, c3, c4, c5, c6, c7, c8, c9, c10, c11, ?_, ?_⟩
            · rw [c1]; simp [setHeap]
            · intro o w hw
              by_cases ho : oid = o
              · subst ho
                have hlt : oid < s.heap.length := by
                  by_contra hge
                  rw [heapGet, List.get?_eq_none.mpr (by omega)] at hw
                  exact Option.noConfusion hw
                have hw' : wt = w := by
                  rw [hwt] at hw; exact Option.some.inj hw
                subst hw'
                refine ⟨{ wt with stageCount := wt.stageCount + 1 }, ?_,
                  rfl, rfl, rfl, rfl, rfl, rfl, Or.inr rfl⟩
                rw [heapGet, c1]
                simp [setHeap, List.get?_eq_getElem?, List.getElem?_set_eq_of_lt _ hlt]
              · refine ⟨w, ?_, rfl, rfl, rfl, rfl, rfl, rfl, Or.inl rfl⟩
                rw [heapGet, c1]
                simpa [setHeap, heapGet, List.get?_eq_getElem?, List.getElem?_set_ne ho] using hw

/-- `stage_file` at an in-range index: same field preservation. -/
theorem stage_file_fields (s : DFL) (idx : Nat) (hidx : idx < s.slots.length) :
    (stage_file s idx).slots = s.slots ∧
    (stage_file s idx).files_done = s.files_done ∧
    (stage_file s idx).last_idx = s.last_idx ∧
    (stage_file s idx).parentSet = s.parentSet ∧
    (stage_file s idx).dataflowSet = s.dataflowSet ∧
    (stage_file s idx).inhibited = s.inhibited ∧
    (stage_file s idx).output_task_id = s.output_task_id ∧
    (stage_file s idx).listState = s.listState ∧
    (stage_file s idx).in_callback = s.in_callback ∧
    (stage_file s idx).task = s.task ∧
    (stage_file s idx).heap.length = s.heap.length ∧
    (∀ o w, heapGet s o = some w →
      ∃ w', heapGet (stage_file s idx) o = some w' ∧
        w'.oid = w.oid ∧ w'.file_obj = w.file_obj ∧ w'.is_df = w.is_df ∧
        w'.emptyFlag = w.emptyFlag ∧ w'.stagedOut = w.stagedOut ∧
        w'.state = w.state ∧
        (w'.stageCount = w.stageCount ∨ w'.stageCount = w.stageCount + 1)) := by
  unfold stage_file
  split
  · exact ⟨rfl, rfl, rfl, rfl, rfl, rfl, rfl, rfl, rfl, rfl, rfl,
      fun o w hw => ⟨w, hw, rfl, rfl, rfl, rfl, rfl, rfl, Or.inl rfl⟩⟩
  · have hget : getItem s idx = (s, s.slots.get? idx) := by
      simp [getItem, Nat.not_le.mpr hidx]
    rw [hget]
    exact stage_core_fields s idx

/-- Auxiliary reductions of the filename computation. -/
theorem fobjPath_fnone (h : List DynFile) (n : Nat) :
    fobjPath h n FileObj.fnone = none := by cases n <;> rfl

/-- Filename of a bare file object. -/
theorem fobjPath_file (h : List DynFile) (n : Nat) (f : File) :
    fobjPath h n (FileObj.file f) = some f.fname := by cases n <;> rfl

/-- Filename of a wrapped DataFuture. -/
theorem fobjPath_df (h : List DynFile) (n : Nat) (d : DF) :
    fobjPath h n (FileObj.df d) = some d.file_obj.fname := by cases n <;> rfl

/-- Assigning a key makes it a member of the dict. -/
theorem dictMem_dictSet_self (d : List (Option String × Nat)) (k : Option String) (v : Nat) :
    dictMem (dictSet d k v) k = true := by
  unfold dictMem dictSet
  split
  · next hmem =>
    simp only [List.any_eq_true] at hmem ⊢
    obtain ⟨kv, hkv, he⟩ := hmem
    exact ⟨(k, v), List.mem_map.mpr ⟨kv, hkv, by rw [if_pos (of_decide_eq_true he)]⟩, by simp⟩
  · simp

/-! ## Claim C10: remove is not atomic on error -/

/-- C10: `remove` deletes the value's completion-map entry before attempting
the list removal.  When the value's filename is registered but the value is
not an element, the call fails with ValueError yet the completion-map entry is
already gone and nothing else has changed; when the value is an element, the
removal succeeds and additionally decrements the high-water mark by one. -/
theorem remove_not_atomic (s : DFL) (oid : Nat)
    (hreg : dictMem s.files_done (heapFilename s oid) = true) :
    (oid ∉ s.slots →
      removeW s oid =
        ({ s with files_done := dictDel s.files_done (heapFilename s oid) },
         some (Err.valueError "list remove: x not in list"))) ∧
    (oid ∈ s.slots →
      (removeW s oid).2 = none ∧
      (removeW s oid).1.slots = s.slots.erase oid ∧
      (removeW s oid).1.last_idx = s.last_idx - 1 ∧
      (removeW s oid).1.files_done = dictDel s.files_done (heapFilename s oid)) := by
  unfold removeW
  simp only [hreg, Bool.not_true, Bool.false_eq_true, if_false]
  constructor
  · intro hmem
    rw [if_neg hmem]
  · intro hmem
    rw [if_pos hmem]
    obtain ⟨c1, c2, c3, c4, _⟩ := callCallbacks_fields
      { s with files_done := dictDel s.files_done (heapFilename s oid),
               slots := s.slots.erase oid, last_idx := s.last_idx - 1 }
    exact ⟨rfl, by rw [c2], by rw [c4], by rw [c3]⟩

/-- Witness for C10 at a reachable state: `extend` into a placeholder run
leaves the item wrapper (oid 3, filename registered) outside the list, while
wrapper 0 is a list element. -/
theorem remove_not_atomic_witness :
    (removeW c10state 3).2 = some (Err.valueError "list remove: x not in list") ∧
    (removeW c10state 3).1.files_done = dictDel c10state.files_done (heapFilename c10state 3) ∧
    (removeW c10state 0).2 = none ∧
    (removeW c10state 0).1.last_idx = c10state.last_idx - 1 := by
  have h1 := remove_not_atomic c10state 3 (by decide)
  have h2 := remove_not_atomic c10state 0 (by decide)
  refine ⟨?_, ?_, (h2.2 (by decide)).1, (h2.2 (by decide)).2.2.1⟩
  · rw [h1.1 (by decide)]
  · rw [h1.1 (by decide)]


/-- Witness for C4: reading index 3 of a one-element list creates three empty
slots and leaves the high-water mark alone. -/
theorem indexed_read_autocreates_witness :
    (getItem (appendFile initDFL ⟨"a"⟩).1 3).1.slots.length = 3 + 1 ∧
    (getItem (appendFile initDFL ⟨"a"⟩).1 3).1.last_idx =
      (appendFile initDFL ⟨"a"⟩).1.last_idx := by
  have h := indexed_read_autocreates (appendFile initDFL ⟨"a"⟩).1 3 (by decide)
  exact ⟨h.1, h.2.2.1⟩

/-! ## Append and resolution helpers (shared by several claims) -/

/-- Appending a bare file to a list with no producing task, no staging
collaborator, and the high-water mark at the end: a fresh Concrete wrapper is
appended. -/
theorem appendFile_grow (s : DFL) (f : File)
    (hK : s.last_idx = (s.slots.length : Int) - 1)
    (hp : s.parentSet = false) (hl : s.listState = FState.pending) :
    (appendFile s f).2 = none ∧
    (appendFile s f).1.slots = s.slots ++ [s.heap.length] ∧
    (appendFile s f).1.heap = s.heap ++
      [{ oid := s.heap.length, file_obj := FileObj.file f, is_df := false,
         emptyFlag := false, stagedOut := false, state := FState.pending,
         stageCount := 0 }] ∧
    (appendFile s f).1.last_idx = s.last_idx + 1 ∧
    (appendFile s f).1.parentSet = false ∧
    (appendFile s f).1.dataflowSet = s.dataflowSet ∧
    (appendFile s f).1.listState = s.listState ∧
    (appendFile s f).1.task = s.task ∧
    (appendFile s f).1.output_task_id = s.output_task_id := by
  set wf : DynFile :=
    { oid := s.heap.length, file_obj := FileObj.file f, is_df := false,
      emptyFlag := false, stagedOut := false, state := FState.pending,
      stageCount := 0 } with hwf_def
  have hwrap : wrap s (FileObj.file f) = ({ s with heap := s.heap ++ [wf] }, s.heap.length) := by
    simp [wrap, hl, hwf_def, isDFobj]
  have hfo : (if s.parentSet = true then FileObj.df (mkDF s f s.output_task_id)
      else FileObj.file f) = FileObj.file f := by simp [hp]
  have happ : appendFile s f =
      appendObj { s with heap := s.heap ++ [wf] } s.heap.length := by
    unfold appendFile
    rw [hfo]
    show appendObj (wrap s (FileObj.file f)).1 (wrap s (FileObj.file f)).2 = _
    rw [hwrap]
  set sa : DFL := { s with heap := s.heap ++ [wf] } with hsa_def
  have hbranch : sa.last_idx = (sa.slots.length : Int) - 1 := hK
  set sb : DFL := { sa with slots := sa.slots ++ [s.heap.length] } with hsb_def
  have happ2 : appendFile s f = appendFinish sb s.heap.length := by
    rw [happ]
    unfold appendObj
    rw [if_pos hbranch]
  have htonat : (sb.last_idx + 1).toNat = s.slots.length := by
    show (s.last_idx + 1).toNat = s.slots.length
    omega
  have hgetb : sb.slots.get? (sb.last_idx + 1).toNat = some s.heap.length := by
    rw [htonat]
    show (s.slots ++ [s.heap.length]).get? s.slots.length = some s.heap.length
    exact List.get?_concat_length _ _
  have hgetwf : heapGet sb s.heap.length = some wf := by
    show (s.heap ++ [wf]).get? s.heap.length = some wf
    exact List.get?_concat_length _ _
  have hfnwf : heapFilename sb s.heap.length = some f.fname := by
    rw [heapFilename, hgetwf]
    show fobjPath sb.heap sb.heap.length wf.file_obj = some f.fname
    exact fobjPath_file _ _ _
  have hgetc : ∀ sc2 : DFL, sc2.slots = sb.slots →
      sc2.slots.get? (sb.last_idx + 1).toNat = some s.heap.length := by
    intro sc2 h2
    rw [h2]
    exact hgetb
  have hfin : appendFile s f =
      (callCallbacks (stage_file
        { sb with files_done := dictSet sb.files_done (some f.fname) s.heap.length,
                  last_idx := sb.last_idx + 1 }
        (sb.last_idx + 1).toNat), none) := by
    rw [happ2]
    unfold appendFinish
    rw [hgetb, hfnwf]
  set sc : DFL :=
    { sb with files_done := dictSet sb.files_done (some f.fname) s.heap.length,
              last_idx := sb.last_idx + 1 } with hsc_def
  have hlenc : (sb.last_idx + 1).toNat < sc.slots.length := by
    show (sb.last_idx + 1).toNat < (s.slots ++ [s.heap.length]).length
    rw [htonat]
    simp
  obtain ⟨t1, t2, t3, t4, t5, t6, t7, t8, t9, t10, t11, t12⟩ :=
    stage_file_fields sc (sb.last_idx + 1).toNat hlenc
  obtain ⟨c1, c2, c3, c4, c5, c6, c7, c8, c9, c10, c11⟩ :=
    callCallbacks_fields (stage_file sc (sb.last_idx + 1).toNat)
  rw [hfin]
  have hheap : (stage_file sc (sb.last_idx + 1).toNat).heap.length = sc.heap.length := t11
  refine ⟨rfl, ?_, ?_, ?_, ?_, ?_, ?_, ?_, ?_⟩
  · rw [c2, t1]
  · -- heap: staging cannot fire on a Concrete wrapper (is_df is false), so
    -- the heap stays the appended heap
    rw [c1]
    have hgc : sc.slots.get? (sb.last_idx + 1).toNat = some s.heap.length :=
      hgetc sc rfl
    have hwc : heapGet sc s.heap.length = some wf := hgetwf
    by_cases hdf : sc.dataflowSet = true
    · have hgi : getItem sc (sb.last_idx + 1).toNat = (sc, some s.heap.length) := by
        unfold getItem
        rw [if_neg (Nat.not_le.mpr hlenc)]
        show (sc, sc.slots.get? (sb.last_idx + 1).toNat) = _
        rw [hgc]
      have hdfs : s.dataflowSet = true := hdf
      simp only [stage_file, hgi, stage_core, hgc, hwc, hwf_def]
      simp [hp, hdfs]
    · have hdf' : sc.dataflowSet = false := by
        cases h : sc.dataflowSet
        · rfl
        · exact absurd h hdf
      unfold stage_file
      rw [hdf']
      rfl
  · rw [c4, t3]
  · rw [c5, t4]; exact hp
  · rw [c6, t5]
  · rw [c9, t8]
  · rw [c11, t10]
  · rw [c8, t7]


/-- Resolution always leaves a wrapper `done`: after the list's callbacks run,
a wrapped DataFuture is resolved (with the failure or the file) and a
non-DataFuture wrapper reports done trivially. -/
theorem updWrapper_dynDone (b : Bool) (lerr : Option Nat) (w : DynFile) :
    dynDone (updWrapper b lerr w) = true := by
  rcases hb : (canSetTimestamp w.file_obj && b) with _ | _ <;>
    · unfold updWrapper dynDone
      rw [hb]
      cases hfo : w.file_obj <;> cases lerr <;> simp [hfo]

/-- Looking up a wrapper after the list's done-callbacks ran. -/
theorem heapGet_fire (s : DFL) (oid : Nat) (w : DynFile) (h : heapGet s oid = some w) :
    heapGet (fireListCallbacks s) oid =
      some (updWrapper s.dataflowSet (errOf s.listState) w) := by
  simpa [fireListCallbacks, heapGet, List.get?_map] using
    congrArg (Option.map (updWrapper s.dataflowSet (errOf s.listState))) h

/-! ## Claim C8: views over a parent list -/

/-- C8 counterexample: `c8view` is a fixed-bounds view `[0:8]` whose creation
left the parent at length 5 (the padding loop filled existing placeholders
without growing the list), so the view is created with 5 elements; one more
append grows the parent and the refreshed view has 6 elements — the view grew
past its original length. -/
theorem fixed_view_grows_past_creation_length :
    c8view.subs.map (fun v => (v.fixed, v.slots.length)) = [(true, 5)] ∧
    (appendFile c8view ⟨"c"⟩).1.subs.map (fun v => v.slots.length) = [6] := by
  exact ⟨by decide, by decide⟩

/-- A view value is within its fixed range bound. -/
def ViewOK (v : SubView) : Prop :=
  ∀ a b, v.start? = some a → v.stop? = some b → v.slots.length ≤ b - a

/-- A python slice with both bounds has at most `b - a` elements. -/
theorem pySlice_len_le {α : Type} (l : List α) (a b : Nat) :
    (pySlice l (some a) (some b)).length ≤ b - a := by
  simp [pySlice]
  omega

/-- Refreshing a view keeps its bounds and re-slices, so the result is within
its range bound. -/
theorem ViewOK_refresh (s : DFL) (u : SubView) : ViewOK (refreshSub s u) := by
  intro a b ha hb
  have ha' : u.start? = some a := ha
  have hb' : u.stop? = some b := hb
  show (pySlice s.slots u.start? u.stop?).length ≤ b - a
  rw [ha', hb']
  exact pySlice_len_le _ _ _

/-- Evolution of the view registry under one state transformation: every view
of the result is an untouched old view at the same index, or is within its
range bound. -/
def SubsStep (s t : DFL) : Prop :=
  ∀ j v, t.subs.get? j = some v → s.subs.get? j = some v ∨ ViewOK v

theorem SubsStep_of_eq {s t : DFL} (h : t.subs = s.subs) : SubsStep s t := by
  intro j v hv
  rw [h] at hv
  exact Or.inl hv

theorem SubsStep_rfl (s : DFL) : SubsStep s s := SubsStep_of_eq rfl

theorem SubsStep_trans {s t u : DFL} (h1 : SubsStep s t) (h2 : SubsStep t u) :
    SubsStep s u := by
  intro j v hv
  rcases h2 j v hv with h | h
  · exact h1 j v h
  · exact Or.inr h

theorem get?_append_single {α : Type} (l : List α) (x : α) (j : Nat) (v : α)
    (h : (l ++ [x]).get? j = some v) : l.get? j = some v ∨ v = x := by
  rcases Nat.lt_or_ge j l.length with hj | hj
  · rw [List.get?_append hj] at h
    exact Or.inl h
  · rcases Nat.eq_or_lt_of_le hj with hj2 | hj2
    · subst hj2
      rw [List.get?_concat_length] at h
      exact Or.inr (Option.some.inj h).symm
    · rw [List.get?_eq_none.mpr (by simp; omega)] at h
      exact Option.noConfusion h

theorem SubsStep_trans_eq {s t u : DFL} (h1 : t.subs = s.subs) (h2 : SubsStep t u) :
    SubsStep s u := SubsStep_trans (SubsStep_of_eq h1) h2

theorem SubsStep_callCallbacks (s : DFL) : SubsStep s (callCallbacks s) := by
  unfold callCallbacks
  split
  · exact SubsStep_rfl s
  · intro j v hv
    simp only [List.get?_map] at hv
    rcases h2 : s.subs.get? j with _ | u
    · rw [h2] at hv; exact Option.noConfusion hv
    · rw [h2] at hv
      simp only [Option.map_some'] at hv
      exact Or.inr (Option.some.inj hv ▸ ViewOK_refresh _ u)

theorem SubsStep_setHeap (s : DFL) (o : Nat) (w : DynFile) :
    SubsStep s (setHeap s o w) := SubsStep_of_eq rfl

theorem SubsStep_stage_core (s : DFL) (idx : Nat) : SubsStep s (stage_core s idx) := by
  unfold stage_core
  split
  · exact SubsStep_rfl s
  · split
    · exact SubsStep_rfl s
    · split
      · exact SubsStep_rfl s
      · split
        · exact SubsStep_rfl s
        · split
          · exact SubsStep_callCallbacks s
          · exact SubsStep_trans (SubsStep_setHeap s _ _) (SubsStep_callCallbacks _)

theorem expandN_subs (s : DFL) (n : Nat) : (expandN s n).subs = s.subs :=
  (expandN_spec s n).2.2.2.2.2.2.2.2.2.1

theorem SubsStep_getItem (s : DFL) (idx : Nat) : SubsStep s (getItem s idx).1 := by
  unfold getItem
  split
  · exact SubsStep_of_eq (expandN_subs s _)
  · exact SubsStep_rfl s

theorem SubsStep_stage_file (s : DFL) (idx : Nat) : SubsStep s (stage_file s idx) := by
  unfold stage_file
  split
  · exact SubsStep_rfl s
  · exact SubsStep_trans (SubsStep_getItem s idx) (SubsStep_stage_core _ idx)

theorem dynSet_subs (s : DFL) (tgt : Nat) (fo : FileObj) :
    (dynSet s tgt fo).subs = s.subs := by
  unfold dynSet
  split
  · rfl
  · rfl

theorem SubsStep_appendFinish (s : DFL) (oid : Nat) :
    SubsStep s (appendFinish s oid).1 := by
  unfold appendFinish
  simp only []
  split
  · exact SubsStep_rfl s
  · refine SubsStep_trans_eq ?_
      (SubsStep_trans (SubsStep_stage_file _ _) (SubsStep_callCallbacks _))
    rfl

theorem SubsStep_appendObj (s : DFL) (oid : Nat) :
    SubsStep s (appendObj s oid).1 := by
  unfold appendObj
  split
  · exact SubsStep_trans_eq rfl (SubsStep_appendFinish _ _)
  · split
    · exact SubsStep_rfl s
    · exact SubsStep_trans_eq (dynSet_subs s _ _) (SubsStep_appendFinish _ _)

theorem wrap_subs (s : DFL) (fo : FileObj) : (wrap s fo).1.subs = s.subs := rfl

theorem SubsStep_appendFile (s : DFL) (f : File) : SubsStep s (appendFile s f).1 := by
  unfold appendFile
  exact SubsStep_trans_eq (wrap_subs s _) (SubsStep_appendObj _ _)

theorem wrapItems_subs (fs : List File) : ∀ s : DFL, (wrapItems s fs).1.subs = s.subs := by
  induction fs with
  | nil => intro s; rfl
  | cons f fs ih =>
    intro s
    unfold wrapItems
    exact ih _

theorem SubsStep_stageSeq (n : Nat) : ∀ s : DFL, SubsStep s (stageSeq s n) := by
  induction n with
  | zero => intro s; exact SubsStep_rfl s
  | succ n ih =>
    intro s
    unfold stageSeq
    simp only []
    refine SubsStep_trans_eq ?_ (SubsStep_trans (SubsStep_stage_file _ _) (ih _))
    rfl

theorem SubsStep_extendFill (oids : List Nat) : ∀ s : DFL, SubsStep s (extendFill s oids) := by
  induction oids with
  | nil => intro s; exact SubsStep_rfl s
  | cons oid rest ih =>
    intro s
    unfold extendFill
    simp only []
    split
    · refine SubsStep_trans_eq ?_ (SubsStep_trans (SubsStep_getItem _ _) (ih _))
      rfl
    · refine SubsStep_trans_eq ?_
        (SubsStep_trans
          (SubsStep_getItem { s with last_idx := s.last_idx + 1 } (s.last_idx + 1).toNat)
          (SubsStep_trans_eq ?_
            (SubsStep_trans (SubsStep_stage_file _ _) (ih _))))
      · rfl
      · exact dynSet_subs _ _ _

theorem SubsStep_extendF (s : DFL) (fs : List File) : SubsStep s (extendF s fs) := by
  unfold extendF
  simp only []
  split
  · refine SubsStep_trans_eq ?_
      (SubsStep_trans (SubsStep_stageSeq _ _) (SubsStep_callCallbacks _))
    exact wrapItems_subs fs s
  · split
    · refine SubsStep_trans_eq ?_
        (SubsStep_trans (SubsStep_extendFill _ _) (SubsStep_callCallbacks _))
      exact wrapItems_subs fs s
    · refine SubsStep_trans_eq ?_
        (SubsStep_trans (SubsStep_extendFill _ _) (SubsStep_callCallbacks _))
      exact wrapItems_subs fs s

theorem SubsStep_insertF (s : DFL) (idx : Nat) (f : File) :
    SubsStep s (insertF s idx f).1 := by
  unfold insertF
  simp only []
  split
  · exact SubsStep_rfl s
  · set fo := (if s.parentSet then FileObj.df (mkDF s f s.output_task_id)
      else FileObj.file f) with hfo
    set p := wrap s fo with hp
    set s1 : DFL := { p.1 with files_done := dictSet p.1.files_done (some f.fname) p.2 }
      with hs1
    set s2 : DFL := { s1 with slots := s1.slots.take idx ++ p.2 :: s1.slots.drop idx }
      with hs2
    refine SubsStep_trans_eq ?_
      (SubsStep_trans (SubsStep_stage_file s2 idx)
        (SubsStep_trans_eq ?_ (SubsStep_callCallbacks _)))
    · rfl
    · rfl

theorem SubsStep_setItemF (s : DFL) (key : Nat) (f : File) :
    SubsStep s (setItemF s key f).1 := by
  unfold setItemF
  simp only []
  split
  · exact SubsStep_getItem s key
  · split
    · exact SubsStep_getItem s key
    · split
      · split
        · refine SubsStep_trans (SubsStep_getItem s key)
            (SubsStep_trans_eq ?_
              (SubsStep_trans (SubsStep_callCallbacks _) (SubsStep_stage_file _ _)))
          exact dynSet_subs _ _ _
        · refine SubsStep_trans (SubsStep_getItem s key)
            (SubsStep_trans_eq ?_
              (SubsStep_trans (SubsStep_callCallbacks _) (SubsStep_stage_file _ _)))
          exact dynSet_subs _ _ _
      · split
        · exact SubsStep_trans (SubsStep_getItem s key) (SubsStep_of_eq rfl)
        · exact SubsStep_getItem s key

theorem SubsStep_removeW (s : DFL) (oid : Nat) : SubsStep s (removeW s oid).1 := by
  unfold removeW
  simp only []
  split
  · exact SubsStep_rfl s
  · split
    · refine SubsStep_trans_eq ?_ (SubsStep_callCallbacks _)
      rfl
    · exact SubsStep_of_eq rfl

theorem convert_to_df_subs (s : DFL) (oid : Nat) :
    (convert_to_df s oid).1.subs = s.subs := by
  unfold convert_to_df
  split
  · rfl
  · split
    · rfl
    · split <;> rfl

theorem SubsStep_promoteLoop (n : Nat) :
    ∀ (s : DFL) (idx : Nat), SubsStep s (promoteLoop s idx n).1 := by
  induction n with
  | zero => intro s idx; exact SubsStep_callCallbacks s
  | succ n ih =>
    intro s idx
    unfold promoteLoop
    simp only []
    rcases hgi : (getItem s idx).2 with _ | oid
    · exact SubsStep_trans (SubsStep_getItem _ _) (SubsStep_callCallbacks _)
    · simp only []
      rcases hcv : convert_to_df (getItem s idx).1 oid with ⟨s1, e1⟩
      have h2 : s1.subs = (getItem s idx).1.subs := by
        have h3 := convert_to_df_subs (getItem s idx).1 oid
        rw [hcv] at h3
        exact h3
      cases e1 with
      | some e => exact SubsStep_trans (SubsStep_getItem _ _) (SubsStep_of_eq h2)
      | none =>
        exact SubsStep_trans (SubsStep_getItem _ _)
          (SubsStep_trans (SubsStep_of_eq h2)
            (SubsStep_trans (SubsStep_stage_file _ _) (ih _ _)))

theorem fireListCallbacks_subs (s : DFL) : (fireListCallbacks s).subs = s.subs := rfl

theorem listParentCallback_subs (s : DFL) : (listParentCallback s).subs = s.subs := by
  unfold listParentCallback
  split
  · rfl
  · rfl
  · rfl

theorem SubsStep_set_parent (s : DFL) : SubsStep s (set_parent s).1 := by
  unfold set_parent
  simp only []
  split
  · exact SubsStep_rfl s
  · split
    · refine SubsStep_trans_eq ?_ (SubsStep_promoteLoop _ _ _)
      exact listParentCallback_subs _
    · refine SubsStep_trans_eq ?_ (SubsStep_promoteLoop _ _ _)
      rfl

theorem SubsStep_stageRange (n : Nat) :
    ∀ (s : DFL) (idx : Nat), SubsStep s (stageRange s idx n) := by
  induction n with
  | zero => intro s idx; exact SubsStep_rfl s
  | succ n ih =>
    intro s idx
    unfold stageRange
    exact SubsStep_trans (SubsStep_stage_file _ _) (ih _ _)

theorem SubsStep_set_dataflow (s : DFL) (inh : Bool) (tid : Nat) :
    SubsStep s (set_dataflow s inh tid) := by
  unfold set_dataflow
  simp only []
  refine SubsStep_trans_eq ?_ (SubsStep_stageRange _ _ _)
  rfl

theorem SubsStep_padAppend (n : Nat) : ∀ s : DFL, SubsStep s (padAppend s n).1 := by
  induction n with
  | zero => intro s; exact SubsStep_rfl s
  | succ n ih =>
    intro s
    unfold padAppend
    simp only []
    rcases heq : appendObj (wrap s FileObj.fnone).1 (wrap s FileObj.fnone).2 with ⟨s1, e1⟩
    have h1 : SubsStep s s1 := by
      have h2 := SubsStep_appendObj (wrap s FileObj.fnone).1 (wrap s FileObj.fnone).2
      rw [heq] at h2
      exact SubsStep_trans_eq (wrap_subs s _) h2
    cases e1 with
    | none => exact SubsStep_trans h1 (ih _)
    | some e => exact h1

theorem ViewOK_mk (s : DFL) (a b : Option Nat) :
    ViewOK { start? := a, stop? := b, fixed := a.isSome && b.isSome,
             slots := (subContent s a b).1, files_done := (subContent s a b).2.1,
             last_idx := (subContent s a b).2.2 } := by
  intro a' b' ha hb
  cases a with
  | none => exact Option.noConfusion ha
  | some av =>
    cases b with
    | none => exact Option.noConfusion hb
    | some bv =>
      obtain rfl : av = a' := Option.some.inj ha
      obtain rfl : bv = b' := Option.some.inj hb
      exact pySlice_len_le _ _ _

theorem SubsStep_register_view (s : DFL) (a b : Option Nat) :
    SubsStep s { s with subs := s.subs ++
      [{ start? := a, stop? := b, fixed := a.isSome && b.isSome,
         slots := (subContent s a b).1, files_done := (subContent s a b).2.1,
         last_idx := (subContent s a b).2.2 }] } := by
  intro j v hv
  rcases get?_append_single _ _ _ _ hv with h | h
  · exact Or.inl h
  · refine Or.inr ?_
    rw [h]
    exact ViewOK_mk s a b

theorem SubsStep_getSlice (s : DFL) (a b : Option Nat) :
    SubsStep s (getSlice s a b).1 := by
  cases a with
  | none =>
    cases b with
    | none =>
      unfold getSlice
      simp only []
      exact SubsStep_register_view s none none
    | some bv =>
      unfold getSlice
      simp only []
      by_cases hc : s.slots.length < bv
      · rw [if_pos hc]
        rcases hp : padAppend s (bv - s.slots.length) with ⟨s1, e1⟩
        have h1 : SubsStep s s1 := by
          have h2 := SubsStep_padAppend (bv - s.slots.length) s
          rw [hp] at h2
          exact h2
        cases e1 with
        | some e => exact h1
        | none =>
          simp only []
          exact SubsStep_trans h1 (SubsStep_register_view s1 none (some bv))
      · rw [if_neg hc]
        exact SubsStep_register_view s none (some bv)
  | some av =>
    unfold getSlice
    simp only []
    by_cases hc : s.slots.length ≤ av
    · rw [if_pos hc]
      rcases hp : padAppend s (av + 1 - s.slots.length) with ⟨s1, e1⟩
      have h1 : SubsStep s s1 := by
        have h2 := SubsStep_padAppend (av + 1 - s.slots.length) s
        rw [hp] at h2
        exact h2
      cases e1 with
      | some e => exact h1
      | none =>
        simp only []
        cases b with
        | none => exact SubsStep_trans h1 (SubsStep_register_view s1 (some av) none)
        | some bv =>
          simp only []
          by_cases hc2 : s1.slots.length < bv
          · rw [if_pos hc2]
            rcases hp2 : padAppend s1 (bv - s1.slots.length) with ⟨s2, e2⟩
            have h2 : SubsStep s1 s2 := by
              have h3 := SubsStep_padAppend (bv - s1.slots.length) s1
              rw [hp2] at h3
              exact h3
            cases e2 with
            | some e => exact SubsStep_trans h1 h2
            | none =>
              simp only []
              exact SubsStep_trans h1
                (SubsStep_trans h2 (SubsStep_register_view s2 (some av) (some bv)))
          · rw [if_neg hc2]
            exact SubsStep_trans h1 (SubsStep_register_view s1 (some av) (some bv))
    · rw [if_neg hc]
      simp only []
      cases b with
      | none => exact SubsStep_register_view s (some av) none
      | some bv =>
        simp only []
        by_cases hc2 : s.slots.length < bv
        · rw [if_pos hc2]
          rcases hp2 : padAppend s (bv - s.slots.length) with ⟨s2, e2⟩
          have h2 : SubsStep s s2 := by
            have h3 := SubsStep_padAppend (bv - s.slots.length) s
            rw [hp2] at h3
            exact h3
          cases e2 with
          | some e => exact h2
          | none =>
            simp only []
            exact SubsStep_trans h2 (SubsStep_register_view s2 (some av) (some bv))
        · rw [if_neg hc2]
          exact SubsStep_register_view s (some av) (some bv)

theorem resolveTask_subs (s : DFL) (o : FState) : (resolveTask s o).subs = s.subs := by
  unfold resolveTask
  simp only []
  split
  · split
    · exact listParentCallback_subs _
    · rfl
  · rfl

theorem SubsStep_runB (s : DFL) (op : OpB) : SubsStep s (runB s op) := by
  cases op with
  | appendB f => exact SubsStep_appendFile s f
  | extendB fs => exact SubsStep_extendF s fs
  | insertB i f => exact SubsStep_insertF s i f
  | setItemB i f => exact SubsStep_setItemF s i f
  | setParentB => exact SubsStep_set_parent s
  | setDataflowB inh tid => exact SubsStep_set_dataflow s inh tid

theorem SubsStep_run1 (s : DFL) (op : Op) : SubsStep s (run1 s op) := by
  cases op with
  | basic op => exact SubsStep_runB s op
  | getItemOp i => exact SubsStep_getItem s i
  | getSliceOp a b => exact SubsStep_getSlice s a b
  | removeOp oid => exact SubsStep_removeW s oid
  | resolveOp o => exact SubsStep_of_eq (resolveTask_subs s o)

theorem SubsStep_runOps (ops : List Op) : ∀ s : DFL, SubsStep s (runOps s ops) := by
  induction ops with
  | nil => intro s; exact SubsStep_rfl s
  | cons op ops ih =>
    intro s
    unfold runOps
    exact SubsStep_trans (SubsStep_run1 s op) (ih _)


/-! ## Claim C1: staging fires at most once per slot -/

/-- Every slot reference points into the heap. -/
def slotsValid (s : DFL) : Prop :=
  ∀ i oid, s.slots.get? i = some oid → oid < s.heap.length

/-- No wrapper has been handed to the staging collaborator more than once. -/
def counts1 (s : DFL) : Prop :=
  ∀ o w, heapGet s o = some w → w.stageCount ≤ 1

/-- No wrapper has been handed to the staging collaborator at all. -/
def counts0 (s : DFL) : Prop :=
  ∀ o w, heapGet s o = some w → w.stageCount = 0

/-- No wrapper has its `_staged_out` flag raised (no code path sets it). -/
def stagedOut0 (s : DFL) : Prop :=
  ∀ o w, heapGet s o = some w → w.stagedOut = false

/-- Empty wrappers have never been staged (the guard skips them). -/
def empty0 (s : DFL) : Prop :=
  ∀ o w, heapGet s o = some w → w.emptyFlag = true → w.stageCount = 0

/-- All slots at index `idx` or beyond hold unstaged wrappers. -/
def tail0 (s : DFL) (idx : Nat) : Prop :=
  ∀ k oid w, idx ≤ k → s.slots.get? k = some oid → heapGet s oid = some w →
    w.stageCount = 0

/-- The staging invariant: valid distinct slot references, high-water mark at
the end of the list (every basic operation restores it), no `_staged_out`
flag, unstaged empty wrappers, staging counters never past 1, and all
counters 0 while either the producing task or the staging collaborator is
missing. -/
def C1Inv (s : DFL) : Prop :=
  slotsValid s ∧ s.slots.Nodup ∧ s.last_idx = (s.slots.length : Int) - 1 ∧
  stagedOut0 s ∧ empty0 s ∧ counts1 s ∧
  ((s.parentSet = false ∨ s.dataflowSet = false) → counts0 s)

/-- Staging count of the wrapper referenced by `oid` (0 when dangling). -/
def stageCountOf (s : DFL) (oid : Nat) : Nat :=
  match heapGet s oid with
  | some w => w.stageCount
  | none => 0

/-- A heap reference that resolves is in range. -/
theorem heapGet_lt {s : DFL} {o : Nat} {w : DynFile} (h : heapGet s o = some w) :
    o < s.heap.length := by
  by_contra hge
  rw [heapGet, List.get?_eq_none.mpr (by omega)] at h
  exact Option.noConfusion h

/-- An in-range heap reference resolves. -/
theorem heapGet_total {s : DFL} {o : Nat} (h : o < s.heap.length) :
    ∃ w, heapGet s o = some w := by
  rw [heapGet, List.get?_eq_getElem?, List.getElem?_eq_getElem h]
  exact ⟨_, rfl⟩

/-- Sharp effect of `stage_file` at an in-range index: the list structure is
untouched, and each wrapper is either untouched or — exactly when it sits in
the staged slot and the whole guard chain passes — handed to the staging
collaborator one more time. -/
theorem stage_file_effect (s : DFL) (idx : Nat) (hidx : idx < s.slots.length) :
    (stage_file s idx).slots = s.slots ∧
    (stage_file s idx).last_idx = s.last_idx ∧
    (stage_file s idx).parentSet = s.parentSet ∧
    (stage_file s idx).dataflowSet = s.dataflowSet ∧
    (stage_file s idx).inhibited = s.inhibited ∧
    (stage_file s idx).heap.length = s.heap.length ∧
    (∀ o w, heapGet s o = some w →
      heapGet (stage_file s idx) o = some w ∨
      (s.slots.get? idx = some o ∧ w.emptyFlag = false ∧ w.stagedOut = false ∧
       s.parentSet = true ∧ w.is_df = true ∧ s.dataflowSet = true ∧
       s.inhibited = false ∧
       heapGet (stage_file s idx) o =
         some { w with stageCount := w.stageCount + 1 })) := by
  unfold stage_file
  split
  · exact ⟨rfl, rfl, rfl, rfl, rfl, rfl, fun o w hw => Or.inl hw⟩
  · next hdf =>
    have hdf' : s.dataflowSet = true := by
      by_contra hfalse
      exact hdf (by simp [Bool.not_eq_true] at hfalse ⊢; exact hfalse)
    have hget : getItem s idx = (s, s.slots.get? idx) := by
      simp [getItem, Nat.not_le.mpr hidx]
    rw [hget]
    simp only []
    unfold stage_core
    split
    · exact ⟨rfl, rfl, rfl, rfl, rfl, rfl, fun o w hw => Or.inl hw⟩
    · next oid hoid =>
      split
      · exact ⟨rfl, rfl, rfl, rfl, rfl, rfl, fun o w hw => Or.inl hw⟩
      · next wt hwt =>
        split
        · exact ⟨rfl, rfl, rfl, rfl, rfl, rfl, fun o w hw => Or.inl hw⟩
        · next hflags =>
          split
          · exact ⟨rfl, rfl, rfl, rfl, rfl, rfl, fun o w hw => Or.inl hw⟩
          · next hpdf =>
            have hemp : wt.emptyFlag = false ∧ wt.stagedOut = false := by
              constructor <;>
                · by_contra hx
                  rw [Bool.not_eq_false] at hx
                  exact hflags (by simp [hx])
            have hpis : s.parentSet = true ∧ wt.is_df = true := by
              constructor <;>
                · by_contra hx
                  rw [Bool.not_eq_true] at hx
                  exact hpdf (by simp [hx])
            split
            · obtain ⟨c1, c2, c3, c4, c5, c6, c7, c8, c9, c10, c11⟩ :=
                callCallbacks_fields s
              exact ⟨c2, c4, c5, c6, c7, by rw [c1], fun o w hw =>
                Or.inl (by rw [heapGet, c1]; exact hw)⟩
            · next hinh =>
              have hinh' : s.inhibited = false := by
                rw [Bool.not_eq_true] at hinh; exact hinh
              obtain ⟨c1, c2, c3, c4, c5, c6, c7, c8, c9, c10, c11⟩ :=
                callCallbacks_fields
                  (setHeap s oid { wt with stageCount := wt.stageCount + 1 })
              refine ⟨c2, c4, c5, c6, c7, by rw [c1]; simp [setHeap], ?_⟩
              intro o w hw
              by_cases ho : oid = o
              · subst ho
                have hlt : oid < s.heap.length := heapGet_lt hw
                have hw' : wt = w := by rw [hwt] at hw; exact Option.some.inj hw
                subst hw'
                refine Or.inr ⟨hoid, hemp.1, hemp.2, hpis.1, hpis.2, hdf', hinh', ?_⟩
                rw [heapGet, c1]
                simp [setHeap, List.get?_eq_getElem?,
                  List.getElem?_set_eq_of_lt _ hlt]
              · refine Or.inl ?_
                rw [heapGet, c1]
                simpa [setHeap, heapGet, List.get?_eq_getElem?,
                  List.getElem?_set_ne ho] using hw

/-- The staging predicates transfer along heap/slots equalities. -/
theorem counts1_eq {s t : DFL} (h : t.heap = s.heap) (hc : counts1 s) : counts1 t := by
  intro o w hw
  rw [heapGet, h] at hw
  exact hc o w hw

/-- `counts0` transfers along a heap equality. -/
theorem counts0_eq {s t : DFL} (h : t.heap = s.heap) (hc : counts0 s) : counts0 t := by
  intro o w hw
  rw [heapGet, h] at hw
  exact hc o w hw

/-- `stagedOut0` transfers along a heap equality. -/
theorem stagedOut0_eq {s t : DFL} (h : t.heap = s.heap) (hc : stagedOut0 s) :
    stagedOut0 t := by
  intro o w hw
  rw [heapGet, h] at hw
  exact hc o w hw

/-- `empty0` transfers along a heap equality. -/
theorem empty0_eq {s t : DFL} (h : t.heap = s.heap) (hc : empty0 s) : empty0 t := by
  intro o w hw
  rw [heapGet, h] at hw
  exact hc o w hw

/-- `slotsValid` transfers along heap/slots equalities. -/
theorem slotsValid_eq {s t : DFL} (hh : t.heap.length = s.heap.length)
    (hs : t.slots = s.slots) (hv : slotsValid s) : slotsValid t := by
  intro i oid h
  rw [hs] at h
  rw [hh]
  exact hv i oid h

/-- `tail0` transfers along heap/slots equalities. -/
theorem tail0_eq {s t : DFL} (hh : t.heap = s.heap) (hs : t.slots = s.slots)
    {idx : Nat} (hv : tail0 s idx) : tail0 t idx := by
  intro k oid w hk hsk hw
  rw [hs] at hsk
  rw [heapGet, hh] at hw
  exact hv k oid w hk hsk hw

/-- One staging step at an unstaged in-range slot keeps the whole predicate
pack and moves the unstaged tail one position up. -/
theorem stage_step_pack (s : DFL) (idx : Nat) (hidx : idx < s.slots.length)
    (hval : slotsValid s) (hnd : s.slots.Nodup) (hso : stagedOut0 s) (he : empty0 s)
    (hc : counts1 s) (ht : tail0 s idx) :
    slotsValid (stage_file s idx) ∧ (stage_file s idx).slots.Nodup ∧
    stagedOut0 (stage_file s idx) ∧ empty0 (stage_file s idx) ∧
    counts1 (stage_file s idx) ∧ tail0 (stage_file s idx) (idx + 1) ∧
    ((s.parentSet = false ∨ s.dataflowSet = false) → counts0 s →
      counts0 (stage_file s idx)) := by
  obtain ⟨e1, e2, e3, e4, e5, e6, e7⟩ := stage_file_effect s idx hidx
  have hsrc : ∀ o w, heapGet (stage_file s idx) o = some w →
      ∃ w0, heapGet s o = some w0 ∧
        (w = w0 ∨
         (s.slots.get? idx = some o ∧ w0.emptyFlag = false ∧ w0.stagedOut = false ∧
          s.parentSet = true ∧ w0.is_df = true ∧ s.dataflowSet = true ∧
          s.inhibited = false ∧ w = { w0 with stageCount := w0.stageCount + 1 })) := by
    intro o w hw
    have hlt : o < s.heap.length := by
      have := heapGet_lt hw
      rw [e6] at this
      exact this
    obtain ⟨w0, hw0⟩ := heapGet_total hlt
    rcases e7 o w0 hw0 with h | ⟨h1, h2, h3, h4, h5, h6, h7, h⟩
    · rw [h] at hw
      exact ⟨w0, hw0, Or.inl (Option.some.inj hw).symm⟩
    · rw [h] at hw
      exact ⟨w0, hw0, Or.inr ⟨h1, h2, h3, h4, h5, h6, h7, (Option.some.inj hw).symm⟩⟩
  refine ⟨slotsValid_eq e6 e1 hval, e1 ▸ hnd, ?_, ?_, ?_, ?_, ?_⟩
  · intro o w hw
    obtain ⟨w0, hw0, hcase⟩ := hsrc o w hw
    rcases hcase with rfl | ⟨_, _, h3, _, _, _, _, rfl⟩
    · exact hso o w hw0
    · exact h3
  · intro o w hw hemp
    obtain ⟨w0, hw0, hcase⟩ := hsrc o w hw
    rcases hcase with rfl | ⟨_, h2, _, _, _, _, _, rfl⟩
    · exact he o w hw0 hemp
    · exact absurd hemp (by simp [h2])
  · intro o w hw
    obtain ⟨w0, hw0, hcase⟩ := hsrc o w hw
    rcases hcase with rfl | ⟨h1, _, _, _, _, _, _, rfl⟩
    · exact hc o w hw0
    · have h0 : w0.stageCount = 0 := ht idx o w0 (Nat.le_refl idx) h1 hw0
      simp [h0]
  · intro k oid w hk hsk hw
    rw [e1] at hsk
    obtain ⟨w0, hw0, hcase⟩ := hsrc oid w hw
    rcases hcase with rfl | ⟨h1, _, _, _, _, _, _, rfl⟩
    · exact ht k oid w (by omega) hsk hw0
    · exfalso
      have hik : idx = k := by
        refine List.get?_inj hidx hnd ?_
        rw [h1, hsk]
      omega
  · intro hun hc0
    intro o w hw
    obtain ⟨w0, hw0, hcase⟩ := hsrc o w hw
    rcases hcase with rfl | ⟨_, _, _, h4, _, h6, _, rfl⟩
    · exact hc0 o w hw0
    · rcases hun with hun | hun
      · rw [h4] at hun
        exact Bool.noConfusion hun
      · rw [h6] at hun
        exact Bool.noConfusion hun

/-- The staging loop of `set_dataflow`: structure preserved, every counter
stays within 1, and nothing is staged while a collaborator is missing. -/
theorem stageRange_effect : ∀ (n : Nat) (s : DFL) (idx : Nat),
    idx + n ≤ s.slots.length →
    slotsValid s → s.slots.Nodup → stagedOut0 s → empty0 s → counts1 s →
    tail0 s idx →
    (stageRange s idx n).slots = s.slots ∧
    (stageRange s idx n).last_idx = s.last_idx ∧
    (stageRange s idx n).parentSet = s.parentSet ∧
    (stageRange s idx n).dataflowSet = s.dataflowSet ∧
    (stageRange s idx n).inhibited = s.inhibited ∧
    (stageRange s idx n).heap.length = s.heap.length ∧
    stagedOut0 (stageRange s idx n) ∧ empty0 (stageRange s idx n) ∧
    counts1 (stageRange s idx n) ∧
    ((s.parentSet = false ∨ s.dataflowSet = false) → counts0 s →
      counts0 (stageRange s idx n)) := by
  intro n
  induction n with
  | zero =>
    intro s idx _ _ _ hso he hc _
    exact ⟨rfl, rfl, rfl, rfl, rfl, rfl, hso, he, hc, fun _ h0 => h0⟩
  | succ n ih =>
    intro s idx hlen hval hnd hso he hc ht
    have hidx : idx < s.slots.length := by omega
    obtain ⟨e1, e2, e3, e4, e5, e6, _⟩ := stage_file_effect s idx hidx
    obtain ⟨p1, p2, p3, p4, p5, p6, p7⟩ :=
      stage_step_pack s idx hidx hval hnd hso he hc ht
    have hlen' : idx + 1 + n ≤ (stage_file s idx).slots.length := by
      rw [e1]; omega
    obtain ⟨q1, q2, q3, q4, q5, q6, q7, q8, q9, q10⟩ :=
      ih (stage_file s idx) (idx + 1) hlen' p1 p2 p3 p4 p5 p6
    rw [stageRange]
    refine ⟨q1.trans e1, q2.trans e2, q3.trans e3, q4.trans e4, q5.trans e5,
      q6.trans e6, q7, q8, q9, ?_⟩
    intro hun hc0
    refine q10 ?_ (p7 hun hc0)
    rw [e3, e4]
    exact hun

/-- Predicates transfer along a pointwise heap simulation that preserves the
staging-relevant wrapper fields. -/
theorem preds_of_pointwise {s t : DFL} (hlen : t.heap.length = s.heap.length)
    (hpt : ∀ o w, heapGet s o = some w →
      ∃ w', heapGet t o = some w' ∧ w'.stageCount = w.stageCount ∧
        w'.stagedOut = w.stagedOut ∧ w'.emptyFlag = w.emptyFlag) :
    (stagedOut0 s → stagedOut0 t) ∧ (empty0 s → empty0 t) ∧
    (counts1 s → counts1 t) ∧ (counts0 s → counts0 t) ∧
    (∀ idx, t.slots = s.slots → tail0 s idx → tail0 t idx) := by
  have hsrc : ∀ o w', heapGet t o = some w' →
      ∃ w, heapGet s o = some w ∧ w'.stageCount = w.stageCount ∧
        w'.stagedOut = w.stagedOut ∧ w'.emptyFlag = w.emptyFlag := by
    intro o w' hw'
    have hlt : o < s.heap.length := by
      rw [← hlen]
      exact heapGet_lt hw'
    obtain ⟨w, hw⟩ := heapGet_total hlt
    obtain ⟨w'', hw'', f1, f2, f3⟩ := hpt o w hw
    rw [hw''] at hw'
    cases Option.some.inj hw'
    exact ⟨w, hw, f1, f2, f3⟩
  refine ⟨?_, ?_, ?_, ?_, ?_⟩
  · intro h o w' hw'
    obtain ⟨w, hw, _, f2, _⟩ := hsrc o w' hw'
    rw [f2]
    exact h o w hw
  · intro h o w' hw' hemp
    obtain ⟨w, hw, f1, _, f3⟩ := hsrc o w' hw'
    rw [f1]
    exact h o w hw (by rw [← f3]; exact hemp)
  · intro h o w' hw'
    obtain ⟨w, hw, f1, _, _⟩ := hsrc o w' hw'
    rw [f1]
    exact h o w hw
  · intro h o w' hw'
    obtain ⟨w, hw, f1, _, _⟩ := hsrc o w' hw'
    rw [f1]
    exact h o w hw
  · intro idx hslots h k oid w' hk hsk hw'
    obtain ⟨w, hw, f1, _, _⟩ := hsrc oid w' hw'
    rw [f1]
    rw [hslots] at hsk
    exact h k oid w hk hsk hw

/-- A wrapper's done-callback changes only its resolution state, never the
staging bookkeeping. -/
theorem updWrapper_core (b : Bool) (lerr : Option Nat) (w : DynFile) :
    (updWrapper b lerr w).stageCount = w.stageCount ∧
    (updWrapper b lerr w).stagedOut = w.stagedOut ∧
    (updWrapper b lerr w).emptyFlag = w.emptyFlag := by
  unfold updWrapper
  simp only []
  split <;> split <;> simp

/-- Firing the list's done-callbacks maps `updWrapper` over the heap: the
staging bookkeeping of every wrapper survives. -/
theorem fireListCallbacks_effect (s : DFL) :
    (fireListCallbacks s).slots = s.slots ∧
    (fireListCallbacks s).last_idx = s.last_idx ∧
    (fireListCallbacks s).parentSet = s.parentSet ∧
    (fireListCallbacks s).dataflowSet = s.dataflowSet ∧
    (fireListCallbacks s).inhibited = s.inhibited ∧
    (fireListCallbacks s).heap.length = s.heap.length ∧
    (∀ o w, heapGet s o = some w →
      ∃ w', heapGet (fireListCallbacks s) o = some w' ∧
        w'.stageCount = w.stageCount ∧ w'.stagedOut = w.stagedOut ∧
        w'.emptyFlag = w.emptyFlag) := by
  refine ⟨rfl, rfl, rfl, rfl, rfl, by simp [fireListCallbacks], ?_⟩
  intro o w hw
  obtain ⟨f1, f2, f3⟩ := updWrapper_core s.dataflowSet (errOf s.listState) w
  refine ⟨updWrapper s.dataflowSet (errOf s.listState) w, ?_, f1, f2, f3⟩
  show (s.heap.map (updWrapper s.dataflowSet (errOf s.listState))).get? o = _
  rw [List.get?_map, show s.heap.get? o = some w from hw]
  rfl

/-- The list's own completion callback: same staging bookkeeping. -/
theorem listParentCallback_effect (s : DFL) :
    (listParentCallback s).slots = s.slots ∧
    (listParentCallback s).last_idx = s.last_idx ∧
    (listParentCallback s).parentSet = s.parentSet ∧
    (listParentCallback s).dataflowSet = s.dataflowSet ∧
    (listParentCallback s).inhibited = s.inhibited ∧
    (listParentCallback s).heap.length = s.heap.length ∧
    (∀ o w, heapGet s o = some w →
      ∃ w', heapGet (listParentCallback s) o = some w' ∧
        w'.stageCount = w.stageCount ∧ w'.stagedOut = w.stagedOut ∧
        w'.emptyFlag = w.emptyFlag) := by
  unfold listParentCallback
  split
  · exact fireListCallbacks_effect _
  · exact fireListCallbacks_effect _
  · exact ⟨rfl, rfl, rfl, rfl, rfl, rfl, fun o w hw => ⟨w, hw, rfl, rfl, rfl⟩⟩

/-- Promoting one wrapper to a `DataFuture` never touches the staging
bookkeeping or the list structure (also when it raises). -/
theorem convert_to_df_effect (s : DFL) (oid : Nat) :
    (convert_to_df s oid).1.slots = s.slots ∧
    (convert_to_df s oid).1.last_idx = s.last_idx ∧
    (convert_to_df s oid).1.parentSet = s.parentSet ∧
    (convert_to_df s oid).1.dataflowSet = s.dataflowSet ∧
    (convert_to_df s oid).1.inhibited = s.inhibited ∧
    (convert_to_df s oid).1.heap.length = s.heap.length ∧
    (∀ o w, heapGet s o = some w →
      ∃ w', heapGet (convert_to_df s oid).1 o = some w' ∧
        w'.stageCount = w.stageCount ∧ w'.stagedOut = w.stagedOut ∧
        w'.emptyFlag = w.emptyFlag) := by
  unfold convert_to_df
  split
  · exact ⟨rfl, rfl, rfl, rfl, rfl, rfl, fun o w hw => ⟨w, hw, rfl, rfl, rfl⟩⟩
  · next wt hwt =>
    split
    · exact ⟨rfl, rfl, rfl, rfl, rfl, rfl, fun o w hw => ⟨w, hw, rfl, rfl, rfl⟩⟩
    · split
      · next x f heq =>
        refine ⟨rfl, rfl, rfl, rfl, rfl, by simp [setHeap], ?_⟩
        intro o w hw
        by_cases ho : oid = o
        · subst ho
          have hlt : oid < s.heap.length := heapGet_lt hw
          have hww : wt = w := by rw [hwt] at hw; exact Option.some.inj hw
          subst hww
          refine ⟨{ wt with
              file_obj := FileObj.df (mkDF s f s.output_task_id), is_df := true },
            ?_, rfl, rfl, rfl⟩
          rw [heapGet]
          simp [setHeap, List.get?_eq_getElem?, List.getElem?_set_eq_of_lt _ hlt]
        · refine ⟨w, ?_, rfl, rfl, rfl⟩
          rw [heapGet]
          simpa [setHeap, heapGet, List.get?_eq_getElem?,
            List.getElem?_set_ne ho] using hw
      · exact ⟨rfl, rfl, rfl, rfl, rfl, rfl, fun o w hw => ⟨w, hw, rfl, rfl, rfl⟩⟩

/-- The promotion loop of `set_parent`: structure preserved, every counter
stays within 1, and nothing is staged while a collaborator is missing (the
loop may abort on a slot the `DataFuture` constructor rejects; the conclusions
hold for the state the abort leaves behind as well). -/
theorem promoteLoop_effect : ∀ (n : Nat) (s : DFL) (idx : Nat),
    idx + n ≤ s.slots.length →
    slotsValid s → s.slots.Nodup → stagedOut0 s → empty0 s → counts1 s →
    tail0 s idx →
    (promoteLoop s idx n).1.slots = s.slots ∧
    (promoteLoop s idx n).1.last_idx = s.last_idx ∧
    (promoteLoop s idx n).1.parentSet = s.parentSet ∧
    (promoteLoop s idx n).1.dataflowSet = s.dataflowSet ∧
    (promoteLoop s idx n).1.inhibited = s.inhibited ∧
    (promoteLoop s idx n).1.heap.length = s.heap.length ∧
    stagedOut0 (promoteLoop s idx n).1 ∧ empty0 (promoteLoop s idx n).1 ∧
    counts1 (promoteLoop s idx n).1 ∧
    ((s.parentSet = false ∨ s.dataflowSet = false) → counts0 s →
      counts0 (promoteLoop s idx n).1) := by
  intro n
  induction n with
  | zero =>
    intro s idx hlen hval hnd hso he hc ht
    obtain ⟨c1, c2, c3, c4, c5, c6, c7, c8, c9, c10, c11⟩ := callCallbacks_fields s
    exact ⟨c2, c4, c5, c6, c7,
      by show (callCallbacks s).heap.length = s.heap.length; rw [c1],
      stagedOut0_eq c1 hso, empty0_eq c1 he,
      counts1_eq c1 hc, fun _ h0 => counts0_eq c1 h0⟩
  | succ n ih =>
    intro s idx hlen hval hnd hso he hc ht
    have hidx : idx < s.slots.length := by omega
    have hget : getItem s idx = (s, s.slots.get? idx) := by
      simp [getItem, Nat.not_le.mpr hidx]
    unfold promoteLoop
    rw [hget]
    simp only []
    rcases hsl : s.slots.get? idx with _ | oid
    · exact absurd (List.get?_eq_none.mp hsl) (by omega)
    · simp only []
      rcases hcv : convert_to_df s oid with ⟨s1, e1⟩
      obtain ⟨v1, v2, v3, v4, v5, v6, v7⟩ := convert_to_df_effect s oid
      rw [hcv] at v1 v2 v3 v4 v5 v6
      have hv7 : ∀ o w, heapGet s o = some w →
          ∃ w', heapGet s1 o = some w' ∧ w'.stageCount = w.stageCount ∧
            w'.stagedOut = w.stagedOut ∧ w'.emptyFlag = w.emptyFlag := by
        intro o w hw
        obtain ⟨w', hw', f⟩ := v7 o w hw
        rw [hcv] at hw'
        exact ⟨w', hw', f⟩
      obtain ⟨t1, t2, t3, t4, t5⟩ := preds_of_pointwise v6 hv7
      cases e1 with
      | some e =>
        exact ⟨v1, v2, v3, v4, v5, v6, t1 hso, t2 he, t3 hc,
          fun _ h0 => t4 h0⟩
      | none =>
        obtain ⟨p1, p2, p3, p4, p5, p6, p7⟩ :=
          stage_step_pack s1 idx (by rw [v1]; omega)
            (slotsValid_eq v6 v1 hval) (v1 ▸ hnd) (t1 hso) (t2 he) (t3 hc)
            (t5 idx v1 ht)
        obtain ⟨e1, e2, e3, e4, e5, e6, _⟩ :=
          stage_file_effect s1 idx (by rw [v1]; omega)
        have hlen' : idx + 1 + n ≤ (stage_file s1 idx).slots.length := by
          rw [e1, v1]
          omega
        obtain ⟨q1, q2, q3, q4, q5, q6, q7, q8, q9, q10⟩ :=
          ih (stage_file s1 idx) (idx + 1) hlen' p1 p2 p3 p4 p5 p6
        refine ⟨(q1.trans e1).trans v1, (q2.trans e2).trans v2,
          (q3.trans e3).trans v3, (q4.trans e4).trans v4,
          (q5.trans e5).trans v5, (q6.trans e6).trans v6, q7, q8, q9, ?_⟩
        intro hun hc0
        have hun1 : s1.parentSet = false ∨ s1.dataflowSet = false := by
          rw [v3, v4]
          exact hun
        refine q10 ?_ (p7 hun1 (t4 hc0))
        rw [e3, e4]
        exact hun1

/-- The promotion phase over a list whose counters are all zero restores the
full invariant. -/
theorem promote_phase (t : DFL) (hval : slotsValid t) (hnd : t.slots.Nodup)
    (hK : t.last_idx = (t.slots.length : Int) - 1) (hso : stagedOut0 t)
    (he : empty0 t) (hc : counts1 t) (hc0 : counts0 t) :
    C1Inv (promoteLoop t 0 (t.last_idx + 1).toNat).1 ∧
    (promoteLoop t 0 (t.last_idx + 1).toNat).1.dataflowSet = t.dataflowSet := by
  have hn : 0 + (t.last_idx + 1).toNat ≤ t.slots.length := by omega
  obtain ⟨q1, q2, q3, q4, q5, q6, q7, q8, q9, q10⟩ :=
    promoteLoop_effect _ t 0 hn hval hnd hso he hc
      (fun k oid w _ hs hw => hc0 oid w hw)
  refine ⟨⟨slotsValid_eq q6 q1 hval, q1 ▸ hnd, by rw [q2, q1]; exact hK,
    q7, q8, q9, ?_⟩, q4⟩
  intro hun'
  rw [q3, q4] at hun'
  exact q10 hun' hc0

/-- `set_parent` preserves the staging invariant and leaves the staging
collaborator flag untouched (both on success and on the aborting call). -/
theorem C1Inv_set_parent (s : DFL) (h : C1Inv s) :
    C1Inv (set_parent s).1 ∧ (set_parent s).1.dataflowSet = s.dataflowSet := by
  obtain ⟨hval, hnd, hK, hso, he, hc, hun⟩ := h
  unfold set_parent
  split
  · exact ⟨⟨hval, hnd, hK, hso, he, hc, hun⟩, rfl⟩
  · next hps =>
    have hps' : s.parentSet = false := by
      rw [Bool.not_eq_true] at hps
      exact hps
    have hc0 : counts0 s := hun (Or.inl hps')
    simp only []
    split
    · obtain ⟨l1, l2, l3, l4, l5, l6, l7⟩ :=
        listParentCallback_effect { s with parentSet := true }
      obtain ⟨t1, t2, t3, t4, t5⟩ := preds_of_pointwise l6 l7
      obtain ⟨P1, P2⟩ :=
        promote_phase (listParentCallback { s with parentSet := true })
          (slotsValid_eq l6 l1 hval) (by rw [l1]; exact hnd)
          (by rw [l2, l1]; exact hK)
          (t1 hso) (t2 he) (t3 hc) (t4 hc0)
      exact ⟨P1, P2.trans l4⟩
    · obtain ⟨P1, P2⟩ :=
        promote_phase { s with parentSet := true } hval hnd hK hso he hc hc0
      exact ⟨P1, P2⟩

/-- `set_dataflow` on a list without a staging collaborator yet: the staging
invariant is preserved and the collaborator is now attached. -/
theorem C1Inv_set_dataflow (s : DFL) (inh : Bool) (tid : Nat) (h : C1Inv s)
    (hdf : s.dataflowSet = false) :
    C1Inv (set_dataflow s inh tid) ∧ (set_dataflow s inh tid).dataflowSet = true := by
  obtain ⟨hval, hnd, hK, hso, he, hc, hun⟩ := h
  have hc0 : counts0 s := hun (Or.inr hdf)
  unfold set_dataflow
  simp only []
  have hn : (0 : Nat) + (s.last_idx + 1).toNat ≤ s.slots.length := by omega
  obtain ⟨q1, q2, q3, q4, q5, q6, q7, q8, q9, q10⟩ :=
    stageRange_effect _
      { s with dataflowSet := true, inhibited := inh, output_task_id := some tid }
      0 hn hval hnd hso he hc (fun k oid w _ hs hw => hc0 oid w hw)
  refine ⟨⟨slotsValid_eq q6 q1 hval, by rw [q1]; exact hnd, by rw [q2, q1]; exact hK,
    q7, q8, q9, ?_⟩, q4⟩
  intro hun'
  rw [q3, q4] at hun'
  exact q10 hun' hc0

/-- Allocating a wrapper: a fresh unstaged wrapper is appended to the heap and
nothing else moves. -/
theorem wrap_effect (s : DFL) (fo : FileObj) :
    (wrap s fo).2 = s.heap.length ∧
    (wrap s fo).1.slots = s.slots ∧
    (wrap s fo).1.last_idx = s.last_idx ∧
    (wrap s fo).1.parentSet = s.parentSet ∧
    (wrap s fo).1.dataflowSet = s.dataflowSet ∧
    (wrap s fo).1.inhibited = s.inhibited ∧
    (wrap s fo).1.heap.length = s.heap.length + 1 ∧
    (∀ o w, heapGet s o = some w → heapGet (wrap s fo).1 o = some w) ∧
    (∀ w1, heapGet (wrap s fo).1 s.heap.length = some w1 → w1.stageCount = 0 ∧
      w1.stagedOut = false ∧ w1.emptyFlag = decide (fo = FileObj.fnone)) := by
  refine ⟨rfl, rfl, rfl, rfl, rfl, rfl, ?_, ?_, ?_⟩
  · show (s.heap ++ [_]).length = s.heap.length + 1
    simp
  · intro o w hw
    show (s.heap ++ [_]).get? o = some w
    rw [List.get?_append (heapGet_lt hw)]
    exact hw
  · intro w1 hw1
    have hw1a : (s.heap ++ [_]).get? s.heap.length = some w1 := hw1
    rw [List.get?_concat_length] at hw1a
    cases Option.some.inj hw1a
    refine ⟨?_, ?_, ?_⟩
    · split
      · rfl
      · split <;> rfl
    · split
      · rfl
      · split <;> rfl
    · split
      · rfl
      · split <;> rfl

/-- Staging an in-range unstaged slot and dispatching observers on a list with
the high-water mark at the end restores the full invariant. -/
theorem stage_then_callbacks (t : DFL) (idx : Nat)
    (hidx : idx < t.slots.length)
    (hval : slotsValid t) (hnd : t.slots.Nodup)
    (hK : t.last_idx = (t.slots.length : Int) - 1)
    (hso : stagedOut0 t) (he : empty0 t) (hc : counts1 t) (ht : tail0 t idx)
    (hun : (t.parentSet = false ∨ t.dataflowSet = false) → counts0 t) :
    C1Inv (callCallbacks (stage_file t idx)) ∧
    (callCallbacks (stage_file t idx)).dataflowSet = t.dataflowSet := by
  obtain ⟨p1, p2, p3, p4, p5, p6, p7⟩ := stage_step_pack t idx hidx hval hnd hso he hc ht
  obtain ⟨e1, e2, e3, e4, e5, e6, _⟩ := stage_file_effect t idx hidx
  obtain ⟨c1, c2, c3, c4, c5, c6, c7, c8, c9, c10, c11⟩ :=
    callCallbacks_fields (stage_file t idx)
  refine ⟨⟨slotsValid_eq (by rw [c1, e6]) (by rw [c2, e1]) hval,
    by rw [c2, e1]; exact hnd,
    by rw [c4, e2, c2, e1]; exact hK,
    stagedOut0_eq c1 p3, empty0_eq c1 p4, counts1_eq c1 p5, ?_⟩,
    by rw [c6, e4]⟩
  intro hun'
  rw [c5, e3, c6, e4] at hun'
  exact counts0_eq c1 (p7 hun' (hun hun'))

/-- The shared tail of `append`: register the new filename, advance the
high-water mark, stage the appended slot, dispatch. -/
theorem C1Inv_appendFinish (u : DFL) (newOid : Nat)
    (hK2 : u.last_idx = (u.slots.length : Int) - 2)
    (hlast : u.slots.get? (u.last_idx + 1).toNat = some newOid)
    (hval : slotsValid u) (hnd : u.slots.Nodup) (hso : stagedOut0 u) (he : empty0 u)
    (hc : counts1 u)
    (hnew : ∀ w, heapGet u newOid = some w → w.stageCount = 0)
    (hun : (u.parentSet = false ∨ u.dataflowSet = false) → counts0 u) :
    C1Inv (appendFinish u newOid).1 ∧
    (appendFinish u newOid).1.dataflowSet = u.dataflowSet := by
  have hlen1 : 1 ≤ u.slots.length := by
    by_contra hx
    rw [List.get?_eq_none.mpr (by omega)] at hlast
    exact Option.noConfusion hlast
  have hidx : (u.last_idx + 1).toNat = u.slots.length - 1 := by omega
  unfold appendFinish
  rw [hlast]
  simp only []
  refine stage_then_callbacks _ _ ?_ hval hnd ?_ hso he hc ?_ hun
  · show (u.last_idx + 1).toNat < u.slots.length
    omega
  · show u.last_idx + 1 = (u.slots.length : Int) - 1
    omega
  · intro k oid w hk hsk hw
    have hsk' : u.slots.get? k = some oid := hsk
    have hklt : k < u.slots.length := by
      by_contra hx
      rw [List.get?_eq_none.mpr (by omega)] at hsk'
      exact Option.noConfusion hsk'
    have hk2 : (u.last_idx + 1).toNat ≤ k := hk
    have hkeq : k = (u.last_idx + 1).toNat := by omega
    subst hkeq
    rw [hlast] at hsk'
    cases Option.some.inj hsk'
    exact hnew w hw

/-- `append` of a freshly wrapped non-empty object under the invariant (the
high-water mark at the end of the list forces the growth branch). -/
theorem C1Inv_append_wrapped (s0 : DFL) (fo : FileObj) (h : C1Inv s0)
    (hfo : decide (fo = FileObj.fnone) = false) :
    C1Inv (appendObj (wrap s0 fo).1 (wrap s0 fo).2).1 ∧
    (appendObj (wrap s0 fo).1 (wrap s0 fo).2).1.dataflowSet = s0.dataflowSet := by
  obtain ⟨hval, hnd, hK, hso, he, hc, hun⟩ := h
  obtain ⟨w1, w2, w3, w4, w5, w6, w7, w8, w9⟩ := wrap_effect s0 fo
  have hinv : ∀ o w, heapGet (wrap s0 fo).1 o = some w →
      heapGet s0 o = some w ∨
      (o = s0.heap.length ∧ w.stageCount = 0 ∧ w.stagedOut = false ∧
       w.emptyFlag = decide (fo = FileObj.fnone)) := by
    intro o w hw
    have hlt : o < s0.heap.length + 1 := by
      have h2 := heapGet_lt hw
      rw [w7] at h2
      exact h2
    rcases Nat.lt_or_ge o s0.heap.length with ho | ho
    · obtain ⟨w0, hw0⟩ := heapGet_total ho
      have h3 := w8 o w0 hw0
      rw [h3] at hw
      cases Option.some.inj hw
      exact Or.inl hw0
    · have ho' : o = s0.heap.length := by omega
      subst ho'
      obtain ⟨f1, f2, f3⟩ := w9 w hw
      exact Or.inr ⟨rfl, f1, f2, f3⟩
  unfold appendObj
  rw [if_pos (show (wrap s0 fo).1.last_idx =
      ((wrap s0 fo).1.slots.length : Int) - 1 by rw [w3, w2]; exact hK)]
  have hK2u : ({ (wrap s0 fo).1 with
      slots := (wrap s0 fo).1.slots ++ [(wrap s0 fo).2] } : DFL).last_idx =
      ((({ (wrap s0 fo).1 with
        slots := (wrap s0 fo).1.slots ++ [(wrap s0 fo).2] } : DFL).slots.length : Int))
        - 2 := by
    show (wrap s0 fo).1.last_idx =
      (((wrap s0 fo).1.slots ++ [(wrap s0 fo).2]).length : Int) - 2
    rw [w3, w2]
    simp only [List.length_append, List.length_cons, List.length_nil]
    push_cast
    omega
  have hixu : (((wrap s0 fo).1.last_idx + 1)).toNat = (wrap s0 fo).1.slots.length := by
    rw [w3, w2]
    have hlen0 : (0 : Int) ≤ (s0.slots.length : Int) := by positivity
    omega
  obtain ⟨H1, H2⟩ := C1Inv_appendFinish
    { (wrap s0 fo).1 with slots := (wrap s0 fo).1.slots ++ [(wrap s0 fo).2] }
    (wrap s0 fo).2
    hK2u
    (by show ((wrap s0 fo).1.slots ++ [(wrap s0 fo).2]).get?
          ((wrap s0 fo).1.last_idx + 1).toNat = some (wrap s0 fo).2
        rw [hixu, List.get?_concat_length])
    (by intro i oid hioid
        have hioid' : ((wrap s0 fo).1.slots ++ [(wrap s0 fo).2]).get? i = some oid :=
          hioid
        show oid < (wrap s0 fo).1.heap.length
        rw [w7]
        rcases get?_append_single _ _ _ _ hioid' with h | h
        · have h4 := hval i oid (by rw [← w2]; exact h)
          rw [w2] at h
          have h5 := hval i oid h
          omega
        · rw [h, w1]
          omega)
    (by show ((wrap s0 fo).1.slots ++ [(wrap s0 fo).2]).Nodup
        rw [w2, w1]
        rw [List.nodup_append]
        refine ⟨hnd, List.nodup_singleton _, ?_⟩
        intro a ha ha2
        rw [List.mem_singleton] at ha2
        subst ha2
        obtain ⟨i, hi⟩ := List.mem_iff_get?.mp ha
        have h5 := hval i s0.heap.length hi
        omega)
    (by intro o w hw
        rcases hinv o w hw with h | ⟨_, _, f2, _⟩
        · exact hso o w h
        · exact f2)
    (by intro o w hw hemp
        rcases hinv o w hw with h | ⟨_, f1, _, _⟩
        · exact he o w h hemp
        · exact f1)
    (by intro o w hw
        rcases hinv o w hw with h | ⟨_, f1, _, _⟩
        · exact hc o w h
        · rw [f1]; omega)
    (by intro w hw
        rcases hinv _ w hw with h | ⟨_, f1, _, _⟩
        · rw [w1] at h
          have h5 := heapGet_lt h
          omega
        · exact f1)
    (by intro hun' o w hw
        have hun2 : s0.parentSet = false ∨ s0.dataflowSet = false := by
          rcases hun' with h4 | h4
          · exact Or.inl (by rw [← w4]; exact h4)
          · exact Or.inr (by rw [← w5]; exact h4)
        rcases hinv o w hw with h | ⟨_, f1, _, _⟩
        · exact hun hun2 o w h
        · exact f1)
  exact ⟨H1, H2.trans w5⟩

/-- `append` of a bare `File` preserves the staging invariant. -/
theorem C1Inv_appendFile (s : DFL) (f : File) (h : C1Inv s) :
    C1Inv (appendFile s f).1 ∧ (appendFile s f).1.dataflowSet = s.dataflowSet := by
  unfold appendFile
  simp only []
  exact C1Inv_append_wrapped s
    (if s.parentSet = true then FileObj.df (mkDF s f s.output_task_id)
     else FileObj.file f) h (by split <;> rfl)

/-- Normalisation loop of `extend`: wraps each item into a fresh unstaged
non-empty wrapper and returns the references in allocation order. -/
theorem wrapItems_effect : ∀ (fs : List File) (s : DFL),
    (wrapItems s fs).1.slots = s.slots ∧
    (wrapItems s fs).1.last_idx = s.last_idx ∧
    (wrapItems s fs).1.parentSet = s.parentSet ∧
    (wrapItems s fs).1.dataflowSet = s.dataflowSet ∧
    (wrapItems s fs).1.inhibited = s.inhibited ∧
    (wrapItems s fs).1.heap.length = s.heap.length + fs.length ∧
    (wrapItems s fs).2 = (List.range fs.length).map (fun k => s.heap.length + k) ∧
    (∀ o w, heapGet (wrapItems s fs).1 o = some w →
      heapGet s o = some w ∨ (s.heap.length ≤ o ∧ w.stageCount = 0 ∧
        w.stagedOut = false ∧ w.emptyFlag = false)) := by
  intro fs
  induction fs with
  | nil =>
    intro s
    exact ⟨rfl, rfl, rfl, rfl, rfl, rfl, rfl, fun o w hw => Or.inl hw⟩
  | cons f fs ih =>
    intro s
    unfold wrapItems
    simp only []
    obtain ⟨w1, w2, w3, w4, w5, w6, w7, w8, w9⟩ :=
      wrap_effect s (if s.parentSet = true then FileObj.df (mkDF s f s.output_task_id)
        else FileObj.file f)
    have hfo : decide ((if s.parentSet = true
        then FileObj.df (mkDF s f s.output_task_id) else FileObj.file f) =
        FileObj.fnone) = false := by
      split <;> rfl
    obtain ⟨i1, i2, i3, i4, i5, i6, i7, i8⟩ := ih _
    refine ⟨i1.trans w2, i2.trans w3, i3.trans w4, i4.trans w5, i5.trans w6,
      ?_, ?_, ?_⟩
    · rw [i6]
      show (wrap s _).1.heap.length + fs.length = s.heap.length + (fs.length + 1)
      rw [w7]
      omega
    · rw [i7, w1]
      show s.heap.length :: (List.range fs.length).map
          (fun k => (wrap s _).1.heap.length + k) =
        (List.range (fs.length + 1)).map (fun k => s.heap.length + k)
      rw [w7, List.range_succ_eq_map, List.map_cons, List.map_map]
      refine congrArg₂ _ (by omega) ?_
      refine List.map_congr_left ?_
      intro k _
      show s.heap.length + 1 + k = s.heap.length + (k + 1)
      omega
    · intro o w hw
      rcases i8 o w hw with h | ⟨hge, f1, f2, f3⟩
      · have hw1 : heapGet (wrap s (if s.parentSet = true
            then FileObj.df (mkDF s f s.output_task_id) else FileObj.file f)).1 o
            = some w := h
        have hlt : o < s.heap.length + 1 := by
          have h2 := heapGet_lt hw1
          rw [w7] at h2
          exact h2
        rcases Nat.lt_or_ge o s.heap.length with ho | ho
        · obtain ⟨w0, hw0⟩ := heapGet_total ho
          have h3 := w8 o w0 hw0
          rw [h3] at hw1
          cases Option.some.inj hw1
          exact Or.inl hw0
        · have ho' : o = s.heap.length := by omega
          subst ho'
          obtain ⟨f1, f2, f3⟩ := w9 w hw1
          rw [hfo] at f3
          exact Or.inr ⟨Nat.le_refl _, f1, f2, f3⟩
      · refine Or.inr ⟨?_, f1, f2, f3⟩
        have h4 : (wrap s (if s.parentSet = true
            then FileObj.df (mkDF s f s.output_task_id) else FileObj.file f)).1.heap.length
            = s.heap.length + 1 := w7
        have hge' : (wrap s (if s.parentSet = true
            then FileObj.df (mkDF s f s.output_task_id) else FileObj.file f)).1.heap.length
            ≤ o := hge
        omega

/-- The growth branch of `extend` advances the high-water mark and stages,
one index per appended item; counters stay within 1. -/
theorem stageSeq_effect : ∀ (n : Nat) (s : DFL),
    s.last_idx = (s.slots.length : Int) - 1 - n →
    n ≤ s.slots.length →
    slotsValid s → s.slots.Nodup → stagedOut0 s → empty0 s → counts1 s →
    tail0 s (s.slots.length - n) →
    (stageSeq s n).slots = s.slots ∧
    (stageSeq s n).last_idx = s.last_idx + n ∧
    (stageSeq s n).parentSet = s.parentSet ∧
    (stageSeq s n).dataflowSet = s.dataflowSet ∧
    (stageSeq s n).inhibited = s.inhibited ∧
    (stageSeq s n).heap.length = s.heap.length ∧
    stagedOut0 (stageSeq s n) ∧ empty0 (stageSeq s n) ∧ counts1 (stageSeq s n) ∧
    ((s.parentSet = false ∨ s.dataflowSet = false) → counts0 s →
      counts0 (stageSeq s n)) := by
  intro n
  induction n with
  | zero =>
    intro s _ _ _ _ hso he hc _
    exact ⟨rfl, by show s.last_idx = s.last_idx + ((0 : Nat) : Int); omega,
      rfl, rfl, rfl, rfl, hso, he, hc, fun _ h0 => h0⟩
  | succ n ih =>
    intro s hKn hn hval hnd hso he hc ht
    have hlen0 : 0 < s.slots.length := by omega
    have hidxeq : (s.last_idx + 1).toNat = s.slots.length - (n + 1) := by omega
    have hidx : (s.last_idx + 1).toNat < s.slots.length := by omega
    unfold stageSeq
    simp only []
    have htail1 : tail0 { s with last_idx := s.last_idx + 1 } (s.last_idx + 1).toNat := by
      intro k oid w hk hsk hw
      rw [hidxeq] at hk
      exact ht k oid w hk hsk hw
    obtain ⟨p1, p2, p3, p4, p5, p6, p7⟩ :=
      stage_step_pack { s with last_idx := s.last_idx + 1 } (s.last_idx + 1).toNat
        hidx hval hnd hso he hc htail1
    obtain ⟨e1, e2, e3, e4, e5, e6, _⟩ :=
      stage_file_effect { s with last_idx := s.last_idx + 1 } (s.last_idx + 1).toNat hidx
    have hK' : (stage_file { s with last_idx := s.last_idx + 1 }
        (s.last_idx + 1).toNat).last_idx =
        (((stage_file { s with last_idx := s.last_idx + 1 }
          (s.last_idx + 1).toNat).slots.length : Int)) - 1 - n := by
      rw [e2, e1]
      show s.last_idx + 1 = (s.slots.length : Int) - 1 - n
      omega
    have hn' : n ≤ (stage_file { s with last_idx := s.last_idx + 1 }
        (s.last_idx + 1).toNat).slots.length := by
      rw [e1]
      show n ≤ s.slots.length
      omega
    have htail2 : tail0 (stage_file { s with last_idx := s.last_idx + 1 }
        (s.last_idx + 1).toNat)
        ((stage_file { s with last_idx := s.last_idx + 1 }
          (s.last_idx + 1).toNat).slots.length - n) := by
      intro k oid w hk hsk hw
      refine p6 k oid w ?_ hsk hw
      rw [e1] at hk
      have hsl : ({ s with last_idx := s.last_idx + 1 } : DFL).slots.length =
        s.slots.length := rfl
      have h5 : s.slots.length - n = (s.last_idx + 1).toNat + 1 := by omega
      omega
    obtain ⟨q1, q2, q3, q4, q5, q6, q7, q8, q9, q10⟩ :=
      ih _ hK' hn' p1 p2 p3 p4 p5 htail2
    refine ⟨(q1.trans e1).trans rfl, ?_, (q3.trans e3).trans rfl,
      (q4.trans e4).trans rfl, (q5.trans e5).trans rfl,
      (q6.trans e6).trans rfl, q7, q8, q9, ?_⟩
    · rw [q2, e2]
      show s.last_idx + 1 + n = s.last_idx + (n + 1)
      omega
    · intro hun hc0
      have hun1 : ({ s with last_idx := s.last_idx + 1 } : DFL).parentSet = false ∨
          ({ s with last_idx := s.last_idx + 1 } : DFL).dataflowSet = false := hun
      refine q10 ?_ (p7 hun1 hc0)
      rw [e3, e4]
      exact hun1

/-- `extend` with bare `File`s preserves the staging invariant (under the
invariant the high-water mark sits at the end, so the growth branch runs). -/
theorem C1Inv_extendF (s : DFL) (fs : List File) (h : C1Inv s) :
    C1Inv (extendF s fs) ∧ (extendF s fs).dataflowSet = s.dataflowSet := by
  obtain ⟨hval, hnd, hK, hso, he, hc, hun⟩ := h
  obtain ⟨i1, i2, i3, i4, i5, i6, i7, i8⟩ := wrapItems_effect fs s
  have hm : (wrapItems s fs).2.length = fs.length := by rw [i7]; simp
  have hq1len : (wrapItems s fs).1.slots.length = s.slots.length := by rw [i1]
  have hfresh : ∀ oid, oid ∈ (wrapItems s fs).2 →
      s.heap.length ≤ oid ∧ oid < s.heap.length + fs.length := by
    intro oid hmem
    rw [i7] at hmem
    obtain ⟨k, hk, rfl⟩ := List.mem_map.mp hmem
    rw [List.mem_range] at hk
    omega
  have hUlen : ((wrapItems s fs).1.slots ++ (wrapItems s fs).2).length =
      s.slots.length + fs.length := by
    rw [List.length_append, hq1len, hm]
  have hvalU : slotsValid { (wrapItems s fs).1 with
      slots := (wrapItems s fs).1.slots ++ (wrapItems s fs).2 } := by
    intro i oid hi
    have hi' : ((wrapItems s fs).1.slots ++ (wrapItems s fs).2).get? i = some oid := hi
    show oid < (wrapItems s fs).1.heap.length
    rw [i6]
    rcases Nat.lt_or_ge i (wrapItems s fs).1.slots.length with hlt | hge
    · rw [List.get?_append hlt, i1] at hi'
      have h5 := hval i oid hi'
      omega
    · rw [List.get?_append_right hge] at hi'
      have h5 := hfresh oid (List.get?_mem hi')
      omega
  have hndU : ((wrapItems s fs).1.slots ++ (wrapItems s fs).2).Nodup := by
    rw [i1, i7, List.nodup_append]
    refine ⟨hnd, ?_, ?_⟩
    · refine List.Nodup.map ?_ (List.nodup_range _)
      intro a b hab
      have hab' : s.heap.length + a = s.heap.length + b := hab
      omega
    · intro a ha ha2
      obtain ⟨k, hk, rfl⟩ := List.mem_map.mp ha2
      obtain ⟨i, hi⟩ := List.mem_iff_get?.mp ha
      have h5 := hval i _ hi
      omega
  have hsoU : stagedOut0 (wrapItems s fs).1 := by
    intro o w hw
    rcases i8 o w hw with h5 | ⟨_, _, f2, _⟩
    · exact hso o w h5
    · exact f2
  have heU : empty0 (wrapItems s fs).1 := by
    intro o w hw hemp
    rcases i8 o w hw with h5 | ⟨_, f1, _, _⟩
    · exact he o w h5 hemp
    · exact f1
  have hcU : counts1 (wrapItems s fs).1 := by
    intro o w hw
    rcases i8 o w hw with h5 | ⟨_, f1, _, _⟩
    · exact hc o w h5
    · rw [f1]; omega
  have hc0U : (s.parentSet = false ∨ s.dataflowSet = false) →
      counts0 (wrapItems s fs).1 := by
    intro hu o w hw
    rcases i8 o w hw with h5 | ⟨_, f1, _, _⟩
    · exact hun hu o w h5
    · exact f1
  have htailU : tail0 ({ (wrapItems s fs).1 with
      slots := (wrapItems s fs).1.slots ++ (wrapItems s fs).2 } : DFL)
      (((wrapItems s fs).1.slots ++ (wrapItems s fs).2).length -
        (wrapItems s fs).2.length) := by
    intro k oid w hk hsk hw
    have hsk' : ((wrapItems s fs).1.slots ++ (wrapItems s fs).2).get? k = some oid := hsk
    have hlapp : ((wrapItems s fs).1.slots ++ (wrapItems s fs).2).length =
        (wrapItems s fs).1.slots.length + (wrapItems s fs).2.length := by
      simp [List.length_append]
    have hk' : (wrapItems s fs).1.slots.length ≤ k := by omega
    rw [List.get?_append_right hk'] at hsk'
    have h6 := hfresh oid (List.get?_mem hsk')
    rcases i8 oid w hw with h7 | ⟨_, f1, _, _⟩
    · have h8 := heapGet_lt h7
      omega
    · exact f1
  unfold extendF
  simp only []
  rw [if_pos (show (wrapItems s fs).1.last_idx =
    ((wrapItems s fs).1.slots.length : Int) - 1 by rw [i2, hq1len]; exact hK)]
  obtain ⟨q1, q2, q3, q4, q5, q6, q7, q8, q9, q10⟩ :=
    stageSeq_effect (wrapItems s fs).2.length
      { (wrapItems s fs).1 with
        slots := (wrapItems s fs).1.slots ++ (wrapItems s fs).2 }
      (by show (wrapItems s fs).1.last_idx =
            ((((wrapItems s fs).1.slots ++ (wrapItems s fs).2).length : Int))
              - 1 - ((wrapItems s fs).2.length : Int)
          rw [i2, hUlen, hm]
          push_cast
          omega)
      (by show (wrapItems s fs).2.length ≤
            ((wrapItems s fs).1.slots ++ (wrapItems s fs).2).length
          omega)
      hvalU hndU hsoU heU hcU htailU
  obtain ⟨c1, c2, c3, c4, c5, c6, c7, c8, c9, c10, c11⟩ :=
    callCallbacks_fields (stageSeq { (wrapItems s fs).1 with
      slots := (wrapItems s fs).1.slots ++ (wrapItems s fs).2 }
      (wrapItems s fs).2.length)
  refine ⟨⟨slotsValid_eq (by rw [c1, q6]) (by rw [c2, q1]) hvalU,
    by rw [c2, q1]; exact hndU,
    ?_,
    stagedOut0_eq c1 q7, empty0_eq c1 q8, counts1_eq c1 q9, ?_⟩, ?_⟩
  · rw [c4, q2, c2, q1]
    show (wrapItems s fs).1.last_idx + ((wrapItems s fs).2.length : Int) =
      ((((wrapItems s fs).1.slots ++ (wrapItems s fs).2).length : Int)) - 1
    rw [i2, hUlen, hm]
    push_cast
    omega
  · intro hun'
    rw [c5, q3, c6, q4] at hun'
    have hun2 : s.parentSet = false ∨ s.dataflowSet = false := by
      rcases hun' with h4 | h4
      · refine Or.inl ?_
        have h5 : (wrapItems s fs).1.parentSet = false := h4
        rw [i3] at h5
        exact h5
      · refine Or.inr ?_
        have h5 : (wrapItems s fs).1.dataflowSet = false := h4
        rw [i4] at h5
        exact h5
    exact counts0_eq c1 (q10 hun' (hc0U hun2))
  · exact (c6.trans q4).trans i4

/-- One staging step at an in-range slot whose wrapper is unstaged keeps the
counter predicates (no assumption on the slots beyond the staged one). -/
theorem stage_step_pack1 (s : DFL) (idx : Nat) (hidx : idx < s.slots.length)
    (hval : slotsValid s) (hso : stagedOut0 s) (he : empty0 s) (hc : counts1 s)
    (htar : ∀ oid w, s.slots.get? idx = some oid → heapGet s oid = some w →
      w.stageCount = 0) :
    slotsValid (stage_file s idx) ∧ stagedOut0 (stage_file s idx) ∧
    empty0 (stage_file s idx) ∧ counts1 (stage_file s idx) ∧
    ((s.parentSet = false ∨ s.dataflowSet = false) → counts0 s →
      counts0 (stage_file s idx)) := by
  obtain ⟨e1, e2, e3, e4, e5, e6, e7⟩ := stage_file_effect s idx hidx
  have hsrc : ∀ o w, heapGet (stage_file s idx) o = some w →
      ∃ w0, heapGet s o = some w0 ∧
        (w = w0 ∨
         (s.slots.get? idx = some o ∧ w0.emptyFlag = false ∧ w0.stagedOut = false ∧
          s.parentSet = true ∧ w0.is_df = true ∧ s.dataflowSet = true ∧
          s.inhibited = false ∧ w = { w0 with stageCount := w0.stageCount + 1 })) := by
    intro o w hw
    have hlt : o < s.heap.length := by
      have h2 := heapGet_lt hw
      rw [e6] at h2
      exact h2
    obtain ⟨w0, hw0⟩ := heapGet_total hlt
    rcases e7 o w0 hw0 with h | ⟨h1, h2, h3, h4, h5, h6, h7, h⟩
    · rw [h] at hw
      exact ⟨w0, hw0, Or.inl (Option.some.inj hw).symm⟩
    · rw [h] at hw
      exact ⟨w0, hw0, Or.inr ⟨h1, h2, h3, h4, h5, h6, h7, (Option.some.inj hw).symm⟩⟩
  refine ⟨slotsValid_eq e6 e1 hval, ?_, ?_, ?_, ?_⟩
  · intro o w hw
    obtain ⟨w0, hw0, hcase⟩ := hsrc o w hw
    rcases hcase with rfl | ⟨_, _, h3, _, _, _, _, rfl⟩
    · exact hso o w hw0
    · exact h3
  · intro o w hw hemp
    obtain ⟨w0, hw0, hcase⟩ := hsrc o w hw
    rcases hcase with rfl | ⟨_, h2, _, _, _, _, _, rfl⟩
    · exact he o w hw0 hemp
    · exact absurd hemp (by simp [h2])
  · intro o w hw
    obtain ⟨w0, hw0, hcase⟩ := hsrc o w hw
    rcases hcase with rfl | ⟨h1, _, _, _, _, _, _, rfl⟩
    · exact hc o w hw0
    · have h0 : w0.stageCount = 0 := htar o w0 h1 hw0
      simp [h0]
  · intro hun hc0 o w hw
    obtain ⟨w0, hw0, hcase⟩ := hsrc o w hw
    rcases hcase with rfl | ⟨_, _, _, h4, _, h6, _, rfl⟩
    · exact hc0 o w hw0
    · rcases hun with hun | hun
      · rw [h4] at hun
        exact Bool.noConfusion hun
      · rw [h6] at hun
        exact Bool.noConfusion hun

/-- `DynamicFile.set` fills one wrapper in place: its staging counter and
`_staged_out` flag survive and its empty flag can only clear; everything else
besides the completion map is untouched. -/
theorem dynSet_effect (s : DFL) (tgt : Nat) (fo : FileObj) :
    (dynSet s tgt fo).slots = s.slots ∧
    (dynSet s tgt fo).last_idx = s.last_idx ∧
    (dynSet s tgt fo).parentSet = s.parentSet ∧
    (dynSet s tgt fo).dataflowSet = s.dataflowSet ∧
    (dynSet s tgt fo).inhibited = s.inhibited ∧
    (dynSet s tgt fo).heap.length = s.heap.length ∧
    (∀ o w, heapGet s o = some w →
      ∃ w', heapGet (dynSet s tgt fo) o = some w' ∧
        w'.stageCount = w.stageCount ∧ w'.stagedOut = w.stagedOut ∧
        (w'.emptyFlag = w.emptyFlag ∨ w'.emptyFlag = false)) := by
  unfold dynSet
  split
  · exact ⟨rfl, rfl, rfl, rfl, rfl, rfl, fun o w hw => ⟨w, hw, rfl, rfl, Or.inl rfl⟩⟩
  · next wt hwt =>
    simp only []
    refine ⟨rfl, rfl, rfl, rfl, rfl, by simp [setHeap], ?_⟩
    intro o w hw
    by_cases ho : tgt = o
    · subst ho
      have hlt : tgt < s.heap.length := heapGet_lt hw
      have hww : wt = w := by rw [hwt] at hw; exact Option.some.inj hw
      subst hww
      refine ⟨{ wt with file_obj := fo, emptyFlag := false, is_df := isDFobj fo },
        ?_, rfl, rfl, Or.inr rfl⟩
      show (s.heap.set tgt _).get? tgt = _
      simp [List.get?_eq_getElem?, List.getElem?_set_eq_of_lt _ hlt]
    · refine ⟨w, ?_, rfl, rfl, Or.inl rfl⟩
      show (s.heap.set tgt _).get? o = some w
      simpa [heapGet, List.get?_eq_getElem?, List.getElem?_set_ne ho] using hw

/-- The auto-expansion of an indexed read: only fresh empty wrappers are
appended, so every staging predicate survives. -/
theorem getItem_pack (s : DFL) (key : Nat) (hval : slotsValid s)
    (hnd : s.slots.Nodup) (hso : stagedOut0 s) (he : empty0 s) (hc : counts1 s) :
    slotsValid (getItem s key).1 ∧ (getItem s key).1.slots.Nodup ∧
    stagedOut0 (getItem s key).1 ∧ empty0 (getItem s key).1 ∧
    counts1 (getItem s key).1 ∧
    (getItem s key).1.slots.length = max s.slots.length (key + 1) ∧
    (getItem s key).1.last_idx = s.last_idx ∧
    (getItem s key).1.parentSet = s.parentSet ∧
    (getItem s key).1.dataflowSet = s.dataflowSet ∧
    (getItem s key).1.inhibited = s.inhibited ∧
    (∀ o w, heapGet (getItem s key).1 o = some w →
      heapGet s o = some w ∨ w = mtW o) ∧
    ((s.parentSet = false ∨ s.dataflowSet = false) → counts0 s →
      counts0 (getItem s key).1) ∧
    (s.slots.length ≤ key → ∃ oid2, (getItem s key).1.slots.get? key = some oid2 ∧
      heapGet (getItem s key).1 oid2 = some (mtW oid2)) := by
  rcases Nat.lt_or_ge key s.slots.length with hlt | hge
  · have hg : getItem s key = (s, s.slots.get? key) := by
      simp [getItem, Nat.not_le.mpr hlt]
    rw [hg]
    exact ⟨hval, hnd, hso, he, hc,
      by show s.slots.length = max s.slots.length (key + 1); omega,
      rfl, rfl, rfl, rfl, fun o w hw => Or.inl hw, fun _ h0 => h0,
      fun hx => absurd hx (by omega)⟩
  · have hg : (getItem s key).1 = expandN s (key + 1 - s.slots.length) := by
      simp [getItem, hge]
    obtain ⟨x1, x2, x3, x4, x5, x6, x7, x8, x9, x10, x11, x12⟩ :=
      expandN_spec s (key + 1 - s.slots.length)
    rw [hg]
    have hhl : (expandN s (key + 1 - s.slots.length)).heap.length =
        s.heap.length + (key + 1 - s.slots.length) := by
      rw [x1]
      simp
    have hinv : ∀ o w, heapGet (expandN s (key + 1 - s.slots.length)) o = some w →
        heapGet s o = some w ∨ w = mtW o := by
      intro o w hw
      rw [heapGet, x1] at hw
      rcases Nat.lt_or_ge o s.heap.length with ho | ho
      · rw [List.get?_append ho] at hw
        exact Or.inl hw
      · rw [List.get?_append_right ho, List.get?_map] at hw
        have hjlt : o - s.heap.length < key + 1 - s.slots.length := by
          by_contra hx
          rw [List.get?_eq_none.mpr (by rw [List.length_range]; omega)] at hw
          exact Option.noConfusion hw
        rw [List.get?_range hjlt] at hw
        simp only [Option.map_some'] at hw
        refine Or.inr ?_
        have hmo : s.heap.length + (o - s.heap.length) = o := by omega
        rw [← hmo]
        exact (Option.some.inj hw).symm
    refine ⟨?_, ?_, ?_, ?_, ?_, ?_, x4, x5, x6, x7, hinv, ?_, ?_⟩
    · intro i oid hi
      rw [x2] at hi
      show oid < (expandN s (key + 1 - s.slots.length)).heap.length
      rw [hhl]
      rcases Nat.lt_or_ge i s.slots.length with hilt | hige
      · rw [List.get?_append hilt] at hi
        have h5 := hval i oid hi
        omega
      · rw [List.get?_append_right (by omega)] at hi
        have h5 := List.get?_mem hi
        obtain ⟨k, hk, rfl⟩ := List.mem_map.mp h5
        rw [List.mem_range] at hk
        omega
    · rw [x2, List.nodup_append]
      refine ⟨hnd, ?_, ?_⟩
      · refine List.Nodup.map ?_ (List.nodup_range _)
        intro a b hab
        have hab' : s.heap.length + a = s.heap.length + b := hab
        omega
      · intro a ha ha2
        obtain ⟨k, hk, rfl⟩ := List.mem_map.mp ha2
        obtain ⟨i, hi⟩ := List.mem_iff_get?.mp ha
        have h5 := hval i _ hi
        omega
    · intro o w hw
      rcases hinv o w hw with h | rfl
      · exact hso o w h
      · rfl
    · intro o w hw hemp
      rcases hinv o w hw with h | rfl
      · exact he o w h hemp
      · rfl
    · intro o w hw
      rcases hinv o w hw with h | rfl
      · exact hc o w h
      · show (0 : Nat) ≤ 1
        omega
    · rw [x2]
      simp only [List.length_append, List.length_map, List.length_range]
      omega
    · intro hu h0 o w hw
      rcases hinv o w hw with h | rfl
      · exact h0 o w h
      · rfl
    · intro _
      refine ⟨s.heap.length + (key - s.slots.length), ?_, ?_⟩
      · rw [x2, List.get?_append_right hge, List.get?_map,
          List.get?_range (by omega)]
        rfl
      · rw [heapGet, x1, List.get?_append_right (by omega), List.get?_map]
        have h9 : s.heap.length + (key - s.slots.length) - s.heap.length =
            key - s.slots.length := by omega
        rw [h9, List.get?_range (by omega)]
        rfl

/-- Staging an unstaged slot, bumping the high-water mark by one and
dispatching observers restores the invariant when the mark was one short of
the end. -/
theorem C1Inv_stage_bump (t : DFL) (idx : Nat) (hidx : idx < t.slots.length)
    (hval : slotsValid t) (hnd : t.slots.Nodup)
    (hK1 : t.last_idx = (t.slots.length : Int) - 2)
    (hso : stagedOut0 t) (he : empty0 t) (hc : counts1 t)
    (htar : ∀ oid w, t.slots.get? idx = some oid → heapGet t oid = some w →
      w.stageCount = 0)
    (hun : (t.parentSet = false ∨ t.dataflowSet = false) → counts0 t) :
    C1Inv (callCallbacks
      { stage_file t idx with last_idx := (stage_file t idx).last_idx + 1 }) ∧
    (callCallbacks
      { stage_file t idx with
        last_idx := (stage_file t idx).last_idx + 1 }).dataflowSet
      = t.dataflowSet := by
  obtain ⟨p1, p2, p3, p4, p5⟩ := stage_step_pack1 t idx hidx hval hso he hc htar
  obtain ⟨e1, e2, e3, e4, e5, e6, _⟩ := stage_file_effect t idx hidx
  obtain ⟨c1, c2, c3, c4, c5, c6, c7, c8, c9, c10, c11⟩ :=
    callCallbacks_fields
      { stage_file t idx with last_idx := (stage_file t idx).last_idx + 1 }
  refine ⟨⟨slotsValid_eq (by rw [c1]) (by rw [c2]) p1,
    by rw [c2]; show (stage_file t idx).slots.Nodup; rw [e1]; exact hnd,
    ?_, stagedOut0_eq c1 p2, empty0_eq c1 p3, counts1_eq c1 p4, ?_⟩,
    by rw [c6]; exact e4⟩
  · rw [c4, c2]
    show (stage_file t idx).last_idx + 1 = (((stage_file t idx).slots.length : Int)) - 1
    rw [e2, e1]
    omega
  · intro hun'
    rw [c5, c6] at hun'
    have hun2 : (stage_file t idx).parentSet = false ∨
        (stage_file t idx).dataflowSet = false := hun'
    rw [e3, e4] at hun2
    exact counts0_eq c1 (p5 hun2 (hun hun2))

/-- `insert` at or below the high-water mark preserves the staging
invariant. -/
theorem C1Inv_insertF (s : DFL) (idx : Nat) (f : File) (h : C1Inv s) :
    C1Inv (insertF s idx f).1 ∧ (insertF s idx f).1.dataflowSet = s.dataflowSet := by
  obtain ⟨hval, hnd, hK, hso, he, hc, hun⟩ := h
  unfold insertF
  split
  · exact ⟨⟨hval, hnd, hK, hso, he, hc, hun⟩, rfl⟩
  · next hgt =>
    have hidxlen : idx < s.slots.length := by
      rw [Int.not_lt] at hgt
      omega
    simp only []
    set FO := (if s.parentSet = true then FileObj.df (mkDF s f s.output_task_id)
      else FileObj.file f) with hFO
    obtain ⟨w1, w2, w3, w4, w5, w6, w7, w8, w9⟩ := wrap_effect s FO
    have hinv : ∀ o w, heapGet (wrap s FO).1 o = some w →
        heapGet s o = some w ∨
        (o = s.heap.length ∧ w.stageCount = 0 ∧ w.stagedOut = false ∧
         w.emptyFlag = false) := by
      intro o w hw
      have hlt : o < s.heap.length + 1 := by
        have h2 := heapGet_lt hw
        rw [w7] at h2
        exact h2
      rcases Nat.lt_or_ge o s.heap.length with ho | ho
      · obtain ⟨w0, hw0⟩ := heapGet_total ho
        have h3 := w8 o w0 hw0
        rw [h3] at hw
        cases Option.some.inj hw
        exact Or.inl hw0
      · have ho' : o = s.heap.length := by omega
        subst ho'
        obtain ⟨f1, f2, f3⟩ := w9 w hw
        refine Or.inr ⟨rfl, f1, f2, ?_⟩
        rw [f3, hFO]
        split <;> rfl
    set L := (wrap s FO).1.slots.take idx ++ (wrap s FO).2 ::
      (wrap s FO).1.slots.drop idx with hLdef
    have htl : ((wrap s FO).1.slots.take idx).length = idx := by
      rw [w2, List.length_take]
      omega
    have hLlen : L.length = s.slots.length + 1 := by
      rw [hLdef, List.length_append, List.length_cons, htl, w2, List.length_drop]
      omega
    have hLget : ∀ i oid, L.get? i = some oid →
        (∃ j, s.slots.get? j = some oid) ∨ oid = s.heap.length := by
      intro i oid hi
      rw [hLdef] at hi
      rcases Nat.lt_or_ge i idx with hilt | hige
      · rw [List.get?_append (by omega)] at hi
        rw [w2, List.get?_take hilt] at hi
        exact Or.inl ⟨i, hi⟩
      · rw [List.get?_append_right (by omega), htl] at hi
        rcases Nat.eq_or_lt_of_le hige with hieq | higt
        · rw [← hieq] at hi
          simp only [Nat.sub_self, List.get?_cons_zero] at hi
          rw [w1] at hi
          exact Or.inr (Option.some.inj hi).symm
        · rcases hip : i - idx with _ | m
          · omega
          · rw [hip] at hi
            simp only [List.get?_cons_succ] at hi
            rw [w2, List.get?_drop] at hi
            exact Or.inl ⟨idx + m, hi⟩
    have hLtgt : L.get? idx = some s.heap.length := by
      rw [hLdef, List.get?_append_right (by omega), htl]
      simp only [Nat.sub_self, List.get?_cons_zero]
      rw [w1]
    have hLnd : L.Nodup := by
      rw [hLdef, w2, w1]
      refine (List.perm_middle).symm.nodup ?_
      rw [List.take_append_drop, List.nodup_cons]
      refine ⟨?_, hnd⟩
      intro hmem
      obtain ⟨i, hi⟩ := List.mem_iff_get?.mp hmem
      have h5 := hval i _ hi
      omega
    obtain ⟨H1, H2⟩ := C1Inv_stage_bump
      { (wrap s FO).1 with
        files_done := dictSet (wrap s FO).1.files_done (some f.fname) (wrap s FO).2,
        slots := L } idx
      (by show idx < L.length; omega)
      (by intro i oid hi
          show oid < (wrap s FO).1.heap.length
          rw [w7]
          rcases hLget i oid hi with ⟨j, hj⟩ | rfl
          · have h5 := hval j oid hj
            omega
          · omega)
      hLnd
      (by show (wrap s FO).1.last_idx = (L.length : Int) - 2
          rw [w3, hLlen]
          push_cast
          omega)
      (by intro o w hw
          rcases hinv o w hw with h5 | ⟨_, _, f2, _⟩
          · exact hso o w h5
          · exact f2)
      (by intro o w hw hemp
          rcases hinv o w hw with h5 | ⟨_, f1, _, _⟩
          · exact he o w h5 hemp
          · exact f1)
      (by intro o w hw
          rcases hinv o w hw with h5 | ⟨_, f1, _, _⟩
          · exact hc o w h5
          · rw [f1]; omega)
      (by intro oid w hslot hw
          have hslot' : L.get? idx = some oid := hslot
          rw [hLtgt] at hslot'
          cases Option.some.inj hslot'
          rcases hinv _ w hw with h5 | ⟨_, f1, _, _⟩
          · have h6 := heapGet_lt h5
            omega
          · exact f1)
      (by intro hun' o w hw
          have hun2 : s.parentSet = false ∨ s.dataflowSet = false := by
            rcases hun' with h4 | h4
            · refine Or.inl ?_
              have h5 : (wrap s FO).1.parentSet = false := h4
              rw [w4] at h5
              exact h5
            · refine Or.inr ?_
              have h5 : (wrap s FO).1.dataflowSet = false := h4
              rw [w5] at h5
              exact h5
          rcases hinv o w hw with h5 | ⟨_, f1, _, _⟩
          · exact hun hun2 o w h5
          · exact f1)
    exact ⟨H1, H2.trans w5⟩

/-- Filling an empty slot via `DynamicFile.set`, re-registering it, raising
the high-water mark to the write position, dispatching observers and staging
the slot restores the invariant. -/
theorem C1Inv_setitem_fill (t : DFL) (key oid : Nat) (fo : FileObj)
    (hidx : key < t.slots.length)
    (hval : slotsValid t) (hnd : t.slots.Nodup)
    (hKm : max t.last_idx (key : Int) = (t.slots.length : Int) - 1)
    (hso : stagedOut0 t) (he : empty0 t) (hc : counts1 t)
    (hslot : t.slots.get? key = some oid)
    (htar0 : ∀ w, heapGet t oid = some w → w.stageCount = 0)
    (hun : (t.parentSet = false ∨ t.dataflowSet = false) → counts0 t) :
    C1Inv (stage_file (callCallbacks
      { dynSet t oid fo with
        files_done := dictSet (dynSet t oid fo).files_done
          (heapFilename (dynSet t oid fo) oid) oid,
        last_idx := max (dynSet t oid fo).last_idx (key : Int) }) key) ∧
    (stage_file (callCallbacks
      { dynSet t oid fo with
        files_done := dictSet (dynSet t oid fo).files_done
          (heapFilename (dynSet t oid fo) oid) oid,
        last_idx := max (dynSet t oid fo).last_idx (key : Int) }) key).dataflowSet
      = t.dataflowSet := by
  obtain ⟨d1, d2, d3, d4, d5, d6, d7⟩ := dynSet_effect t oid fo
  have hDsrc : ∀ o w', heapGet (dynSet t oid fo) o = some w' →
      ∃ w, heapGet t o = some w ∧ w'.stageCount = w.stageCount ∧
        w'.stagedOut = w.stagedOut ∧
        (w'.emptyFlag = w.emptyFlag ∨ w'.emptyFlag = false) := by
    intro o w' hw'
    have hlt : o < t.heap.length := by
      have h2 := heapGet_lt hw'
      rw [d6] at h2
      exact h2
    obtain ⟨w, hw⟩ := heapGet_total hlt
    obtain ⟨w'', hw'', f1, f2, f3⟩ := d7 o w hw
    rw [hw''] at hw'
    cases Option.some.inj hw'
    exact ⟨w, hw, f1, f2, f3⟩
  obtain ⟨c1, c2, c3, c4, c5, c6, c7, c8, c9, c10, c11⟩ :=
    callCallbacks_fields
      { dynSet t oid fo with
        files_done := dictSet (dynSet t oid fo).files_done
          (heapFilename (dynSet t oid fo) oid) oid,
        last_idx := max (dynSet t oid fo).last_idx (key : Int) }
  have hval5 : slotsValid (callCallbacks
      { dynSet t oid fo with
        files_done := dictSet (dynSet t oid fo).files_done
          (heapFilename (dynSet t oid fo) oid) oid,
        last_idx := max (dynSet t oid fo).last_idx (key : Int) }) := by
    refine slotsValid_eq (by rw [c1]; exact d6) (by rw [c2]; exact d1) hval
  have hso5 : stagedOut0 (callCallbacks
      { dynSet t oid fo with
        files_done := dictSet (dynSet t oid fo).files_done
          (heapFilename (dynSet t oid fo) oid) oid,
        last_idx := max (dynSet t oid fo).last_idx (key : Int) }) := by
    refine stagedOut0_eq c1 ?_
    intro o w' hw'
    obtain ⟨w, hw, _, f2, _⟩ := hDsrc o w' hw'
    rw [f2]
    exact hso o w hw
  have he5 : empty0 (callCallbacks
      { dynSet t oid fo with
        files_done := dictSet (dynSet t oid fo).files_done
          (heapFilename (dynSet t oid fo) oid) oid,
        last_idx := max (dynSet t oid fo).last_idx (key : Int) }) := by
    refine empty0_eq c1 ?_
    intro o w' hw' hemp
    obtain ⟨w, hw, f1, _, f3⟩ := hDsrc o w' hw'
    rcases f3 with f3 | f3
    · rw [f1]
      exact he o w hw (by rw [← f3]; exact hemp)
    · rw [f3] at hemp
      exact Bool.noConfusion hemp
  have hc5 : counts1 (callCallbacks
      { dynSet t oid fo with
        files_done := dictSet (dynSet t oid fo).files_done
          (heapFilename (dynSet t oid fo) oid) oid,
        last_idx := max (dynSet t oid fo).last_idx (key : Int) }) := by
    refine counts1_eq c1 ?_
    intro o w' hw'
    obtain ⟨w, hw, f1, _, _⟩ := hDsrc o w' hw'
    rw [f1]
    exact hc o w hw
  have hidx5 : key < (callCallbacks
      { dynSet t oid fo with
        files_done := dictSet (dynSet t oid fo).files_done
          (heapFilename (dynSet t oid fo) oid) oid,
        last_idx := max (dynSet t oid fo).last_idx (key : Int) }).slots.length := by
    rw [c2]
    have h5 : (dynSet t oid fo).slots.length = t.slots.length :=
      congrArg List.length d1
    show key < (dynSet t oid fo).slots.length
    omega
  have hslot5 : (callCallbacks
      { dynSet t oid fo with
        files_done := dictSet (dynSet t oid fo).files_done
          (heapFilename (dynSet t oid fo) oid) oid,
        last_idx := max (dynSet t oid fo).last_idx (key : Int) }).slots.get? key
      = some oid := by
    rw [c2]
    show (dynSet t oid fo).slots.get? key = some oid
    rw [d1]
    exact hslot
  have htar5 : ∀ oid2 w', (callCallbacks
      { dynSet t oid fo with
        files_done := dictSet (dynSet t oid fo).files_done
          (heapFilename (dynSet t oid fo) oid) oid,
        last_idx := max (dynSet t oid fo).last_idx (key : Int) }).slots.get? key
        = some oid2 →
      heapGet (callCallbacks
      { dynSet t oid fo with
        files_done := dictSet (dynSet t oid fo).files_done
          (heapFilename (dynSet t oid fo) oid) oid,
        last_idx := max (dynSet t oid fo).last_idx (key : Int) }) oid2 = some w' →
      w'.stageCount = 0 := by
    intro oid2 w' hslot2 hw'
    rw [hslot5] at hslot2
    cases Option.some.inj hslot2
    rw [heapGet, c1] at hw'
    obtain ⟨w, hw, f1, _, _⟩ := hDsrc oid w' hw'
    rw [f1]
    exact htar0 w hw
  obtain ⟨p1, p2, p3, p4, p5⟩ :=
    stage_step_pack1 _ key hidx5 hval5 hso5 he5 hc5 htar5
  obtain ⟨e1, e2, e3, e4, e5, e6, _⟩ :=
    stage_file_effect (callCallbacks
      { dynSet t oid fo with
        files_done := dictSet (dynSet t oid fo).files_done
          (heapFilename (dynSet t oid fo) oid) oid,
        last_idx := max (dynSet t oid fo).last_idx (key : Int) }) key hidx5
  refine ⟨⟨p1, ?_, ?_, p2, p3, p4, ?_⟩, ?_⟩
  · rw [e1, c2]
    show ((dynSet t oid fo).slots).Nodup
    rw [d1]
    exact hnd
  · rw [e2, c4, e1, c2]
    show max (dynSet t oid fo).last_idx (key : Int) =
      (((dynSet t oid fo).slots.length : Int)) - 1
    rw [d2]
    have h5 : (dynSet t oid fo).slots.length = t.slots.length :=
      congrArg List.length d1
    rw [h5]
    exact hKm
  · intro hun'
    rw [e3, c5, e4, c6] at hun'
    have hun2 : (dynSet t oid fo).parentSet = false ∨
        (dynSet t oid fo).dataflowSet = false := hun'
    rw [d3, d4] at hun2
    refine p5 ?_ ?_
    · rw [c5, c6]
      show (dynSet t oid fo).parentSet = false ∨
        (dynSet t oid fo).dataflowSet = false
      rw [d3, d4]
      exact hun2
    · refine counts0_eq c1 ?_
      intro o w' hw'
      obtain ⟨w, hw, f1, _, _⟩ := hDsrc o w' hw'
      rw [f1]
      exact hun hun2 o w hw
  · rw [e4, c6]
    show (dynSet t oid fo).dataflowSet = t.dataflowSet
    exact d4

/-- Indexed write preserves the staging invariant: a write into an empty slot
fills and stages it once; a write into a filled slot raises without touching
the counters. -/
theorem C1Inv_setItemF (s : DFL) (key : Nat) (f : File) (h : C1Inv s) :
    C1Inv (setItemF s key f).1 ∧ (setItemF s key f).1.dataflowSet = s.dataflowSet := by
  obtain ⟨hval, hnd, hK, hso, he, hc, hun⟩ := h
  obtain ⟨g1, g2, g3, g4, g5, g6, g7, g8, g9, g10, g11, g12, g13⟩ :=
    getItem_pack s key hval hnd hso he hc
  have hklt : key < (getItem s key).1.slots.length := by rw [g6]; omega
  have hg2 : (getItem s key).2 = (getItem s key).1.slots.get? key := rfl
  unfold setItemF
  simp only []
  rcases hp2 : (getItem s key).2 with _ | oid
  · exfalso
    rw [hg2, List.get?_eq_none] at hp2
    omega
  · have hoid' : (getItem s key).1.slots.get? key = some oid := by
      rw [← hg2]
      exact hp2
    simp only []
    rcases hwt : heapGet (getItem s key).1 oid with _ | w
    · exfalso
      have h5 := g1 key oid hoid'
      obtain ⟨w0, hw0⟩ := heapGet_total h5
      rw [hw0] at hwt
      exact Option.noConfusion hwt
    · simp only []
      split
      · next hemp =>
        have htar0 : ∀ w', heapGet (getItem s key).1 oid = some w' →
            w'.stageCount = 0 := by
          intro w' hw'
          rw [hwt] at hw'
          cases Option.some.inj hw'
          exact g4 oid w hwt hemp
        have hKm : max (getItem s key).1.last_idx (key : Int) =
            (((getItem s key).1.slots.length : Int)) - 1 := by
          rw [g7, g6]
          push_cast
          omega
        have hunT : ((getItem s key).1.parentSet = false ∨
            (getItem s key).1.dataflowSet = false) →
            counts0 (getItem s key).1 := by
          intro hu
          have hu2 : s.parentSet = false ∨ s.dataflowSet = false := by
            rcases hu with h4 | h4
            · exact Or.inl (by rw [← g8]; exact h4)
            · exact Or.inr (by rw [← g9]; exact h4)
          exact g12 hu2 (hun hu2)
        split
        · exact (C1Inv_setitem_fill
            { (getItem s key).1 with
              files_done := dictDel (getItem s key).1.files_done
                (dynFilename (getItem s key).1.heap w) }
            key oid _ hklt g1 g2 hKm g3 g4 g5 hoid' htar0 hunT).imp
            id (fun h2 => h2.trans g9)
        · exact (C1Inv_setitem_fill (getItem s key).1
            key oid _ hklt g1 g2 hKm g3 g4 g5 hoid' htar0 hunT).imp
            id (fun h2 => h2.trans g9)
      · next hemp =>
        have hkeylt : key < s.slots.length := by
          by_contra hx
          obtain ⟨oid2, hoid2, hmt⟩ := g13 (by omega)
          rw [hoid'] at hoid2
          cases Option.some.inj hoid2
          rw [hwt] at hmt
          cases Option.some.inj hmt
          exact hemp rfl
        have hgid : (getItem s key).1 = s := by
          simp [getItem, Nat.not_le.mpr hkeylt]
        split
        · rw [hgid]
          exact ⟨⟨hval, hnd, hK, hso, he, hc, hun⟩, rfl⟩
        · rw [hgid]
          exact ⟨⟨hval, hnd, hK, hso, he, hc, hun⟩, rfl⟩

/-- The staging invariant holds along any basic-operation sequence whose
total number of `set_staging_context` calls (counting one for an already
attached collaborator) is at most one. -/
theorem C1Inv_runBs : ∀ (ops : List OpB) (s : DFL), C1Inv s →
    sdCount ops + (if s.dataflowSet then 1 else 0) ≤ 1 →
    C1Inv (runBs s ops) := by
  intro ops
  induction ops with
  | nil =>
    intro s h _
    exact h
  | cons op rest ih =>
    intro s h hbud
    rw [runBs]
    cases op with
    | appendB f =>
      have hcnt : sdCount (OpB.appendB f :: rest) = sdCount rest := by
        simp [sdCount, List.countP_cons]
      obtain ⟨H1, H2⟩ := C1Inv_appendFile s f h
      simp only [runB]
      refine ih _ H1 ?_
      rw [hcnt] at hbud
      rw [H2]
      exact hbud
    | extendB fs =>
      have hcnt : sdCount (OpB.extendB fs :: rest) = sdCount rest := by
        simp [sdCount, List.countP_cons]
      obtain ⟨H1, H2⟩ := C1Inv_extendF s fs h
      simp only [runB]
      refine ih _ H1 ?_
      rw [hcnt] at hbud
      rw [H2]
      exact hbud
    | insertB i f =>
      have hcnt : sdCount (OpB.insertB i f :: rest) = sdCount rest := by
        simp [sdCount, List.countP_cons]
      obtain ⟨H1, H2⟩ := C1Inv_insertF s i f h
      simp only [runB]
      refine ih _ H1 ?_
      rw [hcnt] at hbud
      rw [H2]
      exact hbud
    | setItemB i f =>
      have hcnt : sdCount (OpB.setItemB i f :: rest) = sdCount rest := by
        simp [sdCount, List.countP_cons]
      obtain ⟨H1, H2⟩ := C1Inv_setItemF s i f h
      simp only [runB]
      refine ih _ H1 ?_
      rw [hcnt] at hbud
      rw [H2]
      exact hbud
    | setParentB =>
      have hcnt : sdCount (OpB.setParentB :: rest) = sdCount rest := by
        simp [sdCount, List.countP_cons]
      obtain ⟨H1, H2⟩ := C1Inv_set_parent s h
      simp only [runB]
      refine ih _ H1 ?_
      rw [hcnt] at hbud
      rw [H2]
      exact hbud
    | setDataflowB inh tid =>
      have hcnt : sdCount (OpB.setDataflowB inh tid :: rest) = sdCount rest + 1 := by
        simp [sdCount, List.countP_cons]
      have hdf : s.dataflowSet = false := by
        by_contra hx
        rw [Bool.not_eq_false] at hx
        rw [hcnt, if_pos hx] at hbud
        omega
      obtain ⟨H1, H2⟩ := C1Inv_set_dataflow s inh tid h hdf
      simp only [runB]
      refine ih _ H1 ?_
      rw [hcnt, if_neg (by rw [hdf]; exact Bool.false_ne_true)] at hbud
      rw [H2, if_pos rfl]
      omega

/-- The invariant holds in a fresh list. -/
theorem C1Inv_init : C1Inv initDFL :=
  ⟨fun i oid h => Option.noConfusion h,
   List.nodup_nil,
   by decide,
   fun o w hw => Option.noConfusion hw,
   fun o w hw _ => Option.noConfusion hw,
   fun o w hw => Option.noConfusion hw,
   fun _ o w hw => Option.noConfusion hw⟩

/-- Scenario for the staging claim: one appended artifact, then the producing
task and the staging collaborator are attached (in that order). -/
def c1ops : List OpB := [OpB.appendB ⟨"a"⟩, OpB.setParentB, OpB.setDataflowB false 0]

/-- The same scenario before the staging collaborator arrives. -/
def c1mid : DFL := runBs initDFL [OpB.appendB ⟨"a"⟩, OpB.setParentB]

/-- The wrapper of slot 0 after the full `c1ops` scenario: staged exactly
once. -/
def c1w : DynFile :=
  { oid := 0,
    file_obj := FileObj.df { file_obj := ⟨"a"⟩, tid := none, state := FState.pending },
    is_df := true, emptyFlag := false, stagedOut := false,
    state := FState.pending, stageCount := 1 }

/-- The wrapper of slot 0 in `c1mid`: not yet staged. -/
def c1wmid : DynFile :=
  { oid := 0,
    file_obj := FileObj.df { file_obj := ⟨"a"⟩, tid := none, state := FState.pending },
    is_df := true, emptyFlag := false, stagedOut := false,
    state := FState.pending, stageCount := 0 }

/-- C1: over any sequence of `append`/`extend`/`insert`/indexed-write/
`set_parent`/`set_staging_context` operations containing at most one
`set_staging_context` call, every wrapper's staging side effect runs at most
once; and one `stage_file` call on an in-range slot whose wrapper is not
staged out bumps that count exactly when the staging collaborator is
attached, the producing task is attached, the slot is non-empty, it wraps a
future, and staging is not inhibited. -/
theorem staging_at_most_once_iff_guard :
    (∀ (ops : List OpB), sdCount ops ≤ 1 →
      ∀ o w, heapGet (runBs initDFL ops) o = some w → w.stageCount ≤ 1) ∧
    (∀ (s : DFL) (idx oid : Nat) (w : DynFile),
      idx < s.slots.length → s.slots.get? idx = some oid →
      heapGet s oid = some w → w.stagedOut = false →
      stageCountOf (stage_file s idx) oid =
        w.stageCount +
          (if s.dataflowSet && s.parentSet && !w.emptyFlag && w.is_df &&
              !s.inhibited then 1 else 0)) := by
  constructor
  · intro ops hsd o w hw
    have hinv := C1Inv_runBs ops initDFL C1Inv_init (by simpa using hsd)
    exact hinv.2.2.2.2.2.1 o w hw
  · intro s idx oid w hidx hslot hw hso
    have hget : getItem s idx = (s, s.slots.get? idx) := by
      simp [getItem, Nat.not_le.mpr hidx]
    have hlt := heapGet_lt hw
    have hg1 : heapGet (callCallbacks s) oid = heapGet s oid := by
      rw [heapGet, (callCallbacks_fields s).1]
      rfl
    have hg2 : ∀ w' : DynFile,
        heapGet (callCallbacks (setHeap s oid w')) oid = some w' := by
      intro w'
      rw [heapGet, (callCallbacks_fields (setHeap s oid w')).1]
      show (s.heap.set oid w').get? oid = some w'
      simp [List.get?_eq_getElem?, List.getElem?_set_eq_of_lt _ hlt]
    unfold stageCountOf stage_file stage_core
    rw [hget]
    simp only [hslot, hw, hso]
    cases hdf : s.dataflowSet with
    | false => simp [hdf, hw]
    | true =>
      cases hemp : w.emptyFlag with
      | true => simp [hdf, hemp, hw]
      | false =>
        cases hp : s.parentSet with
        | false => simp [hdf, hemp, hp, hw]
        | true =>
          cases hisdf : w.is_df with
          | false => simp [hdf, hemp, hp, hisdf, hw]
          | true =>
            cases hinh : s.inhibited with
            | true => simp [hdf, hemp, hp, hisdf, hinh, hg1, hw]
            | false => simp [hdf, hemp, hp, hisdf, hinh, hg2, hw]

/-- Witness: in the append-then-attach scenario the appended wrapper is
staged exactly once, and before the collaborator arrives a further
`stage_file` leaves the count unchanged, as the guard characterisation
states. -/
theorem staging_at_most_once_iff_guard_witness :
    (sdCount c1ops ≤ 1 ∧ heapGet (runBs initDFL c1ops) 0 = some c1w ∧
     c1w.stageCount ≤ 1) ∧
    (0 < c1mid.slots.length ∧ c1mid.slots.get? 0 = some 0 ∧
     heapGet c1mid 0 = some c1wmid ∧ c1wmid.stagedOut = false ∧
     stageCountOf (stage_file c1mid 0) 0 =
       c1wmid.stageCount +
         (if c1mid.dataflowSet && c1mid.parentSet && !c1wmid.emptyFlag &&
             c1wmid.is_df && !c1mid.inhibited then 1 else 0)) := by
  refine ⟨⟨by decide, by decide,
    staging_at_most_once_iff_guard.1 c1ops (by decide) 0 c1w (by decide)⟩,
    by decide, by decide, by decide, by decide,
    staging_at_most_once_iff_guard.2 c1mid 0 0 c1wmid (by decide) (by decide)
      (by decide) (by decide)⟩

/-! ## The staged promotion path: TypeError from the DataFuture call -/

/-- Without a producing task attached, the staged append is the ordinary
append (the TypeError branch is unreachable). -/
theorem appendFileS_no_parent (s : DFL) (f : File) (hp : s.parentSet = false) :
    appendFileS s f = appendFile s f := by
  unfold appendFileS appendFile
  rw [hp]
  simp

/-- The staged `set_parent` on a list whose slot 0 holds a not-yet-promoted
wrapper: the parent is attached, then the promotion loop raises TypeError at
slot 0 — before any staging, before the observer dispatch — so the result is
exactly the input with the parent attached. -/
theorem set_parentS_aborts_at_zero (s : DFL) (oid : Nat) (w : DynFile)
    (hp : s.parentSet = false) (ht : s.task = FState.pending)
    (h0 : s.slots.get? 0 = some oid) (hw : heapGet s oid = some w)
    (hdf : w.is_df = false) (hlast : 0 ≤ s.last_idx) :
    set_parentS s = ({ s with parentSet := true }, some dfkTypeError) := by
  have hlen0 : 0 < s.slots.length := by
    by_contra hge
    rw [List.get?_eq_none.mpr (by omega)] at h0
    exact Option.noConfusion h0
  obtain ⟨k, hk⟩ : ∃ k, (s.last_idx + 1).toNat = k + 1 :=
    ⟨(s.last_idx + 1).toNat - 1, by omega⟩
  have hsp : set_parentS s =
      promoteLoopS { s with parentSet := true } 0 (s.last_idx + 1).toNat := by
    unfold set_parentS
    rw [hp]
    simp only [Bool.false_eq_true, if_false]
    rw [if_neg (show ¬(({ s with parentSet := true } : DFL).task ≠ FState.pending) by
      show ¬(s.task ≠ FState.pending)
      rw [ht]
      exact fun hne => hne rfl)]
  have hgi : getItem { s with parentSet := true } 0 =
      ({ s with parentSet := true }, some oid) := by
    unfold getItem
    rw [if_neg (Nat.not_le.mpr (show 0 < ({ s with parentSet := true } : DFL).slots.length
      from hlen0))]
    show ({ s with parentSet := true }, s.slots.get? 0) = _
    rw [h0]
  have hconv : convert_to_dfS { s with parentSet := true } oid =
      ({ s with parentSet := true }, some dfkTypeError) := by
    unfold convert_to_dfS
    rw [show heapGet { s with parentSet := true } oid = some w from hw]
    simp [hdf]
  rw [hsp, hk]
  simp only [promoteLoopS, hgi, hconv]

/-- Auto-expansion only adds fresh empty wrappers: a heap in which no wrapper
is a `DataFuture` stays that way. -/
theorem getItem_no_df (s : DFL) (idx : Nat)
    (hnd : ∀ oid w, heapGet s oid = some w → w.is_df = false) :
    ∀ oid w, heapGet (getItem s idx).1 oid = some w → w.is_df = false := by
  intro oid w hw
  have h1 : (getItem s idx).1 =
      if s.slots.length ≤ idx then expandN s (idx + 1 - s.slots.length) else s := rfl
  rw [h1] at hw
  split at hw
  · obtain ⟨e1, _⟩ := expandN_spec s (idx + 1 - s.slots.length)
    rw [heapGet, e1] at hw
    rcases Nat.lt_or_ge oid s.heap.length with hlt | hge
    · rw [List.get?_append hlt] at hw
      exact hnd oid w hw
    · rw [List.get?_append_right hge, List.get?_map] at hw
      rcases h2 : (List.range (idx + 1 - s.slots.length)).get? (oid - s.heap.length)
        with _ | k
      · rw [h2] at hw
        exact Option.noConfusion hw
      · rw [h2] at hw
        simp only [Option.map_some'] at hw
        cases Option.some.inj hw
        rfl
  · exact hnd oid w hw

/-- The staging body preserves the heap-wide absence of `DataFuture`s. -/
theorem stage_core_no_df (s : DFL) (idx : Nat)
    (hnd : ∀ oid w, heapGet s oid = some w → w.is_df = false) :
    ∀ oid w, heapGet (stage_core s idx) oid = some w → w.is_df = false := by
  intro oid w hw
  obtain ⟨_, _, _, _, _, _, _, _, _, _, hlen, hpt⟩ := stage_core_fields s idx
  have holt : oid < s.heap.length := by
    have h := heapGet_lt hw
    omega
  obtain ⟨w0, hw0⟩ := heapGet_total holt
  obtain ⟨w1, hw1, _, _, hdf1, _⟩ := hpt oid w0 hw0
  rw [hw] at hw1
  cases Option.some.inj hw1
  rw [hdf1]
  exact hnd oid w0 hw0

/-- `stage_file` preserves the heap-wide absence of `DataFuture`s. -/
theorem stage_file_no_df (s : DFL) (idx : Nat)
    (hnd : ∀ oid w, heapGet s oid = some w → w.is_df = false) :
    ∀ oid w, heapGet (stage_file s idx) oid = some w → w.is_df = false := by
  unfold stage_file
  split
  · exact hnd
  · exact stage_core_no_df (getItem s idx).1 idx (getItem_no_df s idx hnd)

/-- Observer dispatch does not touch the heap. -/
theorem callCallbacks_no_df (s : DFL)
    (hnd : ∀ oid w, heapGet s oid = some w → w.is_df = false) :
    ∀ oid w, heapGet (callCallbacks s) oid = some w → w.is_df = false := by
  intro oid w hw
  rw [heapGet, (callCallbacks_fields s).1] at hw
  exact hnd oid w hw

/-- The staged promotion loop can only fail with the promotion TypeError, and
it never creates a `DataFuture`. -/
theorem promoteLoopS_no_df (n : Nat) : ∀ (s : DFL) (idx : Nat),
    (∀ oid w, heapGet s oid = some w → w.is_df = false) →
    (∀ oid w, heapGet (promoteLoopS s idx n).1 oid = some w → w.is_df = false) ∧
    ((promoteLoopS s idx n).2 = none ∨ (promoteLoopS s idx n).2 = some dfkTypeError) := by
  induction n with
  | zero =>
    intro s idx hnd
    exact ⟨callCallbacks_no_df s hnd, Or.inl rfl⟩
  | succ n ih =>
    intro s idx hnd
    have hnd1 : ∀ oid w, heapGet (getItem s idx).1 oid = some w → w.is_df = false :=
      getItem_no_df s idx hnd
    rcases hp2 : (getItem s idx).2 with _ | oid
    · have hred : promoteLoopS s idx (n + 1) = (callCallbacks (getItem s idx).1, none) := by
        simp only [promoteLoopS, hp2]
      rw [hred]
      exact ⟨callCallbacks_no_df _ hnd1, Or.inl rfl⟩
    · rcases hg : heapGet (getItem s idx).1 oid with _ | w
      · have hconv : convert_to_dfS (getItem s idx).1 oid = ((getItem s idx).1, none) := by
          unfold convert_to_dfS
          rw [hg]
        have hred : promoteLoopS s idx (n + 1) =
            promoteLoopS (stage_file (getItem s idx).1 idx) (idx + 1) n := by
          simp only [promoteLoopS, hp2, hconv]
        rw [hred]
        exact ih _ (idx + 1) (stage_file_no_df _ idx hnd1)
      · have hdfw : w.is_df = false := hnd1 oid w hg
        have hconv : convert_to_dfS (getItem s idx).1 oid =
            ((getItem s idx).1, some dfkTypeError) := by
          unfold convert_to_dfS
          rw [hg]
          simp [hdfw]
        have hred : promoteLoopS s idx (n + 1) = ((getItem s idx).1, some dfkTypeError) := by
          simp only [promoteLoopS, hp2, hconv]
        rw [hred]
        exact ⟨hnd1, Or.inr rfl⟩

/-- Resolution of a wrapper by the list's done-callbacks never flips its
`_is_df` flag. -/
theorem updWrapper_is_df (b : Bool) (lerr : Option Nat) (w : DynFile) :
    (updWrapper b lerr w).is_df = w.is_df := by
  unfold updWrapper
  simp only []
  split <;> split <;> simp

/-- Firing the done-callbacks preserves the absence of `DataFuture`s. -/
theorem fireListCallbacks_no_df (s : DFL)
    (hnd : ∀ oid w, heapGet s oid = some w → w.is_df = false) :
    ∀ oid w, heapGet (fireListCallbacks s) oid = some w → w.is_df = false := by
  intro oid w hw
  rcases h0 : heapGet s oid with _ | w0
  · rw [heapGet, fireListCallbacks] at hw
    simp only [List.get?_map] at hw
    rw [show s.heap.get? oid = none from h0] at hw
    exact Option.noConfusion hw
  · have h2 := heapGet_fire s oid w0 h0
    rw [hw] at h2
    cases Option.some.inj h2
    rw [updWrapper_is_df]
    exact hnd oid w0 h0

/-- The list resolving preserves the absence of `DataFuture`s. -/
theorem listParentCallback_no_df (s : DFL)
    (hnd : ∀ oid w, heapGet s oid = some w → w.is_df = false) :
    ∀ oid w, heapGet (listParentCallback s) oid = some w → w.is_df = false := by
  intro oid w hw
  unfold listParentCallback at hw
  split at hw
  · refine fireListCallbacks_no_df _ ?_ oid w hw
    exact hnd
  · refine fireListCallbacks_no_df _ ?_ oid w hw
    exact hnd
  · exact hnd oid w hw

/-- The producing task resolving preserves the absence of `DataFuture`s. -/
theorem resolveTask_no_df (s : DFL) (o : FState)
    (hnd : ∀ oid w, heapGet s oid = some w → w.is_df = false) :
    ∀ oid w, heapGet (resolveTask s o) oid = some w → w.is_df = false := by
  intro oid w hw
  unfold resolveTask at hw
  split at hw
  · simp only [] at hw
    split at hw
    · refine listParentCallback_no_df _ ?_ oid w hw
      exact hnd
    · exact hnd oid w hw
  · exact hnd oid w hw

/-- The staged `set_parent` can only fail with the promotion TypeError, and it
never creates a `DataFuture`: if no wrapper is one before the call, none is
after. -/
theorem set_parentS_no_df (s : DFL) (hp : s.parentSet = false)
    (hnd : ∀ oid w, heapGet s oid = some w → w.is_df = false) :
    (∀ oid w, heapGet (set_parentS s).1 oid = some w → w.is_df = false) ∧
    ((set_parentS s).2 = none ∨ (set_parentS s).2 = some dfkTypeError) := by
  have hnd1 : ∀ oid w, heapGet ({ s with parentSet := true } : DFL) oid = some w →
      w.is_df = false := hnd
  by_cases h2 : ({ s with parentSet := true } : DFL).task ≠ FState.pending
  · have hsp : set_parentS s =
        promoteLoopS (listParentCallback { s with parentSet := true }) 0
          ((listParentCallback { s with parentSet := true }).last_idx + 1).toNat := by
      unfold set_parentS
      rw [hp]
      simp only [Bool.false_eq_true, if_false]
      rw [if_pos h2]
    rw [hsp]
    exact promoteLoopS_no_df _ _ 0 (listParentCallback_no_df _ hnd1)
  · have hsp : set_parentS s = promoteLoopS { s with parentSet := true } 0
        (({ s with parentSet := true } : DFL).last_idx + 1).toNat := by
      unfold set_parentS
      rw [hp]
      simp only [Bool.false_eq_true, if_false]
      rw [if_neg h2]
    rw [hsp]
    exact promoteLoopS_no_df _ _ 0 hnd1

/-! ## Claim C2: failure propagation -/

/-- Two bare artifacts appended (staged append) while no producing task was
attached. -/
def c2strict : DFL := (appendFileS (appendFileS initDFL ⟨"a"⟩).1 ⟨"b"⟩).1

/-- The state the aborted staged `set_parent` leaves on `c2strict`. -/
def c2after : DFL := (set_parentS c2strict).1

/-- `c2after` after the producing task resolves with failure 7. -/
def c2fail : DFL := resolveTask c2after (FState.error 7)

/-- C2 counterexample: slots A and B appended, then `set_parent` — the
promotion raises TypeError from the unbindable `DataFuture` call (missing
`dfk`), so no slot ever wraps a future; when the producing task then fails
with 7, the failure is recorded only in the list's internal state: both
wrappers still hold bare files and report `done()` trivially true, and
`list.result()` returns the list itself rather than surfacing 7. -/
theorem failure_chain_never_forms :
    (set_parentS c2strict).2 = some dfkTypeError ∧
    (∀ w ∈ c2fail.heap, w.is_df = false ∧ dynDone w = true) ∧
    c2fail.task = FState.error 7 ∧
    c2fail.listState = FState.error 7 ∧
    DFL.result c2fail = Except.ok c2fail ∧
    DFL.result c2fail ≠ Except.error 7 ∧
    DFL.exceptionAcc c2fail = none := by
  refine ⟨by decide, by decide, by decide, by decide, rfl, by simp [DFL.result], rfl⟩

/-- C2 (corrected): the claimed propagation chain cannot form.  Every
`DataFuture` construction inside `DynamicFileList` raises TypeError
(`futures.py` requires a positional `dfk` that no call in `dynamic_files.py`
passes), so on any list whose wrappers hold no `DataFuture` — and the class on
its own can never produce one — the staged `set_parent` either promotes
nothing or aborts with that TypeError, and still no slot wraps a future.  When
the producing task then fails with `e`, the failure reaches only the list's
internal state: every wrapper still holds no future and reports `done()`
trivially true, `result()` returns the list itself instead of raising, and
`exception()` returns None. -/
theorem failure_reaches_list_state_only (s : DFL) (e : Nat)
    (hp : s.parentSet = false)
    (hnd : ∀ oid w, heapGet s oid = some w → w.is_df = false) :
    ((set_parentS s).2 = none ∨ (set_parentS s).2 = some dfkTypeError) ∧
    (∀ oid w, heapGet (set_parentS s).1 oid = some w → w.is_df = false) ∧
    (∀ oid w, heapGet (resolveTask (set_parentS s).1 (FState.error e)) oid = some w →
       w.is_df = false ∧ dynDone w = true) ∧
    DFL.result (resolveTask (set_parentS s).1 (FState.error e)) =
      Except.ok (resolveTask (set_parentS s).1 (FState.error e)) ∧
    DFL.result (resolveTask (set_parentS s).1 (FState.error e)) ≠ Except.error e ∧
    DFL.exceptionAcc (resolveTask (set_parentS s).1 (FState.error e)) = none := by
  obtain ⟨hw1, herr⟩ := set_parentS_no_df s hp hnd
  have hw2 := resolveTask_no_df (set_parentS s).1 (FState.error e) hw1
  refine ⟨herr, hw1, ?_, rfl, by simp [DFL.result], rfl⟩
  intro oid w hw
  have hdf := hw2 oid w hw
  exact ⟨hdf, by simp [dynDone, hdf]⟩

/-- Witness for the corrected C2 theorem at the concrete two-artifact list. -/
theorem failure_reaches_list_state_only_witness :
    ((set_parentS c2strict).2 = none ∨ (set_parentS c2strict).2 = some dfkTypeError) ∧
    DFL.exceptionAcc (resolveTask (set_parentS c2strict).1 (FState.error 7)) = none := by
  have h := failure_reaches_list_state_only c2strict 7 (by decide)
    (by
      intro oid w hw
      have hall : ∀ w2 ∈ c2strict.heap, w2.is_df = false := by decide
      exact hall w (List.get?_mem hw))
  exact ⟨h.1, h.2.2.2.2.2⟩

/-! ## Claim C3: append then set_parent -/

/-- A single bare artifact appended to a fresh list by the staged append. -/
def c3app : DFL := (appendFileS initDFL ⟨"x"⟩).1

/-- C3 counterexample: append ⟨"x"⟩ with no producing task, then the staged
`set_parent` — it raises TypeError (the `DataFuture` call in the promotion
loop cannot bind: `dfk` missing), the parent is left attached, slot 0 still
wraps the bare file — never promoted, never bound to the task — and `done()`
of the slot and of the list stays trivially true while the task is still
pending: `done()` does not track the task. -/
theorem append_slot_not_promoted_cex :
    (set_parentS c3app).2 = some dfkTypeError ∧
    (set_parentS c3app).1.parentSet = true ∧
    (set_parentS c3app).1.task = FState.pending ∧
    (∃ w, heapGet (set_parentS c3app).1 0 = some w ∧
       w.file_obj = FileObj.file ⟨"x"⟩ ∧ w.is_df = false ∧ dynDone w = true) ∧
    DFL.done (set_parentS c3app).1 = true := by
  refine ⟨by decide, by decide, by decide,
    ⟨{ oid := 0, file_obj := FileObj.file ⟨"x"⟩, is_df := false, emptyFlag := false,
       stagedOut := false, state := FState.pending, stageCount := 0 },
     by decide, by decide, by decide, by decide⟩, by decide⟩

/-- C3 (corrected): appending a bare artifact with no producing task attached
yields a Concrete slot — no future, `done()` trivially true.  A later
`set_parent(T)` does NOT promote it: the promotion loop's `DataFuture` call
raises TypeError at the first held slot (missing `dfk`), the call aborts with
the parent attached and every wrapper untouched; artifactX's slot stays
Concrete, never bound to `T`, and its `done()` remains trivially true while
`T` is pending and after `T` resolves either way.  Hypotheses: the append
lands at the end of the list (high-water mark at the last slot), the list's
wrappers hold no futures yet and its slot references are allocated (true of
every list the class builds before a parent is attached), and the task is
still pending when `set_parent` is called. -/
theorem append_then_set_parent_raises (s : DFL) (x : File)
    (hp : s.parentSet = false) (ht : s.task = FState.pending)
    (hl : s.listState = FState.pending)
    (hK : s.last_idx = (s.slots.length : Int) - 1)
    (hval : slotsValid s)
    (hnd : ∀ oid w, heapGet s oid = some w → w.is_df = false) :
    (appendFileS s x).2 = none ∧
    (∃ w0, heapGet (appendFileS s x).1 s.heap.length = some w0 ∧
       w0.file_obj = FileObj.file x ∧ w0.is_df = false ∧ dynDone w0 = true) ∧
    (set_parentS (appendFileS s x).1).2 = some dfkTypeError ∧
    (set_parentS (appendFileS s x).1).1 =
      { (appendFileS s x).1 with parentSet := true } ∧
    (∃ w1, heapGet (set_parentS (appendFileS s x).1).1 s.heap.length = some w1 ∧
       w1.file_obj = FileObj.file x ∧ w1.is_df = false ∧ dynDone w1 = true) ∧
    (∀ o, ∃ w2,
       heapGet (resolveTask (set_parentS (appendFileS s x).1).1 o) s.heap.length =
         some w2 ∧ w2.is_df = false ∧ dynDone w2 = true) := by
  rw [appendFileS_no_parent s x hp]
  obtain ⟨a1, a2, a3, a4, a5, a6, a7, a8, a9⟩ := appendFile_grow s x hK hp hl
  set wx : DynFile :=
    { oid := s.heap.length, file_obj := FileObj.file x, is_df := false,
      emptyFlag := false, stagedOut := false, state := FState.pending,
      stageCount := 0 } with hwxdef
  set sA : DFL := (appendFile s x).1 with hsAdef
  have hgx : heapGet sA s.heap.length = some wx := by
    rw [heapGet, a3]
    exact List.get?_concat_length _ _
  have hslot0 : ∃ oid0 w0, sA.slots.get? 0 = some oid0 ∧ heapGet sA oid0 = some w0 ∧
      w0.is_df = false := by
    rcases hsl : s.slots with _ | ⟨o0, rest⟩
    · refine ⟨s.heap.length, wx, ?_, hgx, by rw [hwxdef]⟩
      rw [a2, hsl]
      rfl
    · have hget0 : s.slots.get? 0 = some o0 := by rw [hsl]; rfl
      have ho0 : o0 < s.heap.length := hval 0 o0 hget0
      obtain ⟨w0, hw0⟩ := heapGet_total ho0
      refine ⟨o0, w0, ?_, ?_, hnd o0 w0 hw0⟩
      · rw [a2, hsl]
        rfl
      · rw [heapGet, a3, List.get?_append ho0]
        exact hw0
  obtain ⟨oid0, w0, h0A, hw0A, hdf0A⟩ := hslot0
  have habort : set_parentS sA = ({ sA with parentSet := true }, some dfkTypeError) := by
    refine set_parentS_aborts_at_zero sA oid0 w0 a5 (by rw [a8]; exact ht) h0A hw0A hdf0A ?_
    rw [a4, hK]
    omega
  refine ⟨a1, ⟨wx, hgx, rfl, rfl, rfl⟩, ?_, ?_, ?_, ?_⟩
  · rw [habort]
  · rw [habort]
  · rw [habort]
    exact ⟨wx, hgx, rfl, rfl, rfl⟩
  · intro o
    rw [habort]
    have hwt : heapGet ({ sA with parentSet := true } : DFL) s.heap.length = some wx := hgx
    have htt : ({ sA with parentSet := true } : DFL).task = FState.pending := by
      show sA.task = FState.pending
      rw [a8]
      exact ht
    cases o with
    | pending =>
      have hres : resolveTask { sA with parentSet := true } FState.pending =
          { sA with parentSet := true } := by
        unfold resolveTask
        rw [if_neg (fun hcon => hcon.2 rfl)]
      rw [hres]
      exact ⟨wx, hwt, rfl, rfl⟩
    | ok =>
      have hres : resolveTask { sA with parentSet := true } FState.ok =
          listParentCallback { { sA with parentSet := true } with task := FState.ok } := by
        unfold resolveTask
        rw [if_pos ⟨htt, fun h => FState.noConfusion h⟩]
        rfl
      rw [hres]
      have hred : listParentCallback { { sA with parentSet := true } with
          task := FState.ok } =
          fireListCallbacks { { { sA with parentSet := true } with task := FState.ok } with
            listState := FState.ok } := rfl
      rw [hred]
      refine ⟨_, heapGet_fire _ s.heap.length wx hwt, ?_, updWrapper_dynDone _ _ _⟩
      rw [updWrapper_is_df]
    | error e2 =>
      have hres : resolveTask { sA with parentSet := true } (FState.error e2) =
          listParentCallback { { sA with parentSet := true } with
            task := FState.error e2 } := by
        unfold resolveTask
        rw [if_pos ⟨htt, fun h => FState.noConfusion h⟩]
        rfl
      rw [hres]
      have hred : listParentCallback { { sA with parentSet := true } with
          task := FState.error e2 } =
          fireListCallbacks { { { sA with parentSet := true } with
            task := FState.error e2 } with listState := FState.error e2 } := rfl
      rw [hred]
      refine ⟨_, heapGet_fire _ s.heap.length wx hwt, ?_, updWrapper_dynDone _ _ _⟩
      rw [updWrapper_is_df]

/-- Witness for the corrected C3 theorem on a fresh list. -/
theorem append_then_set_parent_raises_witness :
    (set_parentS (appendFileS initDFL ⟨"x"⟩).1).2 = some dfkTypeError ∧
    (∀ o, ∃ w2,
       heapGet (resolveTask (set_parentS (appendFileS initDFL ⟨"x"⟩).1).1 o)
         initDFL.heap.length = some w2 ∧ w2.is_df = false ∧ dynDone w2 = true) := by
  have h := append_then_set_parent_raises initDFL ⟨"x"⟩ (by decide) (by decide) (by decide)
    (by decide)
    (by intro i oid hoid; cases i <;> exact Option.noConfusion hoid)
    (by intro oid w hw; cases oid <;> exact Option.noConfusion hw)
  exact ⟨h.2.2.1, h.2.2.2.2.2⟩

/-! ## Claim C6: set_parent succeeds exactly once -/

/-- A single bare artifact appended to a fresh list (C6 scenario). -/
def c6app : DFL := (appendFileS initDFL ⟨"y"⟩).1

/-- The parent-attached state the successful empty-list `set_parent` leaves. -/
def c6par : DFL := (set_parentS initDFL).1

/-- C6 counterexample: on a list holding one appended artifact, no call to
`set_parent` ever succeeds — the FIRST call raises TypeError (the promotion's
`DataFuture` call cannot bind: `dfk` missing) while still attaching the
parent, so the one permitted call is consumed without promoting or staging
anything, and every later call fails with ValueError on the already-attached
parent, changing nothing. -/
theorem set_parent_never_succeeds_cex :
    c6app.parentSet = false ∧
    (∃ w, heapGet c6app 0 = some w ∧ w.emptyFlag = false ∧ w.is_df = false) ∧
    (set_parentS c6app).2 = some dfkTypeError ∧
    (set_parentS c6app).1.parentSet = true ∧
    (∃ w, heapGet (set_parentS c6app).1 0 = some w ∧ w.is_df = false) ∧
    (set_parentS (set_parentS c6app).1).2 =
      some (Err.valueError "Parent future already set") ∧
    (set_parentS (set_parentS c6app).1).1 = (set_parentS c6app).1 := by
  refine ⟨by decide,
    ⟨{ oid := 0, file_obj := FileObj.file ⟨"y"⟩, is_df := false, emptyFlag := false,
       stagedOut := false, state := FState.pending, stageCount := 0 },
     by decide, by decide, by decide⟩,
    by decide, by decide,
    ⟨{ oid := 0, file_obj := FileObj.file ⟨"y"⟩, is_df := false, emptyFlag := false,
       stagedOut := false, state := FState.pending, stageCount := 0 },
     by decide, by decide⟩,
    by decide, by decide⟩

/-- C6 (corrected): `set_parent` succeeds at most once, but "exactly once"
fails in both directions.  (i) With a parent already attached, every call
fails with ValueError and changes nothing.  (ii) The first call succeeds when
the high-water mark is still −1 (nothing to promote): it attaches the parent.
(iii) On a list holding a not-yet-promoted slot at the start of the promotion
range, the first call raises TypeError from the unbindable `DataFuture` call —
after attaching the parent, without promoting the slot — so no call on that
list ever succeeds, and in particular the claimed retroactive
promotion-with-staging of already-filled slots never happens. -/
theorem set_parent_at_most_once_never_twice (s : DFL) :
    (s.parentSet = true →
       set_parentS s = (s, some (Err.valueError "Parent future already set"))) ∧
    (s.parentSet = false → s.task = FState.pending → s.last_idx = -1 →
       (set_parentS s).2 = none ∧ (set_parentS s).1.parentSet = true) ∧
    (∀ oid w, s.parentSet = false → s.task = FState.pending →
       s.slots.get? 0 = some oid → heapGet s oid = some w → w.is_df = false →
       0 ≤ s.last_idx →
       (set_parentS s).2 = some dfkTypeError ∧
       (set_parentS s).1 = { s with parentSet := true } ∧
       heapGet (set_parentS s).1 oid = some w ∧
       (set_parentS (set_parentS s).1).2 =
         some (Err.valueError "Parent future already set")) := by
  refine ⟨?_, ?_, ?_⟩
  · intro h
    unfold set_parentS
    rw [h]
    rfl
  · intro hp ht hlast
    have hsp : set_parentS s = promoteLoopS { s with parentSet := true } 0
        (({ s with parentSet := true } : DFL).last_idx + 1).toNat := by
      unfold set_parentS
      rw [hp]
      simp only [Bool.false_eq_true, if_false]
      rw [if_neg (show ¬(({ s with parentSet := true } : DFL).task ≠ FState.pending) by
        show ¬(s.task ≠ FState.pending)
        rw [ht]
        exact fun hne => hne rfl)]
    have hfuel : (({ s with parentSet := true } : DFL).last_idx + 1).toNat = 0 := by
      show (s.last_idx + 1).toNat = 0
      omega
    rw [hsp, hfuel]
    refine ⟨rfl, ?_⟩
    rw [show (promoteLoopS { s with parentSet := true } 0 0).1 =
        callCallbacks { s with parentSet := true } from rfl,
      (callCallbacks_fields _).2.2.2.2.1]
  · intro oid w hp ht h0 hw hdf hlast
    have habort := set_parentS_aborts_at_zero s oid w hp ht h0 hw hdf hlast
    refine ⟨by rw [habort], by rw [habort], ?_, ?_⟩
    · rw [habort]
      exact hw
    · rw [habort]
      rfl

/-- Witness for the corrected C6 theorem: all three regimes concretely. -/
theorem set_parent_at_most_once_never_twice_witness :
    set_parentS c6par = (c6par, some (Err.valueError "Parent future already set")) ∧
    ((set_parentS initDFL).2 = none ∧ (set_parentS initDFL).1.parentSet = true) ∧
    (set_parentS c6app).2 = some dfkTypeError := by
  refine ⟨(set_parent_at_most_once_never_twice c6par).1 (by decide),
    (set_parent_at_most_once_never_twice initDFL).2.1 (by decide) (by decide) (by decide),
    ?_⟩
  have h3 := (set_parent_at_most_once_never_twice c6app).2.2 0
    { oid := 0, file_obj := FileObj.file ⟨"y"⟩, is_df := false, emptyFlag := false,
      stagedOut := false, state := FState.pending, stageCount := 0 }
    (by decide) (by decide) (by decide) (by decide) (by decide) (by decide)
  exact h3.1

/-! ## Claim C5: indexed writes fill an empty slot exactly once -/

/-- Successful staged indexed write into an empty auto-created slot with no
producing task attached: full shape of the resulting state. -/
theorem setItemFS_fill (s : DFL) (i oid : Nat) (w : DynFile) (f : File)
    (hp : s.parentSet = false)
    (hslot : s.slots.get? i = some oid) (hw : heapGet s oid = some w)
    (hempty : w.emptyFlag = true) (hfo : w.file_obj = FileObj.fnone)
    (hnone : dictMem s.files_done none = false) :
    (setItemFS s i f).2 = none ∧
    (setItemFS s i f).1.slots = s.slots ∧
    (setItemFS s i f).1.files_done =
      dictSet (dictSet s.files_done (some f.fname) oid) (some f.fname) oid ∧
    (setItemFS s i f).1.last_idx = max s.last_idx (i : Int) ∧
    (∃ w1, heapGet (setItemFS s i f).1 oid = some w1 ∧ w1.emptyFlag = false ∧
       w1.is_df = false) := by
  have hlen : i < s.slots.length := by
    by_contra hge
    rw [List.get?_eq_none.mpr (by omega)] at hslot
    exact Option.noConfusion hslot
  have hgi : getItem s i = (s, some oid) := by
    unfold getItem
    rw [if_neg (Nat.not_le.mpr hlen)]
    show (s, s.slots.get? i) = (s, some oid)
    rw [hslot]
  have hfn : dynFilename s.heap w = none := by
    simp [dynFilename, hfo, fobjPath_fnone]
  have hoidlt : oid < s.heap.length := by
    by_contra hge
    rw [heapGet, List.get?_eq_none.mpr (by omega)] at hw
    exact Option.noConfusion hw
  unfold setItemFS
  rw [hgi]
  simp only [hw, hfn, hnone, Bool.false_eq_true, if_false, hempty, if_true, hp]
  have hdynSet : dynSet s oid (FileObj.file f) =
      { setHeap s oid { w with file_obj := FileObj.file f, emptyFlag := false, is_df := false } with
        files_done := dictSet s.files_done (some f.fname) oid } := by
    unfold dynSet
    rw [hw]
    show ({ setHeap s oid { w with file_obj := FileObj.file f, emptyFlag := false, is_df := false } with
        files_done := dictSet s.files_done
          (fobjPath (s.heap.set oid
              { w with file_obj := FileObj.file f, emptyFlag := false, is_df := false })
            (s.heap.set oid
              { w with file_obj := FileObj.file f, emptyFlag := false, is_df := false }).length
            (FileObj.file f))
          oid } : DFL) = _
    rw [fobjPath_file]
  rw [hdynSet]
  set w1 : DynFile :=
    { w with file_obj := FileObj.file f, emptyFlag := false, is_df := false } with hw1def
  have hget2 : heapGet { setHeap s oid w1 with
      files_done := dictSet s.files_done (some f.fname) oid } oid = some w1 := by
    simp [heapGet, setHeap, List.get?_eq_getElem?, List.getElem?_set_eq_of_lt _ hoidlt]
  have hfn2 : heapFilename { setHeap s oid w1 with
      files_done := dictSet s.files_done (some f.fname) oid } oid = some f.fname := by
    rw [heapFilename, hget2]
    simp only [dynFilename, hw1def]
    exact fobjPath_file _ _ _
  rw [hfn2]
  set s4 : DFL :=
    { setHeap s oid w1 with
      files_done := dictSet (dictSet s.files_done (some f.fname) oid) (some f.fname) oid,
      last_idx := max (setHeap s oid w1).last_idx (i : Int) } with hs4def
  obtain ⟨c1, c2, c3, c4, c5', c6, c7, c8, c9, c10, c11⟩ := callCallbacks_fields s4
  have hlen5 : i < (callCallbacks s4).slots.length := by
    rw [c2]
    simpa [hs4def, setHeap] using hlen
  obtain ⟨t1, t2, t3, t4, t5, t6, t7, t8, t9, t10, t11, t12⟩ :=
    stage_file_fields (callCallbacks s4) i hlen5
  refine ⟨trivial, ?_, ?_, ?_, ?_⟩
  · rw [t1, c2, hs4def]; simp [setHeap]
  · rw [t2, c3, hs4def]
  · rw [t3, c4, hs4def]; simp [setHeap]
  · have hget5 : heapGet (callCallbacks s4) oid = some w1 := by
      rw [heapGet, c1]
      simpa [heapGet] using hget2
    obtain ⟨w2, hw2, hoid2, hfo2, hdf2, hemp2, hstg2, hst2, hcnt2⟩ := t12 oid w1 hget5
    exact ⟨w2, hw2, by rw [hemp2], by rw [hdf2]⟩

/-- A staged indexed write to a non-empty slot fails after the completion-map
deletion, leaving slots and heap untouched. -/
theorem setItemFS_nonempty (s : DFL) (i oid : Nat) (w : DynFile) (g : File)
    (hslot : s.slots.get? i = some oid) (hw : heapGet s oid = some w)
    (hne : w.emptyFlag = false) :
    (setItemFS s i g).2 = some (Err.valueError "Cannot set a value that is not empty") ∧
    (setItemFS s i g).1.slots = s.slots ∧
    (setItemFS s i g).1.heap = s.heap := by
  have hlen : i < s.slots.length := by
    by_contra hge
    rw [List.get?_eq_none.mpr (by omega)] at hslot
    exact Option.noConfusion hslot
  have hgi : getItem s i = (s, some oid) := by
    unfold getItem
    rw [if_neg (Nat.not_le.mpr hlen)]
    show (s, s.slots.get? i) = (s, some oid)
    rw [hslot]
  unfold setItemFS
  rw [hgi]
  simp only [hw, hne, Bool.false_eq_true, if_false]
  split <;> exact ⟨trivial, rfl, rfl⟩

/-- The staged indexed write into an empty fresh slot with a producing task
attached: TypeError, state unchanged (the slot's None filename is not in the
completion map, so even the preceding deletion is a no-op). -/
theorem setItemFS_parent_typeError (s : DFL) (i oid : Nat) (w : DynFile) (f : File)
    (hp : s.parentSet = true)
    (hslot : s.slots.get? i = some oid) (hw : heapGet s oid = some w)
    (hempty : w.emptyFlag = true) (hfo : w.file_obj = FileObj.fnone)
    (hnone : dictMem s.files_done none = false) :
    setItemFS s i f = (s, some dfkTypeError) := by
  have hlen : i < s.slots.length := by
    by_contra hge
    rw [List.get?_eq_none.mpr (by omega)] at hslot
    exact Option.noConfusion hslot
  have hgi : getItem s i = (s, some oid) := by
    unfold getItem
    rw [if_neg (Nat.not_le.mpr hlen)]
    show (s, s.slots.get? i) = (s, some oid)
    rw [hslot]
  have hfn : dynFilename s.heap w = none := by
    simp [dynFilename, hfo, fobjPath_fnone]
  unfold setItemFS
  rw [hgi]
  simp [hw, hfn, hnone, hempty, hp]

/-- A producing task attached to a fresh list (the empty-list `set_parent`
succeeds), then an indexed read auto-creates the Empty slot 0. -/
def c5par : DFL := (getItem (set_parentS initDFL).1 0).1

/-- C5 counterexample: in this reachable state the FIRST indexed write into
the Empty slot already fails — `__setitem__`'s value conversion is the
unbindable `DataFuture` call (missing `dfk`), so it raises TypeError and the
slot stays Empty. -/
theorem first_write_raises_with_parent_cex :
    c5par.parentSet = true ∧
    (∃ w, heapGet c5par 0 = some w ∧ w.emptyFlag = true) ∧
    (setItemFS c5par 0 ⟨"f"⟩).2 = some dfkTypeError ∧
    (∃ w, heapGet (setItemFS c5par 0 ⟨"f"⟩).1 0 = some w ∧ w.emptyFlag = true) := by
  refine ⟨by decide, ⟨mtW 0, by decide, by decide⟩, by decide,
    ⟨mtW 0, by decide, by decide⟩⟩

/-- C5 (corrected): without a producing task attached, an indexed write into
an Empty slot succeeds exactly once — it fills the slot, registers the
completion predicate under the written name, and raises the high-water mark —
and a second write to the now non-Empty index fails with ValueError (the
spec's StateError), leaving the slot untouched.  With a producing task
attached, the staged `__setitem__` raises TypeError from its unbindable
`DataFuture` value conversion instead, and the write never happens. -/
theorem indexed_write_once_no_producer (s : DFL) (i oid : Nat) (w : DynFile) (f g : File)
    (hslot : s.slots.get? i = some oid) (hw : heapGet s oid = some w)
    (hempty : w.emptyFlag = true) (hfo : w.file_obj = FileObj.fnone)
    (hnone : dictMem s.files_done none = false) :
    (s.parentSet = false →
       (setItemFS s i f).2 = none ∧
       (setItemFS s i f).1.slots = s.slots ∧
       dictMem (setItemFS s i f).1.files_done (some f.fname) = true ∧
       (setItemFS s i f).1.last_idx = max s.last_idx (i : Int) ∧
       (∃ w1, heapGet (setItemFS s i f).1 oid = some w1 ∧ w1.emptyFlag = false) ∧
       (setItemFS (setItemFS s i f).1 i g).2 =
         some (Err.valueError "Cannot set a value that is not empty") ∧
       (setItemFS (setItemFS s i f).1 i g).1.slots = (setItemFS s i f).1.slots ∧
       heapGet (setItemFS (setItemFS s i f).1 i g).1 oid =
         heapGet (setItemFS s i f).1 oid) ∧
    (s.parentSet = true → setItemFS s i f = (s, some dfkTypeError)) := by
  constructor
  · intro hp
    obtain ⟨h1, h2, h3, h4, h5⟩ := setItemFS_fill s i oid w f hp hslot hw hempty hfo hnone
    obtain ⟨w1, hw1, hne, hdf⟩ := h5
    have hslot2 : (setItemFS s i f).1.slots.get? i = some oid := by
      rw [h2]
      exact hslot
    obtain ⟨g1, g2, g3⟩ := setItemFS_nonempty (setItemFS s i f).1 i oid w1 g hslot2 hw1 hne
    refine ⟨h1, h2, by rw [h3]; exact dictMem_dictSet_self _ _ _, h4,
      ⟨w1, hw1, hne⟩, g1, g2, ?_⟩
    rw [heapGet, heapGet, g3]
  · intro hp
    exact setItemFS_parent_typeError s i oid w f hp hslot hw hempty hfo hnone

/-- Witness for the corrected C5 theorem: both regimes concretely. -/
theorem indexed_write_once_no_producer_witness :
    (setItemFS (getItem initDFL 0).1 0 ⟨"f"⟩).2 = none ∧
    (setItemFS (setItemFS (getItem initDFL 0).1 0 ⟨"f"⟩).1 0 ⟨"g"⟩).2 =
      some (Err.valueError "Cannot set a value that is not empty") ∧
    setItemFS c5par 0 ⟨"h"⟩ = (c5par, some dfkTypeError) := by
  have h1 := (indexed_write_once_no_producer (getItem initDFL 0).1 0 0 (mtW 0) ⟨"f"⟩ ⟨"g"⟩
    (by decide) (by decide) (by decide) (by decide) (by decide)).1 (by decide)
  have h2 := (indexed_write_once_no_producer c5par 0 0 (mtW 0) ⟨"h"⟩ ⟨"h"⟩
    (by decide) (by decide) (by decide) (by decide) (by decide)).2 (by decide)
  exact ⟨h1.1, h1.2.2.2.2.2.1, h2⟩

/-! ## Claim C8: views over a parent list, revisited -/

/-- An open-ended python slice `l[a:]` with `a` in range is `drop a`. -/
theorem pySlice_open {α : Type} (l : List α) (a : Nat) (h : a ≤ l.length) :
    pySlice l (some a) none = l.drop a := by
  unfold pySlice
  simp only [Option.getD_some, Option.getD_none]
  rw [Nat.min_eq_left h, Nat.min_self]
  exact List.take_all_of_le (by rw [List.length_drop])

/-- In the growth branch with no producing task attached, `append` ends with a
single observer dispatch over the slots extended by the fresh wrapper: the
refreshed open-ended view `[a:]` then ends with the new element. -/
theorem appendFile_grow_open_view (s : DFL) (f : File) (j a : Nat) (v : SubView)
    (hp : s.parentSet = false) (hl : s.listState = FState.pending)
    (hcb : s.in_callback = false)
    (hK : s.last_idx = (s.slots.length : Int) - 1)
    (hv : s.subs.get? j = some v) (ha : v.start? = some a) (hb : v.stop? = none)
    (haen : a ≤ s.slots.length) :
    ∃ v2, (appendFileS s f).1.subs.get? j = some v2 ∧
      v2.slots = s.slots.drop a ++ [s.heap.length] := by
  rw [appendFileS_no_parent s f hp]
  set wf : DynFile :=
    { oid := s.heap.length, file_obj := FileObj.file f, is_df := false,
      emptyFlag := false, stagedOut := false, state := FState.pending,
      stageCount := 0 } with hwfdef
  have hwrap : wrap s (FileObj.file f) =
      ({ s with heap := s.heap ++ [wf] }, s.heap.length) := by
    simp [wrap, hl, hwfdef, isDFobj]
  have hfo2 : (if s.parentSet = true then FileObj.df (mkDF s f s.output_task_id)
      else FileObj.file f) = FileObj.file f := by simp [hp]
  have happ : appendFile s f =
      appendObj { s with heap := s.heap ++ [wf] } s.heap.length := by
    unfold appendFile
    rw [hfo2]
    show appendObj (wrap s (FileObj.file f)).1 (wrap s (FileObj.file f)).2 = _
    rw [hwrap]
  set sa : DFL := { s with heap := s.heap ++ [wf] } with hsadef
  have hbranch : sa.last_idx = (sa.slots.length : Int) - 1 := hK
  set sb : DFL := { sa with slots := sa.slots ++ [s.heap.length] } with hsbdef
  have happ2 : appendFile s f = appendFinish sb s.heap.length := by
    rw [happ]
    unfold appendObj
    rw [if_pos hbranch]
  have htonat : (sb.last_idx + 1).toNat = s.slots.length := by
    show (s.last_idx + 1).toNat = s.slots.length
    omega
  have hgetb : sb.slots.get? (sb.last_idx + 1).toNat = some s.heap.length := by
    rw [htonat]
    show (s.slots ++ [s.heap.length]).get? s.slots.length = some s.heap.length
    exact List.get?_concat_length _ _
  have hgetwf : heapGet sb s.heap.length = some wf := by
    show (s.heap ++ [wf]).get? s.heap.length = some wf
    exact List.get?_concat_length _ _
  have hfnwf : heapFilename sb s.heap.length = some f.fname := by
    rw [heapFilename, hgetwf]
    show fobjPath sb.heap sb.heap.length wf.file_obj = some f.fname
    exact fobjPath_file _ _ _
  have hfin : appendFile s f =
      (callCallbacks (stage_file
        { sb with files_done := dictSet sb.files_done (some f.fname) s.heap.length,
                  last_idx := sb.last_idx + 1 }
        (sb.last_idx + 1).toNat), none) := by
    rw [happ2]
    unfold appendFinish
    rw [hgetb, hfnwf]
  set sc : DFL :=
    { sb with files_done := dictSet sb.files_done (some f.fname) s.heap.length,
              last_idx := sb.last_idx + 1 } with hscdef
  have hlenc : (sb.last_idx + 1).toNat < sc.slots.length := by
    show (sb.last_idx + 1).toNat < (s.slots ++ [s.heap.length]).length
    rw [htonat]
    simp
  have hgc : sc.slots.get? (sb.last_idx + 1).toNat = some s.heap.length := hgetb
  have hscp : sc.parentSet = false := hp
  have hstage : stage_file sc (sb.last_idx + 1).toNat = sc := by
    unfold stage_file
    by_cases hdfs : sc.dataflowSet = true
    · rw [if_neg (by rw [hdfs]; exact Bool.false_ne_true)]
      have hgi : getItem sc (sb.last_idx + 1).toNat = (sc, some s.heap.length) := by
        unfold getItem
        rw [if_neg (Nat.not_le.mpr hlenc)]
        show (sc, sc.slots.get? (sb.last_idx + 1).toNat) = _
        rw [hgc]
      show stage_core (getItem sc (sb.last_idx + 1).toNat).1 (sb.last_idx + 1).toNat = sc
      rw [hgi]
      unfold stage_core
      rw [hgc]
      simp only []
      rw [show heapGet sc s.heap.length = some wf from hgetwf]
      simp [hwfdef, hscp]
    · have hd0 : sc.dataflowSet = false := by
        cases h : sc.dataflowSet
        · rfl
        · exact absurd h hdfs
      rw [if_pos (by rw [hd0]; rfl)]
  have hscb : sc.in_callback = false := hcb
  have hsub : (appendFile s f).1.subs.get? j =
      some (refreshSub { sc with in_callback := true } v) := by
    rw [hfin]
    show (callCallbacks (stage_file sc (sb.last_idx + 1).toNat)).subs.get? j = _
    rw [hstage]
    unfold callCallbacks
    rw [if_neg (by rw [hscb]; exact Bool.false_ne_true)]
    show (s.subs.map (refreshSub { sc with in_callback := true })).get? j = _
    rw [List.get?_map, hv]
    rfl
  refine ⟨refreshSub { sc with in_callback := true } v, hsub, ?_⟩
  show (subContent { sc with in_callback := true } v.start? v.stop?).1 =
    s.slots.drop a ++ [s.heap.length]
  rw [ha, hb]
  show pySlice (s.slots ++ [s.heap.length]) (some a) none =
    s.slots.drop a ++ [s.heap.length]
  rw [pySlice_open _ a (by simp; omega), List.drop_append_of_le_length haen]

/-- Parent for the open-view fill probe: one appended artifact, then a read at
index 2 leaves two empty placeholder slots above the high-water mark. -/
def c8probe : DFL := (getItem (appendFile initDFL ⟨"a"⟩).1 2).1

/-- Open-ended view `[2:]` registered over `c8probe`. -/
def c8probeV : DFL := (getSlice c8probe (some 2) none).1

/-- The view registered by the slice read building `c8open`. -/
def c8openView : SubView :=
  { start? := some 0, stop? := none, fixed := false, slots := [0, 1],
    files_done := [(some "a", 0), (some "b", 1)], last_idx := 1 }

/-- C8 (amended): a view with an open-ended upper bound reflects appends that
grow the parent past the view's window — when the high-water mark sits at the
end of the list (the growth branch of `append`; with a producing task attached
the staged append raises TypeError instead) and the view starts inside the
list, the appended element becomes the last element of the refreshed view.  An
append that lands in a placeholder below the view's start is NOT reflected: in
the probe, the open view `[2:]` is unchanged by an append that nests the new
wrapper into placeholder slot 1.  A view with both bounds `[a:b]` never holds
more than `b - a` elements under any operation sequence (bounded by its range,
though not by its creation length, which the slice read's padding can leave
below `b - a`). -/
theorem open_view_growth_and_bounds :
    (∀ (s : DFL) (f : File) (j a : Nat) (v : SubView),
       s.parentSet = false → s.listState = FState.pending → s.in_callback = false →
       s.last_idx = (s.slots.length : Int) - 1 →
       s.subs.get? j = some v → v.start? = some a → v.stop? = none →
       a ≤ s.slots.length →
       ∃ v2, (appendFileS s f).1.subs.get? j = some v2 ∧
         v2.slots = s.slots.drop a ++ [s.heap.length]) ∧
    (c8probeV.subs.map (fun v => v.slots) = [[2]] ∧
     (appendFileS c8probeV ⟨"b"⟩).2 = none ∧
     (appendFileS c8probeV ⟨"b"⟩).1.subs.map (fun v => v.slots) = [[2]] ∧
     (∃ w, heapGet (appendFileS c8probeV ⟨"b"⟩).1 1 = some w ∧
        w.file_obj = FileObj.dyn 3)) ∧
    (∀ (s : DFL) (ops : List Op) (j : Nat) (v : SubView) (a b : Nat),
      (∀ j0 v0, s.subs.get? j0 = some v0 → ViewOK v0) →
      (runOps s ops).subs.get? j = some v →
      v.start? = some a → v.stop? = some b → v.slots.length ≤ b - a) := by
  refine ⟨fun s f j a v hp hl hcb hK hv ha hb haen =>
      appendFile_grow_open_view s f j a v hp hl hcb hK hv ha hb haen,
    ⟨by decide, by decide, by decide,
     ⟨{ oid := 1, file_obj := FileObj.dyn 3, is_df := false, emptyFlag := false,
        stagedOut := false, state := FState.pending, stageCount := 0 },
      by decide, by decide⟩⟩,
    fun s ops j v a b hall hv ha hb => ?_⟩
  rcases SubsStep_runOps ops s j v hv with h | h
  · exact hall j v h a b ha hb
  · exact h a b ha hb

/-- Witness for the amended C8 theorem: the open `[0:]` view over a two-slot
parent picks up a third append, and the fixed `[0:2]` view of `c8fix` is
bounded by its range. -/
theorem open_view_growth_and_bounds_witness :
    (c8open.subs.get? 0 = some c8openView ∧
     (∃ v2, (appendFileS c8open ⟨"c"⟩).1.subs.get? 0 = some v2 ∧
        v2.slots = c8open.slots.drop 0 ++ [c8open.heap.length])) ∧
    ((∀ j0 v0, c8fix.subs.get? j0 = some v0 → ViewOK v0) ∧
     (runOps c8fix []).subs.get? 0 = some c8fixView ∧
     c8fixView.slots.length ≤ 2 - 0) := by
  have hv : c8open.subs.get? 0 = some c8openView := by
    have h1 : c8open.subs = [c8openView] := by decide
    rw [h1]
    rfl
  refine ⟨⟨hv, open_view_growth_and_bounds.1 c8open ⟨"c"⟩ 0 0 c8openView (by decide)
      (by decide) (by decide) (by decide) hv rfl rfl (by decide)⟩, ?_⟩
  have hsub : c8fix.subs = [c8fixView] := by decide
  have hall : ∀ j0 v0, c8fix.subs.get? j0 = some v0 → ViewOK v0 := by
    intro j0 v0 h0
    rw [hsub] at h0
    match j0, h0 with
    | 0, h0 =>
      cases Option.some.inj h0
      intro a b ha hb
      cases Option.some.inj ha
      cases Option.some.inj hb
      decide
    | n + 1, h0 => exact Option.noConfusion h0
  have hget : (runOps c8fix []).subs.get? 0 = some c8fixView := by
    show c8fix.subs.get? 0 = some c8fixView
    rw [hsub]
    rfl
  exact ⟨hall, hget,
    open_view_growth_and_bounds.2.2 c8fix [] 0 c8fixView 0 2 hall hget rfl rfl⟩

end DynFiles
